import Mathlib

/-!
# GenericMarkovChain: a shallow embedding of `markov_chain.c` and its clients

Pointers are modelled as follows.

* `void *` payload pointers are `Option T` (`none` is `NULL`); the four
  capabilities of a chain receive and return such pointers.
* The database is the linked list of the chain, kept as a Lean list in insertion
  order.  A `Node *` and the `MarkovNode *` stored in that node are both
  represented by the position of the node in the database (`Option Nat` where the
  pointer may be `NULL`).  Nodes are never removed, so positions are stable.
* `counter_list` is the allocated array of a node, `counter_list_length` the
  separate `int` field next to it; a pointer into the array is an offset.
* `int` counters that are only ever incremented from zero (`frequency`,
  `counter_list_length`, sums of frequencies) are natural numbers; `max_length`,
  which a caller may pass as zero or negative, is an integer.  The 32-bit range of
  `int` is not modelled.
* The result of each `rand ()` call and the outcome of each allocation are explicit
  arguments.
* The header `markov_chain.h` and the linked list are not among the sources: the
  structures have the fields that `markov_chain.c` reads and writes, and the
  list function `add` follows the description of the registry in the spec.
-/

namespace GenericMarkovChain

/-! ## Data model -/

/-- Undefined behaviour of the C code that the model makes observable. -/
inductive Fault where
  /-- Evaluation of `rand () % 0` in `get_random_number`. -/
  | div_by_zero
  /-- Read of a `counter_list` entry at or past the end of the array. -/
  | out_of_bounds
  /-- Dereference of `NULL` or of a pointer to no database node. -/
  | null_deref
  deriving DecidableEq, Repr

/-- Outcome of running a C function: a value, or a detected fault. -/
inductive Res (α : Type) where
  | ok : α → Res α
  | fault : Fault → Res α
  deriving DecidableEq, Repr

/-- One entry of a `counter_list`: `markov_node` is the `Node *` of the target in the
database, `frequency` the number of observations. -/
structure NextNodeCounter where
  markov_node : Option Nat
  frequency : Nat
  deriving DecidableEq, Repr

/-- A state: the payload pointer, the edge array and its recorded length. -/
structure MarkovNode (T : Type) where
  data : Option T
  counter_list : List NextNodeCounter
  counter_list_length : Nat
  deriving DecidableEq, Repr

/-- A chain: the database and the capabilities bound to the payload type.  The
printing capability is represented by the trace of emitted states of a walk, and
`free_data` has no observable effect in the model. -/
structure MarkovChain (T : Type) where
  database : List (MarkovNode T)
  comp_func : Option T → Option T → Int
  copy_func : Option T → Option T
  is_last : Option T → Bool

variable {T : Type}

/-! ## Sampling (`markov_chain.c`, lines 8-59) -/

/-- `get_random_number`: `rand () % max_number`, where `rand` is the value returned by
`rand ()`. -/
def get_random_number (rand max_number : Nat) : Res Nat :=
  if max_number = 0 then .fault .div_by_zero else .ok (rand % max_number)

/-- The retry loop of `get_first_random_node`.  `fuel` bounds the number of rounds
(`none` when it is used up), `pos` is the number of draws consumed so far; the result
holds the chosen node and the number of draws consumed. -/
def get_first_random_node (mc : MarkovChain T) (rands : Nat → Nat) :
    Nat → Nat → Option (Res (Nat × Nat))
  | 0, _ => none
  | fuel + 1, pos =>
    match get_random_number (rands pos) mc.database.length with
    | .fault f => some (.fault f)
    | .ok rand =>
      match mc.database.drop rand with
      | [] => some (.fault .null_deref)
      | iter :: _ =>
        if mc.is_last iter.data then get_first_random_node mc rands fuel (pos + 1)
        else some (.ok (rand, pos + 1))

/-- The `for` loop of `get_counter_list_sum`: `iter1` is the rest of the array, `j` counts
down the iterations that remain. -/
def get_counter_list_sum_loop : List NextNodeCounter → Nat → Nat → Res Nat
  | _, 0, sum => .ok sum
  | [], _ + 1, _ => .fault .out_of_bounds
  | iter1 :: rest, j + 1, sum => get_counter_list_sum_loop rest j (sum + iter1.frequency)

/-- `get_counter_list_sum`: the sum of the first `counter_list_length` frequencies. -/
def get_counter_list_sum (state_struct_ptr : MarkovNode T) : Res Nat :=
  get_counter_list_sum_loop state_struct_ptr.counter_list
    state_struct_ptr.counter_list_length 0

/-- The `while (r >= iter->frequency)` scan of `get_next_random_node`.  The list is the
array from `iter` on, `i` the offset of `iter`; the result is the offset where the scan
stops. -/
def get_next_random_node_scan : List NextNodeCounter → Nat → Nat → Res Nat
  | [], _, _ => .fault .out_of_bounds
  | iter :: rest, r, i =>
    if r ≥ iter.frequency then get_next_random_node_scan rest (r - iter.frequency) (i + 1)
    else .ok i

/-- The first part of `get_next_random_node`: the offset in `counter_list` at which `iter`
stands when the scan ends. -/
def get_next_random_node_iter (state_struct_ptr : MarkovNode T) (rand : Nat) : Res Nat :=
  match get_counter_list_sum state_struct_ptr with
  | .fault f => .fault f
  | .ok sum =>
    match get_random_number rand sum with
    | .fault f => .fault f
    | .ok r => get_next_random_node_scan state_struct_ptr.counter_list r 0

/-- The expression `iter->markov_node->data` for a counter-list entry. -/
def next_node_data (mc : MarkovChain T) (iter : NextNodeCounter) : Res Nat :=
  match iter.markov_node with
  | none => .fault .null_deref
  | some node => if node < mc.database.length then .ok node else .fault .null_deref

/-- `get_next_random_node`: sample a successor of the state at `state_struct_ptr`. -/
def get_next_random_node (mc : MarkovChain T) (state_struct_ptr : Nat) (rand : Nat) :
    Res Nat :=
  match mc.database[state_struct_ptr]? with
  | none => .fault .null_deref
  | some state =>
    match get_next_random_node_iter state rand with
    | .fault f => .fault f
    | .ok i =>
      match state.counter_list[i]? with
      | none => .fault .out_of_bounds
      | some iter => next_node_data mc iter

/-! ## Walk generation (`markov_chain.c`, lines 61-83) -/

/-- How a call of `generate_random_sequence` ended. -/
inductive WalkEnd where
  /-- The function returned. -/
  | finished
  /-- The function ran into undefined behaviour. -/
  | faulted (f : Fault)
  /-- The start selection did not return within the given number of rounds. -/
  | no_start
  /-- The iteration budget of the model ran out (never the case, see
  `generate_random_sequence_loop_budget`). -/
  | no_budget
  deriving DecidableEq, Repr

/-- The observable behaviour of a walk: the states handed to `print_func`, in order, and
how the call ended. -/
structure Walk where
  emitted : List Nat
  ending : WalkEnd
  deriving DecidableEq, Repr

/-- The `do ... while (--max_length > 0 && !is_last (next->data))` loop.  `max_length` is
the value of the variable on entry of an iteration, `pos` the index of the next draw. -/
def generate_random_sequence_loop (mc : MarkovChain T) (rands : Nat → Nat) :
    Nat → Nat → Nat → Int → Walk
  | 0, _, _, _ => ⟨[], .no_budget⟩
  | budget + 1, pos, next, max_length =>
    match get_next_random_node mc next (rands pos) with
    | .fault f => ⟨[], .faulted f⟩
    | .ok next1 =>
      match mc.database[next1]? with
      | none => ⟨[], .faulted .null_deref⟩
      | some state =>
        if max_length - 1 > 0 ∧ mc.is_last state.data = false then
          let rest := generate_random_sequence_loop mc rands budget (pos + 1) next1
            (max_length - 1)
          ⟨next1 :: rest.emitted, rest.ending⟩
        else ⟨[next1], .finished⟩

/-- `generate_random_sequence`.  `first_node = none` is the `NULL` argument; `fuel` bounds
the rounds of the start selection only. -/
def generate_random_sequence (fuel : Nat) (rands : Nat → Nat) (mc : MarkovChain T)
    (first_node : Option Nat) (max_length : Int) : Walk :=
  let start : Option (Res (Nat × Nat)) :=
    match first_node with
    | none => get_first_random_node mc rands fuel 0
    | some node => some (.ok (node, 0))
  match start with
  | none => ⟨[], .no_start⟩
  | some (.fault f) => ⟨[], .faulted f⟩
  | some (.ok (next, pos)) =>
    match mc.database[next]? with
    | none => ⟨[], .faulted .null_deref⟩
    | some _ =>
      let rest := generate_random_sequence_loop mc rands ((max_length - 1).toNat + 1) pos
        next (max_length - 1)
      ⟨next :: rest.emitted, rest.ending⟩

/-- The payloads that `print_func` receives during a walk. -/
def Walk.printed (mc : MarkovChain T) (w : Walk) : List (Option T) :=
  w.emitted.map fun node =>
    match mc.database[node]? with
    | some state => state.data
    | none => none

/-! ## Registry (`markov_chain.c`, lines 228-276) -/

/-- The `while` loop of `get_node_from_database`: `iter` is the head of the list, `i` its
position in the database. -/
def get_node_from_database_loop (comp_func : Option T → Option T → Int)
    (data_ptr : Option T) : List (MarkovNode T) → Nat → Option Nat
  | [], _ => none
  | iter :: rest, i =>
    if comp_func iter.data data_ptr ≠ 0 then
      get_node_from_database_loop comp_func data_ptr rest (i + 1)
    else some i

/-- `get_node_from_database`: the node holding a payload equal to `data_ptr`, or `NULL`. -/
def get_node_from_database (mc : MarkovChain T) (data_ptr : Option T) : Option Nat :=
  if data_ptr.isNone ∨ mc.database.isEmpty then none
  else get_node_from_database_loop mc.comp_func data_ptr mc.database 0

/-- `create_markov_node`.  `mem` tells whether `calloc` succeeds; when it does not, the
assignment to `markov_node->data` writes through `NULL`.  The result of `copy_func` is
stored unchecked. -/
def create_markov_node (mem : Bool) (mc : MarkovChain T) (data_ptr : Option T) :
    Res (Option (MarkovNode T)) :=
  if mem then .ok (some ⟨mc.copy_func data_ptr, [], 0⟩) else .fault .null_deref

/-- Modelled from the spec: the linked-list function `add` of the repository is not among
the sources; the spec says a new state is appended to the registry, insertion order
preserved.  The call site tests the result against `1` for an allocation failure; `mem`
tells whether the allocation of the list cell succeeds. -/
def add (mem : Bool) (database : List (MarkovNode T)) (data : MarkovNode T) :
    List (MarkovNode T) × Int :=
  if mem then (database ++ [data], 0) else (database, 1)

/-- `add_to_database`.  The chain of the result is `none` once `free_markov_chain` has run
on it. -/
def add_to_database (mem_node mem_cell : Bool) (mc : MarkovChain T) (data_ptr : Option T) :
    Res (Option (MarkovChain T) × Option Nat) :=
  match get_node_from_database mc data_ptr with
  | some node => .ok (some mc, some node)
  | none =>
    match create_markov_node mem_node mc data_ptr with
    | .fault f => .fault f
    | .ok none => .ok (none, none)
    | .ok (some markov_node) =>
      match add mem_cell mc.database markov_node with
      | (database, rc) =>
        if rc = 1 then .ok (none, none)
        else
          let mc1 : MarkovChain T := ⟨database, mc.comp_func, mc.copy_func, mc.is_last⟩
          .ok (some mc1, get_node_from_database mc1 data_ptr)

/-! ## Transition table (`markov_chain.c`, lines 136-226) -/

/-- `create_new_counter_list`.  `mem` tells whether `calloc` succeeds. -/
def create_new_counter_list (mem : Bool) (first_node second_node : Nat)
    (mc : MarkovChain T) : Res (Bool × MarkovChain T) :=
  if mem then
    match mc.database[second_node]?, mc.database[first_node]? with
    | some second, some first =>
      let new_list : NextNodeCounter := ⟨get_node_from_database mc second.data, 1⟩
      let first1 : MarkovNode T :=
        ⟨first.data, [new_list], first.counter_list_length + 1⟩
      .ok (true, ⟨mc.database.set first_node first1, mc.comp_func, mc.copy_func, mc.is_last⟩)
    | _, _ => .fault .null_deref
  else .ok (false, mc)

/-- The `while` loop of `word_found_in_counter_list`.  The list is the array from `iter` on,
`n` counts down the iterations that remain.  The result is `none` when the loop ends
without a match and the updated rest of the array otherwise. -/
def word_found_in_counter_list_loop (size second_node : Nat) :
    List NextNodeCounter → Nat → Res (Option (List NextNodeCounter))
  | _, 0 => .ok none
  | [], _ + 1 => .fault .out_of_bounds
  | iter :: rest, n + 1 =>
    match iter.markov_node with
    | none => .fault .null_deref
    | some node =>
      if node < size then
        if second_node = node then
          .ok (some (⟨iter.markov_node, iter.frequency + 1⟩ :: rest))
        else
          match word_found_in_counter_list_loop size second_node rest n with
          | .fault f => .fault f
          | .ok none => .ok none
          | .ok (some rest1) => .ok (some (iter :: rest1))
      else .fault .null_deref

/-- `word_found_in_counter_list`: increment the edge to `second_node` if there is one. -/
def word_found_in_counter_list (first_node second_node : Nat) (mc : MarkovChain T) :
    Res (Bool × MarkovChain T) :=
  match mc.database[first_node]? with
  | none => .fault .null_deref
  | some first =>
    match word_found_in_counter_list_loop mc.database.length second_node
        first.counter_list first.counter_list_length with
    | .fault f => .fault f
    | .ok none => .ok (false, mc)
    | .ok (some counter_list) =>
      let first1 : MarkovNode T := ⟨first.data, counter_list, first.counter_list_length⟩
      .ok (true, ⟨mc.database.set first_node first1, mc.comp_func, mc.copy_func, mc.is_last⟩)

/-- `add_new_node_to_counter_list`.  `mem` tells whether `realloc` succeeds; the new block
keeps the first `len` entries and the new entry is written at offset `len`. -/
def add_new_node_to_counter_list (mem : Bool) (first_node second_node : Nat)
    (mc : MarkovChain T) : Res (Bool × MarkovChain T) :=
  match mc.database[first_node]? with
  | none => .fault .null_deref
  | some first =>
    let len := first.counter_list_length
    if mem then
      match mc.database[second_node]? with
      | none => .fault .null_deref
      | some second =>
        let new_node : NextNodeCounter := ⟨get_node_from_database mc second.data, 1⟩
        let first1 : MarkovNode T :=
          ⟨first.data, first.counter_list.take len ++ [new_node], len + 1⟩
        .ok (true, ⟨mc.database.set first_node first1, mc.comp_func, mc.copy_func,
          mc.is_last⟩)
    else
      let first1 : MarkovNode T := ⟨first.data, [], len⟩
      .ok (false, ⟨mc.database.set first_node first1, mc.comp_func, mc.copy_func,
        mc.is_last⟩)

/-- `add_node_to_counter_list`: record one observation of the transition from `first_node`
to `second_node`.  The result of `add_new_node_to_counter_list` is dropped, as in the
source. -/
def add_node_to_counter_list (mem : Bool) (first_node second_node : Nat)
    (mc : MarkovChain T) : Res (Bool × MarkovChain T) :=
  match mc.database[first_node]? with
  | none => .fault .null_deref
  | some first =>
    if first.counter_list_length = 0 then
      create_new_counter_list mem first_node second_node mc
    else
      match word_found_in_counter_list first_node second_node mc with
      | .fault f => .fault f
      | .ok (true, mc1) => .ok (true, mc1)
      | .ok (false, mc1) =>
        match add_new_node_to_counter_list mem first_node second_node mc1 with
        | .fault f => .fault f
        | .ok (_, mc2) => .ok (true, mc2)

/-- The driver of the repetition property: `n` calls of `add_node_to_counter_list` in a
row with the same arguments, every allocation succeeding.  The run stops at the first
call that faults or reports a failure. -/
def add_node_to_counter_list_repeat (first_node second_node : Nat) :
    Nat → MarkovChain T → Res (Bool × MarkovChain T)
  | 0, mc => .ok (true, mc)
  | n + 1, mc =>
    match add_node_to_counter_list true first_node second_node mc with
    | .fault f => .fault f
    | .ok (false, mc1) => .ok (false, mc1)
    | .ok (true, mc1) => add_node_to_counter_list_repeat first_node second_node n mc1

/-! ## The capabilities of the tweet generator (`tweets_generator.c`, lines 229-295) -/

namespace Tweets

/-- The C library function `strcmp` on the characters before the terminating NUL: zero
when the strings agree, else the difference of the first two characters that differ. -/
def strcmp : List Char → List Char → Int
  | [], [] => 0
  | [], c :: _ => 0 - (c.toNat : Int)
  | c :: _, [] => (c.toNat : Int)
  | c :: s, d :: t => if c = d then strcmp s t else (c.toNat : Int) - (d.toNat : Int)

/-- `compare_words`.  The C function hands both pointers to `strcmp`; a `NULL` argument,
which `strcmp` may not receive, is reported as different. -/
def compare_words (ptr1 ptr2 : Option String) : Int :=
  match ptr1, ptr2 with
  | some s1, some s2 => strcmp s1.toList s2.toList
  | _, _ => 1

/-- `copy_word`.  `mem` tells whether `calloc` succeeds; a `NULL` argument, which
`strlen` may not receive, yields `NULL`. -/
def copy_word (mem : Bool) (ptr : Option String) : Option String :=
  if mem then ptr else none

/-- `is_last_word`: the last character of the word is a full stop.  The words of a corpus
are tokens of `strtok` and so not empty; the read of `str[len - 1]` for an empty word is
reported as `false`, as for `NULL`. -/
def is_last_word (ptr : Option String) : Bool :=
  match ptr with
  | some str => decide (str.toList.getLast? = some '.')
  | none => false

/-- `get_markov_chain` after a successful `create_markov_chain`: an empty database with
the word capabilities.  `mem` tells whether the allocations of `copy_word` succeed. -/
def get_markov_chain (mem : Bool) : MarkovChain String :=
  ⟨[], compare_words, copy_word mem, is_last_word⟩

end Tweets

/-! ## The capabilities of the board game (`snakes_and_ladders.c`, lines 42-164) -/

namespace SnakesAndLadders

/-- A cell of the board: its number and the targets of its ladder and snake, `-1` when it
has none. -/
structure Cell where
  number : Int
  ladder_to : Int
  snake_to : Int
  deriving DecidableEq, Repr

/-- The constant `BOARD_SIZE`. -/
def BOARD_SIZE : Int := 100

/-- `compare_cells`: the difference of the cell numbers.  A `NULL` argument, which the C
function may not receive, is reported as different. -/
def compare_cells (ptr1 ptr2 : Option Cell) : Int :=
  match ptr1, ptr2 with
  | some cell1, some cell2 => cell1.number - cell2.number
  | _, _ => 1

/-- `copy_cell`.  `mem` tells whether `calloc` succeeds. -/
def copy_cell (mem : Bool) (ptr : Option Cell) : Option Cell :=
  if mem then
    match ptr with
    | some src => some ⟨src.number, src.ladder_to, src.snake_to⟩
    | none => none
  else none

/-- `is_last_cell`: the cell is the last one of the board. -/
def is_last_cell (ptr : Option Cell) : Bool :=
  match ptr with
  | some cell => decide (cell.number = BOARD_SIZE)
  | none => false

/-- `get_markov_chain` after a successful `create_markov_chain`: an empty database with
the cell capabilities.  `mem` tells whether the allocations of `copy_cell` succeed. -/
def get_markov_chain (mem : Bool) : MarkovChain Cell :=
  ⟨[], compare_cells, copy_cell mem, is_last_cell⟩

end SnakesAndLadders

/-! ## Quantities used to state the sampling law -/

/-- The sum `c_0 + ... + c_(i-1)` of the frequencies of the first `i` entries of an edge
list. -/
def weight_before (counter_list : List NextNodeCounter) (i : Nat) : Nat :=
  ((counter_list.take i).map fun e => e.frequency).sum

/-- The total weight of an edge list: the sum of all its frequencies. -/
def total_weight (counter_list : List NextNodeCounter) : Nat :=
  (counter_list.map fun e => e.frequency).sum

/-! ## Example chains -/

/-- The chain of the three-word scenario as a program: the words `a`, `b` and `c.` are
added to an empty tweet chain, then the transitions from `a` to `b` and from `b` to `c.`
are recorded once each.  The result is `none` if any call fails. -/
def scenario_abc : Option (MarkovChain String) :=
  match add_to_database true true (Tweets.get_markov_chain true) (some "a") with
  | .ok (some mc1, some a) =>
    match add_to_database true true mc1 (some "b") with
    | .ok (some mc2, some b) =>
      match add_to_database true true mc2 (some "c.") with
      | .ok (some mc3, some c) =>
        match add_node_to_counter_list true a b mc3 with
        | .ok (true, mc4) =>
          match add_node_to_counter_list true b c mc4 with
          | .ok (true, mc5) => some mc5
          | _ => none
        | _ => none
      | _ => none
    | _ => none
  | _ => none

/-- The chain that `scenario_abc` builds, written out: `a` has one edge to `b`, `b` one
edge to `c.`, and `c.` has none. -/
def scenario_abc_chain : MarkovChain String :=
  ⟨[⟨some "a", [⟨some 1, 1⟩], 1⟩, ⟨some "b", [⟨some 2, 1⟩], 1⟩, ⟨some "c.", [], 0⟩],
    Tweets.compare_words, Tweets.copy_word true, Tweets.is_last_word⟩

/-- A tweet chain in which the terminal word `c.` has a successor, as after reading the
line `c. a c.`: `c.` has one edge to `a` and `a` one edge to `c.`. -/
def scenario_cycle_chain : MarkovChain String :=
  ⟨[⟨some "c.", [⟨some 1, 1⟩], 1⟩, ⟨some "a", [⟨some 0, 1⟩], 1⟩],
    Tweets.compare_words, Tweets.copy_word true, Tweets.is_last_word⟩

/-- A tweet chain with unequal weights: `a` was followed twice by `b` and three times by
`a` itself. -/
def scenario_weighted_chain : MarkovChain String :=
  ⟨[⟨some "a", [⟨some 1, 2⟩, ⟨some 0, 3⟩], 2⟩, ⟨some "b", [], 0⟩],
    Tweets.compare_words, Tweets.copy_word true, Tweets.is_last_word⟩

/-! ## Chains built by the registry operations -/

/-- The chains that arise from a chain with an empty database by calls of
`add_to_database` on payloads, whatever the outcome of the allocations, as long as the
chain has not been freed. -/
inductive BuiltByAdd : MarkovChain T → Prop where
  | empty (mc : MarkovChain T) (h : mc.database = []) : BuiltByAdd mc
  | add_to_database (mc mc1 : MarkovChain T) (mem_node mem_cell : Bool) (v : T)
      (node : Option Nat) (h : BuiltByAdd mc)
      (hcall : add_to_database mem_node mem_cell mc (some v) = .ok (some mc1, node)) :
      BuiltByAdd mc1

/-- The chains that arise from a chain with an empty database by calls of
`add_to_database` on payloads and calls of `add_node_to_counter_list` on two states of
the registry.  A call of `add_to_database` may meet any outcome of its allocations, as
long as the chain has not been freed; the allocation of a call of
`add_node_to_counter_list` succeeds. -/
inductive Built : MarkovChain T → Prop where
  | empty (mc : MarkovChain T) (h : mc.database = []) : Built mc
  | add_to_database (mc mc1 : MarkovChain T) (mem_node mem_cell : Bool) (v : T)
      (node : Option Nat) (h : Built mc)
      (hcall : add_to_database mem_node mem_cell mc (some v) = .ok (some mc1, node)) :
      Built mc1
  | add_node_to_counter_list (mc mc1 : MarkovChain T) (first_node second_node : Nat)
      (result : Bool) (h : Built mc) (hfirst : first_node < mc.database.length)
      (hsecond : second_node < mc.database.length)
      (hcall : add_node_to_counter_list true first_node second_node mc = .ok (result, mc1)) :
      Built mc1

/-! ## Invariants of the data model -/

/-- The edge invariant of a chain: for every state, the recorded `counter_list_length` is
the number of entries of its `counter_list`, and every entry points to a state of the
registry and has a frequency of at least 1. -/
def EdgeInvariant (mc : MarkovChain T) : Prop :=
  ∀ state ∈ mc.database,
    state.counter_list_length = state.counter_list.length ∧
    ∀ e ∈ state.counter_list,
      (∃ t, e.markov_node = some t ∧ t < mc.database.length) ∧ 1 ≤ e.frequency

/-- The value of `is_last (node->data)` for a state of the registry (`false` for a pointer
to no state). -/
def is_last_node (mc : MarkovChain T) (node : Nat) : Bool :=
  match mc.database[node]? with
  | some state => mc.is_last state.data
  | none => false

/-! ## Reading a corpus (`tweets_generator.c`, lines 103-157) -/

namespace Tweets

/-- The characters of the constant `DELIMITERS`: space, line feed, carriage return. -/
def DELIMITERS : List Char := [Char.ofNat 32, Char.ofNat 10, Char.ofNat 13]

/-- The C library function `strtok`, as the list of the tokens that the call on a line and
the following calls on `NULL` return: the maximal runs of characters that are not
delimiters.  `word` holds the characters of the token being read, last one first. -/
def strtok : List Char → List Char → List String
  | [], [] => []
  | [], c :: word => [String.mk (c :: word).reverse]
  | c :: line, word =>
    if c ∈ DELIMITERS then
      match word with
      | [] => strtok line []
      | d :: word1 => String.mk (d :: word1).reverse :: strtok line []
    else strtok line (c :: word)

/-- `add_first_word_to_chain`.  `words` are the tokens that `strtok` finds in the line;
the first of them, if there is one, is added to the chain. -/
def add_first_word_to_chain (mem : Bool) (mc : MarkovChain String) (words : List String) :
    Res (Option (MarkovChain String) × Option Nat) :=
  match words with
  | [] => .ok (some mc, none)
  | word :: _ => add_to_database mem mem mc (some word)

/-- The `while (curr_word && words_left != 0)` loop of `handle_line`.  The list holds
`curr_word` and the tokens that `strtok` will return after it; the chain is `none` once
it has been freed, and the next use of it is a fault. -/
def handle_line_loop (mem : Bool) :
    List String → Option Nat → Int → Option (MarkovChain String) →
      Res (Int × Option (MarkovChain String))
  | [], _, words_left, chain => .ok (words_left, chain)
  | curr_word :: rest, n1, words_left, chain =>
    if words_left = 0 then .ok (words_left, chain)
    else
      match chain with
      | none => .fault .null_deref
      | some mc =>
        match add_to_database mem mem mc (some curr_word) with
        | .fault f => .fault f
        | .ok (chain1, n2) =>
          match n1, n2 with
          | some first, some second =>
            match chain1 with
            | none => .fault .null_deref
            | some mc1 =>
              match add_node_to_counter_list mem first second mc1 with
              | .fault f => .fault f
              | .ok (true, mc2) =>
                handle_line_loop mem rest (some second) (words_left - 1) (some mc2)
              | .ok (false, _) =>
                handle_line_loop mem rest (some second) (words_left - 1) none
          | _, _ => .ok (words_left - 1, chain1)

/-- `handle_line`: add the words of a line to the chain and return the number of words
left to read.  `mem` tells whether the allocations made during the call succeed. -/
def handle_line (mem : Bool) (mc : MarkovChain String) (line : String) (words_left : Int) :
    Res (Int × Option (MarkovChain String)) :=
  match add_first_word_to_chain mem mc (strtok line.toList []) with
  | .fault f => .fault f
  | .ok (chain, n1) =>
    handle_line_loop mem ((strtok line.toList []).drop 1) n1 (words_left - 1) chain

end Tweets

/-! ## Building the board (`snakes_and_ladders.c`, lines 4-40 and 179-263) -/

namespace SnakesAndLadders

/-- The constant `EMPTY`. -/
def EMPTY : Int := -1

/-- The constant `DICE_MAX`. -/
def DICE_MAX : Nat := 6

/-- The macro `MAX`. -/
def MAX (x y : Int) : Int := if x < y then y else x

/-- The table `transitions` of ladders and snakes. -/
def transitions : List (Int × Int) :=
  [(13, 4), (85, 17), (95, 67), (97, 58), (66, 89), (87, 31), (57, 83), (91, 25), (28, 50),
    (35, 11), (8, 30), (41, 62), (81, 43), (69, 32), (20, 39), (33, 70), (79, 99), (23, 76),
    (15, 47), (61, 14)]

/-- The second loop of `create_board`: enter the ladders and snakes of the table into the
cells.  A write outside the array is a fault. -/
def create_board_transitions : List (Int × Int) → List Cell → Res (List Cell)
  | [], cells => .ok cells
  | (from_cell, to_cell) :: rest, cells =>
    if from_cell - 1 < 0 then .fault .out_of_bounds
    else
      match cells[(from_cell - 1).toNat]? with
      | none => .fault .out_of_bounds
      | some cell =>
        if from_cell < to_cell then
          create_board_transitions rest
            (cells.set (from_cell - 1).toNat ⟨cell.number, to_cell, cell.snake_to⟩)
        else
          create_board_transitions rest
            (cells.set (from_cell - 1).toNat ⟨cell.number, cell.ladder_to, to_cell⟩)

/-- `create_board`: the cells `1 .. BOARD_SIZE` with their ladders and snakes.  `mem` tells
whether the allocations succeed; the result is `none` for `EXIT_FAILURE`. -/
def create_board (mem : Bool) : Res (Option (List Cell)) :=
  if mem then
    match create_board_transitions transitions
        ((List.range BOARD_SIZE.toNat).map fun i => ⟨(i : Int) + 1, EMPTY, EMPTY⟩) with
    | .fault f => .fault f
    | .ok cells => .ok (some cells)
  else .ok none

/-- The first loop of `fill_database`: every cell is added to the chain, the results of
the calls are not looked at.  The chain is `none` once it has been freed, and the next
use of it is a fault. -/
def fill_database_cells (mem : Bool) :
    List Cell → Option (MarkovChain Cell) → Res (Option (MarkovChain Cell))
  | [], chain => .ok chain
  | cell :: rest, chain =>
    match chain with
    | none => .fault .null_deref
    | some mc =>
      match add_to_database mem mem mc (some cell) with
      | .fault f => .fault f
      | .ok (chain1, _) => fill_database_cells mem rest chain1

/-- The `for (j = 1; j <= DICE_MAX; j++)` loop of `fill_database` for a cell without
ladder or snake: `n` counts down the iterations that remain. -/
def fill_database_dice (mem : Bool) (cells : List Cell) (from_node : Nat) :
    Nat → Int → MarkovChain Cell → Res (MarkovChain Cell)
  | 0, _, mc => .ok mc
  | n + 1, j, mc =>
    match mc.database[from_node]? with
    | none => .fault .null_deref
    | some from_state =>
      match from_state.data with
      | none => .fault .null_deref
      | some from_cell =>
        if from_cell.number + j - 1 < 0 ∨ from_cell.number + j - 1 ≥ BOARD_SIZE then .ok mc
        else
          match cells[(from_cell.number + j - 1).toNat]? with
          | none => .fault .out_of_bounds
          | some to_cell =>
            match get_node_from_database mc (some to_cell) with
            | none => .fault .null_deref
            | some to_node =>
              match add_node_to_counter_list mem from_node to_node mc with
              | .fault f => .fault f
              | .ok (_, mc1) => fill_database_dice mem cells from_node n (j + 1) mc1

/-- The second loop of `fill_database`: the list holds the cells `cells[i]` that are still
to be handled. -/
def fill_database_edges (mem : Bool) (cells : List Cell) :
    List Cell → MarkovChain Cell → Res (MarkovChain Cell)
  | [], mc => .ok mc
  | cell :: rest, mc =>
    match get_node_from_database mc (some cell) with
    | none => .fault .null_deref
    | some from_node =>
      if cell.snake_to ≠ EMPTY ∨ cell.ladder_to ≠ EMPTY then
        if MAX cell.snake_to cell.ladder_to - 1 < 0 then .fault .out_of_bounds
        else
          match cells[(MAX cell.snake_to cell.ladder_to - 1).toNat]? with
          | none => .fault .out_of_bounds
          | some to_cell =>
            match get_node_from_database mc (some to_cell) with
            | none => .fault .null_deref
            | some to_node =>
              match add_node_to_counter_list mem from_node to_node mc with
              | .fault f => .fault f
              | .ok (_, mc1) => fill_database_edges mem cells rest mc1
      else
        match fill_database_dice mem cells from_node DICE_MAX 1 mc with
        | .fault f => .fault f
        | .ok mc1 => fill_database_edges mem cells rest mc1

/-- `fill_database` of the board game.  `mem` tells whether the allocations made during the
call succeed; the number returned is `EXIT_SUCCESS` (0) or `EXIT_FAILURE` (1). -/
def fill_database (mem : Bool) (markov_chain : MarkovChain Cell) :
    Res (Int × MarkovChain Cell) :=
  match create_board mem with
  | .fault f => .fault f
  | .ok none => .ok (1, markov_chain)
  | .ok (some cells) =>
    match fill_database_cells mem cells (some markov_chain) with
    | .fault f => .fault f
    | .ok none => .fault .null_deref
    | .ok (some mc) =>
      match fill_database_edges mem cells cells mc with
      | .fault f => .fault f
      | .ok mc1 => .ok (0, mc1)

end SnakesAndLadders

/-! ## The board as the specification describes it -/

namespace SnakesAndLadders

/-- The target `y` of the entry `(x, y)` of the table `transitions` whose source `x` is the
cell `n`, if there is one. -/
def jump (n : Nat) : Option Int :=
  (transitions.find? fun t => t.1 = (n : Int)).map fun t => t.2

/-- The cell `n` of the board: a ladder to `y` if the table sends `n` up to `y`, a snake to
`y` if it sends `n` down to `y`, neither otherwise. -/
def board_cell (n : Nat) : Cell :=
  match jump n with
  | none => ⟨n, -1, -1⟩
  | some y => if (n : Int) < y then ⟨n, y, -1⟩ else ⟨n, -1, y⟩

/-- The edges that the specification gives the cell `n`, each of frequency 1 and named by
the position of its target in the registry (cell `m` is at position `m - 1`): the one
edge to `y` for the source of an entry `(n, y)` of the table, and otherwise the edges to
the cells `n + 1, ..., min (n + 6, 100)`, none for the cell 100. -/
def board_edges (n : Nat) : List NextNodeCounter :=
  match jump n with
  | some y => [⟨some (y.toNat - 1), 1⟩]
  | none => (List.range (min 6 (100 - n))).map fun j => ⟨some (n + j), 1⟩

/-- The state of the cell `n` once its edges have been recorded. -/
def board_state (n : Nat) : MarkovNode Cell :=
  ⟨some (board_cell n), board_edges n, (board_edges n).length⟩

/-- The registry in which the first `i` cells have their edges and the others have none
yet: the cells `1 .. 100` in increasing order. -/
def board_upto (i : Nat) : List (MarkovNode Cell) :=
  (List.range 100).map fun k =>
    if k < i then board_state (k + 1) else ⟨some (board_cell (k + 1)), [], 0⟩

end SnakesAndLadders

namespace SnakesAndLadders

/-- The cells `1 .. 100` of the board, in increasing order. -/
def board_cells : List Cell :=
  (List.range 100).map fun k => board_cell (k + 1)

/-- The chain of the board game with a given database. -/
def board_chain (database : List (MarkovNode Cell)) : MarkovChain Cell :=
  ⟨database, compare_cells, copy_cell true, is_last_cell⟩

/-- The registry while the edges of the plain cell `i + 1` are being recorded: the first
`i` cells have their edges, the cell `i + 1` has its first `k` edges, to the cells
`i + 2, ..., i + 1 + k`, and the cells after it have none yet. -/
def board_within (i k : Nat) : List (MarkovNode Cell) :=
  (board_upto i).set i
    ⟨some (board_cell (i + 1)), (List.range k).map fun t => ⟨some (i + 1 + t), 1⟩, k⟩

end SnakesAndLadders

/-- The state `next` is a successor of the state `prev`: `prev` is a state of the registry
whose edge list holds an entry of frequency at least 1 that points to `next`, and `next`
is a state of the registry. -/
def EdgeTo (mc : MarkovChain T) (prev next : Nat) : Prop :=
  ∃ state e, mc.database[prev]? = some state ∧ e ∈ state.counter_list ∧
    e.markov_node = some next ∧ 1 ≤ e.frequency ∧ next < mc.database.length

/-- The driver of the counting property: the calls of `add_node_to_counter_list` for a list
of pairs (source, target), in order, every allocation succeeding.  The run stops at the
first call that faults. -/
def add_node_to_counter_list_all : List (Nat × Nat) → MarkovChain T → Res (MarkovChain T)
  | [], mc => .ok mc
  | (first_node, second_node) :: rest, mc =>
    match add_node_to_counter_list true first_node second_node mc with
    | .fault f => .fault f
    | .ok (_, mc1) => add_node_to_counter_list_all rest mc1

/-- The bookkeeping of one state against given counts: its edge list is well formed for a
registry of `size` states, its total weight is `s`, and for every target `b` the edges to
`b` are none if `c b = 0` and the single edge `(b, c b)` otherwise. -/
def NodeCounts (size : Nat) (state : MarkovNode T) (s : Nat) (c : Nat → Nat) : Prop :=
  state.counter_list_length = state.counter_list.length ∧
  (∀ e ∈ state.counter_list, ∃ t, e.markov_node = some t ∧ t < size) ∧
  total_weight state.counter_list = s ∧
  ∀ b : Nat, state.counter_list.filter (fun e => e.markov_node = some b) =
    if c b = 0 then [] else [⟨some b, c b⟩]

/-- A tweet registry before any transition is recorded: the words `a` and `b`, neither
with an edge. -/
def scenario_registry_chain : MarkovChain String :=
  ⟨[⟨some "a", [], 0⟩, ⟨some "b", [], 0⟩],
    Tweets.compare_words, Tweets.copy_word true, Tweets.is_last_word⟩

/-! # Properties -/

/-! ## Lookup in the registry -/

theorem get_node_from_database_loop_eq_some (comp_func : Option T → Option T → Int)
    (data_ptr : Option T) (l : List (MarkovNode T)) (k i : Nat) :
    get_node_from_database_loop comp_func data_ptr l k = some i ↔
      ∃ n node, i = k + n ∧ l[n]? = some node ∧ comp_func node.data data_ptr = 0 ∧
        ∀ j nj, j < n → l[j]? = some nj → comp_func nj.data data_ptr ≠ 0 := by
  induction l generalizing k with
  | nil => simp [get_node_from_database_loop]
  | cons hd tl ih =>
    unfold get_node_from_database_loop
    by_cases hc : comp_func hd.data data_ptr = 0
    · simp only [hc, ne_eq, not_true_eq_false, ↓reduceIte, Option.some.injEq]
      constructor
      · intro h
        exact ⟨0, hd, by omega, by simp, hc, by intro j nj hj; omega⟩
      · rintro ⟨n, node, hi, hn, -, hfirst⟩
        cases n with
        | zero => omega
        | succ m => exact absurd hc (hfirst 0 hd (by omega) (by simp))
    · simp only [ne_eq, hc, not_false_eq_true, ↓reduceIte]
      rw [ih]
      constructor
      · rintro ⟨n, node, hi, hn, hz, hfirst⟩
        refine ⟨n + 1, node, by omega, by simpa using hn, hz, ?_⟩
        intro j nj hj hget
        cases j with
        | zero =>
          simp only [List.getElem?_cons_zero, Option.some.injEq] at hget
          subst hget
          exact hc
        | succ m => exact hfirst m nj (by omega) (by simpa using hget)
      · rintro ⟨n, node, hi, hn, hz, hfirst⟩
        cases n with
        | zero =>
          simp only [List.getElem?_cons_zero, Option.some.injEq] at hn
          subst hn
          exact absurd hz hc
        | succ m =>
          refine ⟨m, node, by omega, by simpa using hn, hz, ?_⟩
          intro j nj hj hget
          exact hfirst (j + 1) nj (by omega) (by simpa using hget)

theorem get_node_from_database_loop_eq_none (comp_func : Option T → Option T → Int)
    (data_ptr : Option T) (l : List (MarkovNode T)) (k : Nat) :
    get_node_from_database_loop comp_func data_ptr l k = none ↔
      ∀ node ∈ l, comp_func node.data data_ptr ≠ 0 := by
  induction l generalizing k with
  | nil => simp [get_node_from_database_loop]
  | cons hd tl ih =>
    unfold get_node_from_database_loop
    by_cases hc : comp_func hd.data data_ptr = 0
    · simp [hc]
    · simp [hc, ih]

theorem get_node_from_database_some (mc : MarkovChain T) (p : T) :
    get_node_from_database mc (some p) =
      get_node_from_database_loop mc.comp_func (some p) mc.database 0 := by
  unfold get_node_from_database
  cases hdb : mc.database with
  | nil => simp [get_node_from_database_loop]
  | cons hd tl => simp

theorem get_node_from_database_eq_some (mc : MarkovChain T) (p : T) (i : Nat) :
    get_node_from_database mc (some p) = some i ↔
      ∃ node, mc.database[i]? = some node ∧ mc.comp_func node.data (some p) = 0 ∧
        ∀ j nj, j < i → mc.database[j]? = some nj → mc.comp_func nj.data (some p) ≠ 0 := by
  rw [get_node_from_database_some, get_node_from_database_loop_eq_some]
  constructor
  · rintro ⟨n, node, hi, hn, hz, hfirst⟩
    have : i = n := by omega
    subst this
    exact ⟨node, hn, hz, hfirst⟩
  · rintro ⟨node, hn, hz, hfirst⟩
    exact ⟨i, node, by omega, hn, hz, hfirst⟩

theorem get_node_from_database_eq_none (mc : MarkovChain T) (p : T) :
    get_node_from_database mc (some p) = none ↔
      ∀ node ∈ mc.database, mc.comp_func node.data (some p) ≠ 0 := by
  rw [get_node_from_database_some, get_node_from_database_loop_eq_none]

theorem get_node_from_database_lt (mc : MarkovChain T) (p : T) (i : Nat)
    (h : get_node_from_database mc (some p) = some i) : i < mc.database.length := by
  obtain ⟨node, hn, -, -⟩ := (get_node_from_database_eq_some mc p i).1 h
  exact (List.getElem?_eq_some.1 hn).1

/-- C8: for a payload `p`, `get_node_from_database` returns node `i` exactly when node `i`
is the first registry node, in insertion order, whose payload `comp_func` reports equal
to `p` (result `0`); it returns `NULL` exactly when no registry node compares equal to
`p`, which covers the empty registry.  The function is total: it has no other outcome. -/
theorem get_node_from_database_first_match (mc : MarkovChain T) (p : T) :
    (∀ i, get_node_from_database mc (some p) = some i ↔
      ∃ node, mc.database[i]? = some node ∧ mc.comp_func node.data (some p) = 0 ∧
        ∀ j nj, j < i → mc.database[j]? = some nj →
          mc.comp_func nj.data (some p) ≠ 0) ∧
    (get_node_from_database mc (some p) = none ↔
      ∀ node ∈ mc.database, mc.comp_func node.data (some p) ≠ 0) ∧
    (mc.database = [] → get_node_from_database mc (some p) = none) := by
  refine ⟨get_node_from_database_eq_some mc p, get_node_from_database_eq_none mc p, ?_⟩
  intro h
  rw [get_node_from_database_eq_none, h]
  simp


/-! ## Insertion into the registry -/

theorem add_to_database_found (mc : MarkovChain T) (v : T) (i : Nat) (mem_node mem_cell : Bool)
    (h : get_node_from_database mc (some v) = some i) :
    add_to_database mem_node mem_cell mc (some v) = .ok (some mc, some i) := by
  simp [add_to_database, h]

theorem add_to_database_fresh (mc : MarkovChain T) (v : T)
    (h : get_node_from_database mc (some v) = none) :
    add_to_database true true mc (some v) =
      .ok (some ⟨mc.database ++ [⟨mc.copy_func (some v), [], 0⟩], mc.comp_func,
          mc.copy_func, mc.is_last⟩,
        get_node_from_database ⟨mc.database ++ [⟨mc.copy_func (some v), [], 0⟩],
          mc.comp_func, mc.copy_func, mc.is_last⟩ (some v)) := by
  simp [add_to_database, h, create_markov_node, add]

/-- Every successful call of `add_to_database` on a payload leaves the old database as a
front part of the new one, followed by at most the one new state. -/
theorem add_to_database_database (mc mc1 : MarkovChain T) (v : T) (mem_node mem_cell : Bool)
    (node : Option Nat)
    (h : add_to_database mem_node mem_cell mc (some v) = .ok (some mc1, node)) :
    (get_node_from_database mc (some v) = node ∧ node ≠ none ∧ mc1 = mc) ∨
    (get_node_from_database mc (some v) = none ∧
      mc1 = ⟨mc.database ++ [⟨mc.copy_func (some v), [], 0⟩], mc.comp_func,
        mc.copy_func, mc.is_last⟩) := by
  unfold add_to_database at h
  cases hl : get_node_from_database mc (some v) with
  | some i =>
    simp only [hl, Res.ok.injEq, Prod.mk.injEq, Option.some.injEq] at h
    left
    exact ⟨h.2, by rw [← h.2]; simp, h.1.symm⟩
  | none =>
    right
    refine ⟨rfl, ?_⟩
    cases mem_node <;> cases mem_cell <;>
      simp [hl, create_markov_node, add] at h
    exact h.1.symm

/-- C9: if some registry state compares equal to the payload `v`, `add_to_database`
returns the first such state and the chain (states, their order, their edge lists) is
unchanged, whatever the allocator would do; otherwise, the allocations succeeding, the
database after the call is the old database followed by exactly one new state that holds
`copy_func v` and has an empty edge list, so all earlier states keep their positions. -/
theorem add_to_database_existing_or_appended (mc : MarkovChain T) (v : T) :
    ((∃ node ∈ mc.database, mc.comp_func node.data (some v) = 0) →
      ∃ i node, mc.database[i]? = some node ∧ mc.comp_func node.data (some v) = 0 ∧
        (∀ j nj, j < i → mc.database[j]? = some nj →
          mc.comp_func nj.data (some v) ≠ 0) ∧
        ∀ mem_node mem_cell,
          add_to_database mem_node mem_cell mc (some v) = .ok (some mc, some i)) ∧
    ((∀ node ∈ mc.database, mc.comp_func node.data (some v) ≠ 0) →
      ∃ mc1 node, add_to_database true true mc (some v) = .ok (some mc1, node) ∧
        mc1.database = mc.database ++ [⟨mc.copy_func (some v), [], 0⟩] ∧
        mc1.comp_func = mc.comp_func ∧ mc1.copy_func = mc.copy_func ∧
        mc1.is_last = mc.is_last) := by
  constructor
  · intro hex
    cases hl : get_node_from_database mc (some v) with
    | none =>
      obtain ⟨node, hmem, hz⟩ := hex
      exact absurd hz ((get_node_from_database_eq_none mc v).1 hl node hmem)
    | some i =>
      obtain ⟨node, hn, hz, hfirst⟩ := (get_node_from_database_eq_some mc v i).1 hl
      exact ⟨i, node, hn, hz, hfirst, fun m1 m2 => add_to_database_found mc v i m1 m2 hl⟩
  · intro hall
    have hl := (get_node_from_database_eq_none mc v).2 hall
    exact ⟨_, _, add_to_database_fresh mc v hl, rfl, rfl, rfl, rfl⟩

/-- C1: if `comp_func` reports the stored copy of the payload `v` equal to `v`, then two
calls of `add_to_database` with `v` in a row (the allocations of the first succeeding)
return the same node of the registry, and the second call leaves the chain as the first
one left it: it adds no node, whatever the allocator would do. -/
theorem add_to_database_twice (mc : MarkovChain T) (v : T)
    (hcopy : mc.comp_func (mc.copy_func (some v)) (some v) = 0) :
    ∃ mc1 node, add_to_database true true mc (some v) = .ok (some mc1, some node) ∧
      node < mc1.database.length ∧
      ∀ mem_node mem_cell,
        add_to_database mem_node mem_cell mc1 (some v) = .ok (some mc1, some node) := by
  cases hl : get_node_from_database mc (some v) with
  | some i =>
    exact ⟨mc, i, add_to_database_found mc v i true true hl,
      get_node_from_database_lt mc v i hl,
      fun m1 m2 => add_to_database_found mc v i m1 m2 hl⟩
  | none =>
    have hnew : get_node_from_database ⟨mc.database ++ [⟨mc.copy_func (some v), [], 0⟩],
        mc.comp_func, mc.copy_func, mc.is_last⟩ (some v) = some mc.database.length := by
      rw [get_node_from_database_eq_some]
      refine ⟨⟨mc.copy_func (some v), [], 0⟩, by simp, hcopy, ?_⟩
      intro j nj hj hget
      have hmem : nj ∈ mc.database := by
        simp only [List.getElem?_append_left hj] at hget
        exact List.getElem?_mem hget
      exact (get_node_from_database_eq_none mc v).1 hl nj hmem
    refine ⟨⟨mc.database ++ [⟨mc.copy_func (some v), [], 0⟩], mc.comp_func, mc.copy_func,
      mc.is_last⟩, mc.database.length, ?_, by simp, fun m1 m2 => ?_⟩
    · rw [add_to_database_fresh mc v hl, hnew]
    · exact add_to_database_found _ v _ m1 m2 hnew

/-- Example for C1: the word `c.` is added twice to `scenario_weighted_chain`. -/
theorem add_to_database_twice_witness :
    ∃ mc1 node,
      add_to_database true true scenario_weighted_chain (some "c.") =
          .ok (some mc1, some node) ∧
        node < mc1.database.length ∧
        ∀ mem_node mem_cell,
          add_to_database mem_node mem_cell mc1 (some "c.") = .ok (some mc1, some node) :=
  add_to_database_twice scenario_weighted_chain "c." (by decide)

/-! ## The registry holds no duplicates -/

/-- C10: let `copy_func` return a payload that `comp_func` treats like the original.  In
every chain built from an empty database by `add_to_database` calls, `comp_func` does not
report the payload of a state equal to the payload of any state inserted after it (the
order of arguments in which the code applies it); and if the verdict of `comp_func` does
not depend on the order of its arguments, no two distinct states have payloads that it
reports equal in either order. -/
theorem built_database_no_duplicates (mc : MarkovChain T) (hbuilt : BuiltByAdd mc)
    (hcopy : ∀ (v : T) (w : Option T),
      mc.comp_func w (mc.copy_func (some v)) = mc.comp_func w (some v)) :
    (∀ (i j : Nat) (ni nj : MarkovNode T), i < j → mc.database[i]? = some ni →
      mc.database[j]? = some nj → mc.comp_func ni.data nj.data ≠ 0) ∧
    ((∀ x y, mc.comp_func x y = 0 → mc.comp_func y x = 0) →
      ∀ (i j : Nat) (ni nj : MarkovNode T), i ≠ j → mc.database[i]? = some ni →
        mc.database[j]? = some nj → mc.comp_func ni.data nj.data ≠ 0) := by
  have hord : ∀ (i j : Nat) (ni nj : MarkovNode T), i < j → mc.database[i]? = some ni →
      mc.database[j]? = some nj → mc.comp_func ni.data nj.data ≠ 0 := by
    induction hbuilt with
    | empty mc h => intro i j ni nj _ hi; simp [h] at hi
    | add_to_database mc mc1 m1 m2 v node _ hcall ih =>
      rcases add_to_database_database mc mc1 v m1 m2 node hcall with ⟨-, -, h⟩ | ⟨hl, h⟩
      · subst h; exact ih hcopy
      · subst h
        intro i j ni nj hij hi hj
        have hjlt : j < mc.database.length + 1 := by
          have := (List.getElem?_eq_some.1 hj).1
          simpa using this
        have hilt : i < mc.database.length := by omega
        simp only [List.getElem?_append_left hilt] at hi
        by_cases hjl : j < mc.database.length
        · simp only [List.getElem?_append_left hjl] at hj
          exact ih hcopy i j ni nj hij hi hj
        · have hje : j = mc.database.length := by omega
          subst hje
          simp only [List.getElem?_concat_length, Option.some.injEq] at hj
          subst hj
          simp only
          rw [hcopy]
          exact (get_node_from_database_eq_none mc v).1 hl ni (List.getElem?_mem hi)
  refine ⟨hord, ?_⟩
  intro hsymm i j ni nj hij hi hj hz
  rcases Nat.lt_or_gt_of_ne hij with h | h
  · exact hord i j ni nj h hi hj hz
  · exact hord j i nj ni h hj hi (hsymm _ _ hz)


/-! ## Recording transitions -/

theorem word_found_in_counter_list_loop_absent (size second_node : Nat)
    (l : List NextNodeCounter)
    (htargets : ∀ e ∈ l, ∃ t, e.markov_node = some t ∧ t < size)
    (habsent : ∀ e ∈ l, e.markov_node ≠ some second_node) :
    word_found_in_counter_list_loop size second_node l l.length = .ok none := by
  induction l with
  | nil => rfl
  | cons hd tl ih =>
    obtain ⟨t, ht, hlt⟩ := htargets hd (by simp)
    have hne : second_node ≠ t := by
      intro h
      exact habsent hd (by simp) (by rw [ht, h])
    have htl := ih (fun e he => htargets e (by simp [he])) (fun e he => habsent e (by simp [he]))
    simp [word_found_in_counter_list_loop, ht, hlt, hne, htl]

theorem word_found_in_counter_list_loop_last (size second_node k : Nat)
    (l : List NextNodeCounter) (hsecond : second_node < size)
    (htargets : ∀ e ∈ l, ∃ t, e.markov_node = some t ∧ t < size)
    (habsent : ∀ e ∈ l, e.markov_node ≠ some second_node) :
    word_found_in_counter_list_loop size second_node (l ++ [⟨some second_node, k⟩])
        (l.length + 1) = .ok (some (l ++ [⟨some second_node, k + 1⟩])) := by
  induction l with
  | nil => simp [word_found_in_counter_list_loop, hsecond]
  | cons hd tl ih =>
    obtain ⟨t, ht, hlt⟩ := htargets hd (by simp)
    have hne : second_node ≠ t := by
      intro h
      exact habsent hd (by simp) (by rw [ht, h])
    have htl := ih (fun e he => htargets e (by simp [he])) (fun e he => habsent e (by simp [he]))
    simp [word_found_in_counter_list_loop, ht, hlt, hne, htl]

/-- A call that observes a transition for the first time appends the edge with
frequency 1. -/
theorem add_node_to_counter_list_new (mc : MarkovChain T) (a b : Nat)
    (first second : MarkovNode T)
    (hfirst : mc.database[a]? = some first) (hsecond : mc.database[b]? = some second)
    (hlen : first.counter_list_length = first.counter_list.length)
    (htargets : ∀ e ∈ first.counter_list, ∃ t, e.markov_node = some t ∧
      t < mc.database.length)
    (habsent : ∀ e ∈ first.counter_list, e.markov_node ≠ some b)
    (hlook : get_node_from_database mc second.data = some b) :
    add_node_to_counter_list true a b mc =
      .ok (true, ⟨mc.database.set a ⟨first.data, first.counter_list ++ [⟨some b, 1⟩],
        first.counter_list.length + 1⟩, mc.comp_func, mc.copy_func, mc.is_last⟩) := by
  unfold add_node_to_counter_list
  simp only [hfirst]
  by_cases h0 : first.counter_list_length = 0
  · have hnil : first.counter_list = [] := by
      rw [h0] at hlen
      exact List.length_eq_zero.1 hlen.symm
    simp [h0, create_new_counter_list, hfirst, hsecond, hlook, hnil]
  · simp only [h0, ↓reduceIte]
    have hloop := word_found_in_counter_list_loop_absent mc.database.length b
      first.counter_list htargets habsent
    simp [word_found_in_counter_list, hfirst, hlen, hloop, add_new_node_to_counter_list,
      hsecond, hlook]

/-- A call that observes a transition again increments the frequency of its edge, here
the last edge of the list. -/
theorem add_node_to_counter_list_again (mc : MarkovChain T) (mem : Bool) (a b k : Nat)
    (data : Option T) (l : List NextNodeCounter)
    (hfirst : mc.database[a]? = some ⟨data, l ++ [⟨some b, k⟩], l.length + 1⟩)
    (hb : b < mc.database.length)
    (htargets : ∀ e ∈ l, ∃ t, e.markov_node = some t ∧ t < mc.database.length)
    (habsent : ∀ e ∈ l, e.markov_node ≠ some b) :
    add_node_to_counter_list mem a b mc =
      .ok (true, ⟨mc.database.set a ⟨data, l ++ [⟨some b, k + 1⟩], l.length + 1⟩,
        mc.comp_func, mc.copy_func, mc.is_last⟩) := by
  unfold add_node_to_counter_list
  have hloop := word_found_in_counter_list_loop_last mc.database.length b k l hb
    htargets habsent
  simp [hfirst, word_found_in_counter_list, hloop]


theorem add_node_to_counter_list_repeat_again (n : Nat) (mc : MarkovChain T) (a b k : Nat)
    (data : Option T) (l : List NextNodeCounter)
    (hfirst : mc.database[a]? = some ⟨data, l ++ [⟨some b, k⟩], l.length + 1⟩)
    (hb : b < mc.database.length)
    (htargets : ∀ e ∈ l, ∃ t, e.markov_node = some t ∧ t < mc.database.length)
    (habsent : ∀ e ∈ l, e.markov_node ≠ some b) :
    ∃ mc1, add_node_to_counter_list_repeat a b n mc = .ok (true, mc1) ∧
      mc1.database[a]? = some ⟨data, l ++ [⟨some b, k + n⟩], l.length + 1⟩ ∧
      mc1.database.length = mc.database.length := by
  induction n generalizing mc k with
  | zero => exact ⟨mc, rfl, hfirst, rfl⟩
  | succ n ih =>
    have ha : a < mc.database.length := (List.getElem?_eq_some.1 hfirst).1
    have hstep := add_node_to_counter_list_again mc true a b k data l hfirst hb htargets
      habsent
    obtain ⟨mc1, hrun, hnode, hsize⟩ := ih
      ⟨mc.database.set a ⟨data, l ++ [⟨some b, k + 1⟩], l.length + 1⟩, mc.comp_func,
        mc.copy_func, mc.is_last⟩ (k + 1) (by simp [ha]) (by simpa using hb)
      (by simpa using htargets)
    refine ⟨mc1, ?_, ?_, ?_⟩
    · simp only [add_node_to_counter_list_repeat, hstep]
      exact hrun
    · rw [hnode]
      have : k + 1 + n = k + (n + 1) := by omega
      rw [this]
    · simpa using hsize

/-- C2: let `a` and `b` be states of the registry such that the payload of `b` resolves
to `b` itself, the edge list of `a` is well formed (its recorded length is its number of
entries and every entry points to a registry state) and holds no edge to `b`.  Then `N`
calls of `add_node_to_counter_list (a, b)` in a row, for any `N ≥ 1`, all succeed and
leave `a` with its old edges followed by one edge to `b` of frequency `N`: exactly one
edge of `a` has target `b`, and its frequency is exactly `N`. -/
theorem add_node_to_counter_list_repeat_single_edge (mc : MarkovChain T) (a b N : Nat)
    (first second : MarkovNode T) (hN : 1 ≤ N)
    (hfirst : mc.database[a]? = some first) (hsecond : mc.database[b]? = some second)
    (hlen : first.counter_list_length = first.counter_list.length)
    (htargets : ∀ e ∈ first.counter_list, ∃ t, e.markov_node = some t ∧
      t < mc.database.length)
    (habsent : ∀ e ∈ first.counter_list, e.markov_node ≠ some b)
    (hlook : get_node_from_database mc second.data = some b) :
    ∃ mc1 first1, add_node_to_counter_list_repeat a b N mc = .ok (true, mc1) ∧
      mc1.database[a]? = some first1 ∧
      first1.counter_list = first.counter_list ++ [⟨some b, N⟩] ∧
      first1.counter_list_length = first.counter_list.length + 1 ∧
      first1.counter_list.filter (fun e => e.markov_node = some b) = [⟨some b, N⟩] := by
  obtain ⟨n, rfl⟩ : ∃ n, N = n + 1 := ⟨N - 1, by omega⟩
  have ha : a < mc.database.length := (List.getElem?_eq_some.1 hfirst).1
  have hb : b < mc.database.length := (List.getElem?_eq_some.1 hsecond).1
  have hstep := add_node_to_counter_list_new mc a b first second hfirst hsecond hlen
    htargets habsent hlook
  obtain ⟨mc1, hrun, hnode, -⟩ := add_node_to_counter_list_repeat_again n
    ⟨mc.database.set a ⟨first.data, first.counter_list ++ [⟨some b, 1⟩],
      first.counter_list.length + 1⟩, mc.comp_func, mc.copy_func, mc.is_last⟩ a b 1
    first.data first.counter_list (by simp [ha]) (by simpa using hb)
    (by simpa using htargets) habsent
  refine ⟨mc1, _, ?_, hnode, ?_, rfl, ?_⟩
  · simp only [add_node_to_counter_list_repeat, hstep]
    exact hrun
  · simp only
    rw [Nat.add_comm 1 n]
  · simp only [List.filter_append, List.filter_cons, List.filter_nil, decide_True,
      ↓reduceIte]
    have hnone : first.counter_list.filter (fun e => e.markov_node = some b) = [] := by
      rw [List.filter_eq_nil_iff]
      intro e he
      simpa using habsent e he
    rw [hnone, Nat.add_comm 1 n]
    rfl


/-! ## Weighted sampling -/

theorem weight_before_zero (l : List NextNodeCounter) : weight_before l 0 = 0 := by
  simp [weight_before]

theorem weight_before_nil (i : Nat) : weight_before [] i = 0 := by
  simp [weight_before]

theorem weight_before_cons_succ (hd : NextNodeCounter) (tl : List NextNodeCounter)
    (i : Nat) :
    weight_before (hd :: tl) (i + 1) = hd.frequency + weight_before tl i := by
  simp [weight_before]

theorem total_weight_cons (hd : NextNodeCounter) (tl : List NextNodeCounter) :
    total_weight (hd :: tl) = hd.frequency + total_weight tl := by
  simp [total_weight]

theorem weight_before_length (l : List NextNodeCounter) :
    weight_before l l.length = total_weight l := by
  simp [weight_before, total_weight]

theorem weight_before_succ (l : List NextNodeCounter) (i : Nat) (e : NextNodeCounter)
    (h : l[i]? = some e) : weight_before l (i + 1) = weight_before l i + e.frequency := by
  induction l generalizing i with
  | nil => simp at h
  | cons hd tl ih =>
    cases i with
    | zero =>
      simp only [List.getElem?_cons_zero, Option.some.injEq] at h
      subst h
      simp [weight_before]
    | succ i =>
      simp only [List.getElem?_cons_succ] at h
      rw [weight_before_cons_succ, weight_before_cons_succ, ih i h]
      omega

theorem weight_before_mono (l : List NextNodeCounter) (i j : Nat) (h : i ≤ j) :
    weight_before l i ≤ weight_before l j := by
  induction l generalizing i j with
  | nil => simp [weight_before_nil]
  | cons hd tl ih =>
    cases i with
    | zero => simp [weight_before_zero]
    | succ i =>
      cases j with
      | zero => omega
      | succ j =>
        rw [weight_before_cons_succ, weight_before_cons_succ]
        have := ih i j (by omega)
        omega

theorem weight_before_le_total (l : List NextNodeCounter) (i : Nat) :
    weight_before l i ≤ total_weight l := by
  induction l generalizing i with
  | nil => simp [weight_before_nil]
  | cons hd tl ih =>
    cases i with
    | zero => simp [weight_before_zero]
    | succ i =>
      rw [weight_before_cons_succ, total_weight_cons]
      have := ih i
      omega

/-- The intervals of draws that belong to two different edges do not meet. -/
theorem weight_before_bracket_unique (l : List NextNodeCounter) (r i j : Nat)
    (hi : weight_before l i ≤ r ∧ r < weight_before l (i + 1))
    (hj : weight_before l j ≤ r ∧ r < weight_before l (j + 1)) : i = j := by
  rcases Nat.lt_trichotomy i j with h | h | h
  · have := weight_before_mono l (i + 1) j h
    omega
  · exact h
  · have := weight_before_mono l (j + 1) i h
    omega

theorem get_counter_list_sum_loop_eq (l : List NextNodeCounter) (n sum : Nat)
    (h : n ≤ l.length) :
    get_counter_list_sum_loop l n sum = .ok (sum + weight_before l n) := by
  induction l generalizing n sum with
  | nil =>
    have : n = 0 := by simpa using h
    subst this
    simp [get_counter_list_sum_loop, weight_before_zero]
  | cons hd tl ih =>
    cases n with
    | zero => simp [get_counter_list_sum_loop, weight_before_zero]
    | succ n =>
      simp only [get_counter_list_sum_loop]
      rw [ih n _ (by simpa using h), weight_before_cons_succ]
      congr 1
      omega

/-- On a state whose recorded length is its number of edges, `get_counter_list_sum`
returns the total weight. -/
theorem get_counter_list_sum_eq (state : MarkovNode T)
    (hlen : state.counter_list_length = state.counter_list.length) :
    get_counter_list_sum state = .ok (total_weight state.counter_list) := by
  unfold get_counter_list_sum
  rw [get_counter_list_sum_loop_eq _ _ _ (by omega), hlen, weight_before_length]
  simp

/-- The scan stops inside the list, at the edge whose interval holds the draw. -/
theorem get_next_random_node_scan_eq (l : List NextNodeCounter) (r k : Nat)
    (hr : r < total_weight l) :
    ∃ i, i < l.length ∧ get_next_random_node_scan l r k = .ok (k + i) ∧
      weight_before l i ≤ r ∧ r < weight_before l (i + 1) := by
  induction l generalizing r k with
  | nil => simp [total_weight] at hr
  | cons hd tl ih =>
    rw [total_weight_cons] at hr
    unfold get_next_random_node_scan
    by_cases hge : r ≥ hd.frequency
    · obtain ⟨i, hi, hscan, hlo, hhi⟩ := ih (r - hd.frequency) (k + 1) (by omega)
      refine ⟨i + 1, by simpa using hi, ?_, ?_, ?_⟩
      · simp only [hge, ↓reduceIte, hscan]
        congr 1
        omega
      · rw [weight_before_cons_succ]
        omega
      · rw [weight_before_cons_succ]
        omega
    · refine ⟨0, by simp, by simp [hge], by simp [weight_before_zero], ?_⟩
      rw [weight_before_cons_succ, weight_before_zero]
      omega

/-- The offset at which `get_next_random_node` stops, in terms of the draw. -/
theorem get_next_random_node_iter_eq (state : MarkovNode T) (rand : Nat)
    (hlen : state.counter_list_length = state.counter_list.length)
    (hpos : 0 < total_weight state.counter_list) :
    ∃ i, i < state.counter_list.length ∧ get_next_random_node_iter state rand = .ok i ∧
      weight_before state.counter_list i ≤ rand % total_weight state.counter_list ∧
      rand % total_weight state.counter_list < weight_before state.counter_list (i + 1) := by
  obtain ⟨i, hi, hscan, hlo, hhi⟩ := get_next_random_node_scan_eq state.counter_list
    (rand % total_weight state.counter_list) 0 (Nat.mod_lt _ hpos)
  refine ⟨i, hi, ?_, hlo, hhi⟩
  unfold get_next_random_node_iter
  rw [get_counter_list_sum_eq state hlen]
  simp only [get_random_number, Nat.ne_of_gt hpos, ↓reduceIte, hscan]
  simp

/-- C5: let the recorded length of a state be its number of edges `c_0 .. c_(n-1)`, let
`T` be their sum and `r` a draw with `0 ≤ r < T` (the value `rand () % T`).  Then there
is exactly one edge `i` with `c_0 + ... + c_(i-1) ≤ r < c_0 + ... + c_i`; the scan of
`get_next_random_node` stops at that edge, inside the list, and the function returns
the target of that edge.  (That the frequencies are positive is not needed.) -/
theorem get_next_random_node_selects (mc : MarkovChain T) (p : Nat) (state : MarkovNode T)
    (r rand : Nat) (hstate : mc.database[p]? = some state)
    (hlen : state.counter_list_length = state.counter_list.length)
    (hr : r < total_weight state.counter_list)
    (hrand : rand % total_weight state.counter_list = r) :
    ∃ i iter, state.counter_list[i]? = some iter ∧
      weight_before state.counter_list i ≤ r ∧
      r < weight_before state.counter_list (i + 1) ∧
      (∀ j, weight_before state.counter_list j ≤ r →
        r < weight_before state.counter_list (j + 1) → j = i) ∧
      get_next_random_node_iter state rand = .ok i ∧
      get_next_random_node mc p rand = next_node_data mc iter ∧
      ∀ node, iter.markov_node = some node → node < mc.database.length →
        get_next_random_node mc p rand = .ok node := by
  obtain ⟨i, hi, hiter, hlo, hhi⟩ := get_next_random_node_iter_eq state rand hlen
    (by omega)
  rw [hrand] at hlo hhi
  have hget : state.counter_list[i]? = some (state.counter_list[i]) :=
    List.getElem?_eq_getElem hi
  have hnext : get_next_random_node mc p rand = next_node_data mc (state.counter_list[i]) := by
    simp [get_next_random_node, hstate, hiter, hget]
  refine ⟨i, state.counter_list[i], hget, hlo, hhi, ?_, hiter, hnext, ?_⟩
  · intro j hjlo hjhi
    exact weight_before_bracket_unique _ r j i ⟨hjlo, hjhi⟩ ⟨hlo, hhi⟩
  · intro node hnode hlt
    rw [hnext]
    simp [next_node_data, hnode, hlt]

/-- C6: on a state whose recorded length is its number of edges and whose total weight
is `T`, the number of draws in `[0, T)` for which `get_next_random_node` stops at edge
`i` is the frequency of that edge; a uniform draw thus selects edge `i` with
probability `count_i / T`. -/
theorem get_next_random_node_edge_count (state : MarkovNode T) (i : Nat)
    (iter : NextNodeCounter)
    (hlen : state.counter_list_length = state.counter_list.length)
    (hpos : 0 < total_weight state.counter_list)
    (hiter : state.counter_list[i]? = some iter) :
    ((Finset.range (total_weight state.counter_list)).filter
      (fun rand => get_next_random_node_iter state rand = .ok i)).card = iter.frequency ∧
    ((((Finset.range (total_weight state.counter_list)).filter
      (fun rand => get_next_random_node_iter state rand = .ok i)).card : ℚ) /
        (total_weight state.counter_list : ℚ) =
      (iter.frequency : ℚ) / (total_weight state.counter_list : ℚ)) := by
  have hset : (Finset.range (total_weight state.counter_list)).filter
      (fun rand => get_next_random_node_iter state rand = .ok i) =
      Finset.Ico (weight_before state.counter_list i)
        (weight_before state.counter_list (i + 1)) := by
    ext rand
    simp only [Finset.mem_filter, Finset.mem_range, Finset.mem_Ico]
    constructor
    · rintro ⟨hlt, hsel⟩
      obtain ⟨i0, -, hiter0, hlo, hhi⟩ := get_next_random_node_iter_eq state rand hlen hpos
      rw [hsel] at hiter0
      have : i = i0 := by simpa using hiter0
      subst this
      rw [Nat.mod_eq_of_lt hlt] at hlo hhi
      exact ⟨hlo, hhi⟩
    · rintro ⟨hlo, hhi⟩
      have hlt : rand < total_weight state.counter_list :=
        lt_of_lt_of_le hhi (weight_before_le_total _ _)
      refine ⟨hlt, ?_⟩
      obtain ⟨i0, -, hiter0, hlo0, hhi0⟩ :=
        get_next_random_node_iter_eq state rand hlen hpos
      rw [Nat.mod_eq_of_lt hlt] at hlo0 hhi0
      have := weight_before_bracket_unique _ rand i i0 ⟨hlo, hhi⟩ ⟨hlo0, hhi0⟩
      rw [this]
      exact hiter0
  have hcard : ((Finset.range (total_weight state.counter_list)).filter
      (fun rand => get_next_random_node_iter state rand = .ok i)).card = iter.frequency := by
    rw [hset, Nat.card_Ico, weight_before_succ _ i iter hiter]
    omega
  exact ⟨hcard, by rw [hcard]⟩


/-! ## Walks -/

/-- The iteration budget that `generate_random_sequence` hands to its loop is never used
up. -/
theorem generate_random_sequence_loop_budget (mc : MarkovChain T) (rands : Nat → Nat)
    (budget pos next : Nat) (max_length : Int) (h : max_length.toNat < budget) :
    (generate_random_sequence_loop mc rands budget pos next max_length).ending ≠
      .no_budget := by
  induction budget generalizing pos next max_length with
  | zero => omega
  | succ budget ih =>
    unfold generate_random_sequence_loop
    cases hnext : get_next_random_node mc next (rands pos) with
    | fault f => simp
    | ok next1 =>
      cases hstate : mc.database[next1]? with
      | none => simp [hstate]
      | some state =>
        by_cases hcont : max_length - 1 > 0 ∧ mc.is_last state.data = false
        · simp only [hstate, hcont, and_self, ↓reduceIte]
          exact ih (pos + 1) next1 (max_length - 1) (by omega)
        · simp only [hstate, if_neg hcont]
          simp

/-- The loop emits at most `max_length` states, and at most one if `max_length < 1`. -/
theorem generate_random_sequence_loop_length (mc : MarkovChain T) (rands : Nat → Nat)
    (budget pos next : Nat) (max_length : Int) :
    ((generate_random_sequence_loop mc rands budget pos next max_length).emitted.length :
      Int) ≤ max max_length 1 := by
  induction budget generalizing pos next max_length with
  | zero => simp [generate_random_sequence_loop]
  | succ budget ih =>
    unfold generate_random_sequence_loop
    cases hnext : get_next_random_node mc next (rands pos) with
    | fault f => simp
    | ok next1 =>
      cases hstate : mc.database[next1]? with
      | none => simp [hstate]
      | some state =>
        by_cases hcont : max_length - 1 > 0 ∧ mc.is_last state.data = false
        · simp only [hstate, hcont, and_self, ↓reduceIte, List.length_cons, Nat.cast_add,
            Nat.cast_one]
          have := ih (pos + 1) next1 (max_length - 1)
          omega
        · simp only [hstate, if_neg hcont]
          simp

/-- C3, as the code has it: whatever the chain, the start, the budget of the start
selection and the draws, `generate_random_sequence` emits at most `max_length` states
when `max_length ≥ 2`, and at most two states otherwise. -/
theorem generate_random_sequence_length (fuel : Nat) (rands : Nat → Nat)
    (mc : MarkovChain T) (first_node : Option Nat) (max_length : Int) :
    ((generate_random_sequence fuel rands mc first_node max_length).emitted.length : Int) ≤
      max max_length 2 := by
  unfold generate_random_sequence
  generalize (match first_node with
    | none => get_first_random_node mc rands fuel 0
    | some node => some (.ok (node, 0))) = start
  match start with
  | none => simp
  | some (.fault f) => simp
  | some (.ok (next, pos)) =>
    cases hstate : mc.database[next]? with
    | none => simp [hstate]
    | some state =>
      simp only [hstate, List.length_cons, Nat.cast_add, Nat.cast_one]
      have := generate_random_sequence_loop_length mc rands ((max_length - 1).toNat + 1) pos
        next (max_length - 1)
      omega

/-- Counterexample to C3 as stated: from `a` in the three-word chain, with
`max_length = 1`, the walk emits the two states `a` and `b`. -/
theorem generate_random_sequence_length_counterexample :
    (generate_random_sequence 0 (fun _ => 0) scenario_abc_chain (some 0) 1).emitted = [0, 1] ∧
    ¬ ((generate_random_sequence 0 (fun _ => 0) scenario_abc_chain (some 0) 1).emitted.length
      ≤ 1) := by
  decide


/-- On a state with a well-formed edge list of positive total weight, every draw makes
`get_next_random_node` return the target of one of the edges of the state. -/
theorem get_next_random_node_ok (mc : MarkovChain T) (p : Nat) (state : MarkovNode T)
    (rand : Nat) (hstate : mc.database[p]? = some state)
    (hlen : state.counter_list_length = state.counter_list.length)
    (hpos : 0 < total_weight state.counter_list)
    (htargets : ∀ e ∈ state.counter_list, ∃ t, e.markov_node = some t ∧
      t < mc.database.length) :
    ∃ next iter, get_next_random_node mc p rand = .ok next ∧ next < mc.database.length ∧
      iter ∈ state.counter_list ∧ iter.markov_node = some next := by
  obtain ⟨i, hi, hiter, -, -⟩ := get_next_random_node_iter_eq state rand hlen hpos
  have hget : state.counter_list[i]? = some (state.counter_list[i]) :=
    List.getElem?_eq_getElem hi
  have hmem : state.counter_list[i] ∈ state.counter_list := List.getElem?_mem hget
  obtain ⟨t, ht, hlt⟩ := htargets _ hmem
  refine ⟨t, state.counter_list[i], ?_, hlt, hmem, ht⟩
  simp [get_next_random_node, hstate, hiter, hget, next_node_data, ht, hlt]

/-- C4, as the code has it: `is_last` is not consulted on the start state.  Started at a
terminal state whose edge list is well formed and of positive total weight,
`generate_random_sequence` emits the start state and then takes a step all the same: the
walk begins with the start state followed by the successor that
`get_next_random_node` draws for it, so at least two states are emitted. -/
theorem generate_random_sequence_terminal_start (fuel : Nat) (rands : Nat → Nat)
    (mc : MarkovChain T) (start : Nat) (state : MarkovNode T) (max_length : Int)
    (hstate : mc.database[start]? = some state)
    (_hlast : mc.is_last state.data = true)
    (hlen : state.counter_list_length = state.counter_list.length)
    (hpos : 0 < total_weight state.counter_list)
    (htargets : ∀ e ∈ state.counter_list, ∃ t, e.markov_node = some t ∧
      t < mc.database.length) :
    ∃ next rest, get_next_random_node mc start (rands 0) = .ok next ∧
      (generate_random_sequence fuel rands mc (some start) max_length).emitted =
        start :: next :: rest ∧
      2 ≤ (generate_random_sequence fuel rands mc (some start) max_length).emitted.length := by
  obtain ⟨next, -, hnext, hlt, -, -⟩ := get_next_random_node_ok mc start state (rands 0)
    hstate hlen hpos htargets
  have hget : mc.database[next]? = some (mc.database[next]) := List.getElem?_eq_getElem hlt
  have hem : ∃ rest, (generate_random_sequence fuel rands mc (some start) max_length).emitted =
      start :: next :: rest := by
    by_cases hcont : max_length - 1 - 1 > 0 ∧ mc.is_last (mc.database[next]).data = false
    · simp only [generate_random_sequence, hstate, generate_random_sequence_loop, hnext,
        hget, if_pos hcont]
      exact ⟨_, rfl⟩
    · simp only [generate_random_sequence, hstate, generate_random_sequence_loop, hnext,
        hget, if_neg hcont]
      exact ⟨_, rfl⟩
  obtain ⟨rest, hrest⟩ := hem
  refine ⟨next, rest, hnext, hrest, ?_⟩
  rw [hrest]
  simp

/-- Example for C4: the walk from the terminal word `c.` of `scenario_cycle_chain`. -/
theorem generate_random_sequence_terminal_start_witness :
    ∃ next rest, get_next_random_node scenario_cycle_chain 0 0 = .ok next ∧
      (generate_random_sequence 0 (fun _ => 0) scenario_cycle_chain (some 0) 5).emitted =
        0 :: next :: rest ∧
      2 ≤ (generate_random_sequence 0 (fun _ => 0) scenario_cycle_chain (some 0)
        5).emitted.length :=
  generate_random_sequence_terminal_start 0 (fun _ => 0) scenario_cycle_chain 0
    ⟨some "c.", [⟨some 1, 1⟩], 1⟩ 5 rfl (by decide) rfl (by decide) (by decide)

/-- Counterexample to C4 as stated: `c.` is terminal, yet the walk started at `c.` in
`scenario_cycle_chain` emits `c.`, `a`, `c.`: three states, not one. -/
theorem generate_random_sequence_terminal_start_counterexample :
    scenario_cycle_chain.is_last (some "c.") = true ∧
    scenario_cycle_chain.database[0]? = some ⟨some "c.", [⟨some 1, 1⟩], 1⟩ ∧
    generate_random_sequence 0 (fun _ => 0) scenario_cycle_chain (some 0) 5 =
      ⟨[0, 1, 0], .finished⟩ ∧
    (generate_random_sequence 0 (fun _ => 0) scenario_cycle_chain (some 0) 5).emitted.length
      ≠ 1 := by
  decide

/-- The other way a terminal start goes wrong: `c.` of `scenario_abc_chain` is terminal
and has no edge, and the step that follows its emission computes `rand () % 0`. -/
theorem generate_random_sequence_terminal_dead_end :
    generate_random_sequence 0 (fun _ => 0) scenario_abc_chain (some 2) 5 =
      ⟨[2], .faulted .div_by_zero⟩ := by
  decide

/-! ## The three-word scenario -/

theorem scenario_abc_eq : scenario_abc = some scenario_abc_chain := rfl

/-- C7: the chain built by adding `a`, `b`, `c.` and recording `a → b` and `b → c.` once
each exists, and the walk from `a` with `max_length = 5` returns after emitting exactly
`a`, `b`, `c.`, for every sequence of draws. -/
theorem scenario_abc_walk (fuel : Nat) (rands : Nat → Nat) :
    ∃ mc, scenario_abc = some mc ∧
      get_node_from_database mc (some "a") = some 0 ∧
      generate_random_sequence fuel rands mc (get_node_from_database mc (some "a")) 5 =
        ⟨[0, 1, 2], .finished⟩ ∧
      (generate_random_sequence fuel rands mc (get_node_from_database mc (some "a"))
        5).printed mc = [some "a", some "b", some "c."] := by
  have ha : get_node_from_database scenario_abc_chain (some "a") = some 0 := by decide
  have h0 : ∀ rand, get_next_random_node scenario_abc_chain 0 rand = .ok 1 := by
    intro rand
    simp [get_next_random_node, scenario_abc_chain, get_next_random_node_iter,
      get_counter_list_sum, get_counter_list_sum_loop, get_random_number,
      get_next_random_node_scan, next_node_data, Nat.mod_one]
  have h1 : ∀ rand, get_next_random_node scenario_abc_chain 1 rand = .ok 2 := by
    intro rand
    simp [get_next_random_node, scenario_abc_chain, get_next_random_node_iter,
      get_counter_list_sum, get_counter_list_sum_loop, get_random_number,
      get_next_random_node_scan, next_node_data, Nat.mod_one]
  have hwalk : generate_random_sequence fuel rands scenario_abc_chain (some 0) 5 =
      ⟨[0, 1, 2], .finished⟩ := by
    have hb : ((5 : Int) - 1).toNat + 1 = 4 + 1 := by decide
    simp only [generate_random_sequence, hb, generate_random_sequence_loop, h0, h1]
    simp [scenario_abc_chain, Tweets.is_last_word]
  refine ⟨scenario_abc_chain, scenario_abc_eq, ha, ?_, ?_⟩
  · rw [ha, hwalk]
  · rw [ha, hwalk]
    decide


/-! ## Examples -/

/-- Example for C10: the chain after `a` and `b` were added to an empty tweet chain. -/
theorem built_database_no_duplicates_witness :
    (∀ (i j : Nat) (ni nj : MarkovNode String), i < j →
      ([⟨some "a", [], 0⟩, ⟨some "b", [], 0⟩] : List (MarkovNode String))[i]? = some ni →
      ([⟨some "a", [], 0⟩, ⟨some "b", [], 0⟩] : List (MarkovNode String))[j]? = some nj →
      Tweets.compare_words ni.data nj.data ≠ 0) ∧
    ((∀ x y, Tweets.compare_words x y = 0 → Tweets.compare_words y x = 0) →
      ∀ (i j : Nat) (ni nj : MarkovNode String), i ≠ j →
        ([⟨some "a", [], 0⟩, ⟨some "b", [], 0⟩] : List (MarkovNode String))[i]? = some ni →
        ([⟨some "a", [], 0⟩, ⟨some "b", [], 0⟩] : List (MarkovNode String))[j]? = some nj →
        Tweets.compare_words ni.data nj.data ≠ 0) :=
  built_database_no_duplicates
    ⟨[⟨some "a", [], 0⟩, ⟨some "b", [], 0⟩], Tweets.compare_words, Tweets.copy_word true,
      Tweets.is_last_word⟩
    (BuiltByAdd.add_to_database
      ⟨[⟨some "a", [], 0⟩], Tweets.compare_words, Tweets.copy_word true, Tweets.is_last_word⟩
      _ true true "b" (some 1)
      (BuiltByAdd.add_to_database (Tweets.get_markov_chain true) _ true true "a" (some 0)
        (BuiltByAdd.empty _ rfl) rfl)
      rfl)
    (fun _ _ => rfl)

/-- Example for C2: three observations of `a → a` in a chain where `a` so far has one
edge, to `b`. -/
theorem add_node_to_counter_list_repeat_single_edge_witness :
    ∃ mc1 first1, add_node_to_counter_list_repeat 0 0 3
        (⟨[⟨some "a", [⟨some 1, 2⟩], 1⟩, ⟨some "b", [], 0⟩], Tweets.compare_words,
          Tweets.copy_word true, Tweets.is_last_word⟩ : MarkovChain String) = .ok (true, mc1) ∧
      mc1.database[0]? = some first1 ∧
      first1.counter_list = [⟨some 1, 2⟩] ++ [⟨some 0, 3⟩] ∧
      first1.counter_list_length = 1 + 1 ∧
      first1.counter_list.filter (fun e => e.markov_node = some 0) = [⟨some 0, 3⟩] :=
  add_node_to_counter_list_repeat_single_edge
    (⟨[⟨some "a", [⟨some 1, 2⟩], 1⟩, ⟨some "b", [], 0⟩], Tweets.compare_words,
      Tweets.copy_word true, Tweets.is_last_word⟩ : MarkovChain String) 0 0 3
    ⟨some "a", [⟨some 1, 2⟩], 1⟩ ⟨some "a", [⟨some 1, 2⟩], 1⟩ (by decide) rfl rfl rfl
    (by decide) (by decide) (by decide)

/-- Example for C5: in `scenario_weighted_chain` the draw `rand () = 8` gives `r = 3` for
the state `a` of total weight 5. -/
theorem get_next_random_node_selects_witness :
    ∃ i iter, ([⟨some 1, 2⟩, ⟨some 0, 3⟩] : List NextNodeCounter)[i]? = some iter ∧
      weight_before [⟨some 1, 2⟩, ⟨some 0, 3⟩] i ≤ 3 ∧
      3 < weight_before [⟨some 1, 2⟩, ⟨some 0, 3⟩] (i + 1) ∧
      (∀ j, weight_before [⟨some 1, 2⟩, ⟨some 0, 3⟩] j ≤ 3 →
        3 < weight_before [⟨some 1, 2⟩, ⟨some 0, 3⟩] (j + 1) → j = i) ∧
      get_next_random_node_iter
        (⟨some "a", [⟨some 1, 2⟩, ⟨some 0, 3⟩], 2⟩ : MarkovNode String) 8 = .ok i ∧
      get_next_random_node scenario_weighted_chain 0 8 =
        next_node_data scenario_weighted_chain iter ∧
      ∀ node, iter.markov_node = some node → node < scenario_weighted_chain.database.length →
        get_next_random_node scenario_weighted_chain 0 8 = .ok node :=
  get_next_random_node_selects scenario_weighted_chain 0
    ⟨some "a", [⟨some 1, 2⟩, ⟨some 0, 3⟩], 2⟩ 3 8 rfl rfl (by decide) (by decide)

/-- Example for C6: the second edge of the state `a` of `scenario_weighted_chain` is
selected by three of the five draws. -/
theorem get_next_random_node_edge_count_witness :
    ((Finset.range (total_weight [⟨some 1, 2⟩, ⟨some 0, 3⟩])).filter
      (fun rand => get_next_random_node_iter
        (⟨some "a", [⟨some 1, 2⟩, ⟨some 0, 3⟩], 2⟩ : MarkovNode String) rand = .ok 1)).card =
        3 ∧
    ((((Finset.range (total_weight [⟨some 1, 2⟩, ⟨some 0, 3⟩])).filter
      (fun rand => get_next_random_node_iter
        (⟨some "a", [⟨some 1, 2⟩, ⟨some 0, 3⟩], 2⟩ : MarkovNode String) rand = .ok 1)).card :
          ℚ) / (total_weight [⟨some 1, 2⟩, ⟨some 0, 3⟩] : ℚ) =
      ((3 : Nat) : ℚ) / (total_weight [⟨some 1, 2⟩, ⟨some 0, 3⟩] : ℚ)) :=
  get_next_random_node_edge_count (⟨some "a", [⟨some 1, 2⟩, ⟨some 0, 3⟩], 2⟩ : MarkovNode String)
    1 ⟨some 0, 3⟩ rfl (by decide) rfl

/-! ## The effect of one recorded transition -/

/-- An edge list either holds no edge to `b`, or splits at its first edge to `b`. -/
theorem counter_list_split (b : Nat) (l : List NextNodeCounter) :
    (∀ e ∈ l, e.markov_node ≠ some b) ∨
    ∃ l1 e l2, l = l1 ++ e :: l2 ∧ e.markov_node = some b ∧
      ∀ x ∈ l1, x.markov_node ≠ some b := by
  induction l with
  | nil => left; simp
  | cons hd tl ih =>
    by_cases hhd : hd.markov_node = some b
    · right
      exact ⟨[], hd, tl, rfl, hhd, by simp⟩
    · rcases ih with h | ⟨l1, e, l2, hl, he, h1⟩
      · left
        intro x hx
        rcases List.mem_cons.1 hx with rfl | hx
        · exact hhd
        · exact h x hx
      · right
        refine ⟨hd :: l1, e, l2, by rw [hl]; rfl, he, ?_⟩
        intro x hx
        rcases List.mem_cons.1 hx with rfl | hx
        · exact hhd
        · exact h1 x hx

theorem word_found_in_counter_list_loop_found (size b : Nat) (l1 l2 : List NextNodeCounter)
    (e : NextNodeCounter) (n : Nat) (he : e.markov_node = some b) (hb : b < size)
    (hn : l1.length < n)
    (htargets : ∀ x ∈ l1, ∃ t, x.markov_node = some t ∧ t < size)
    (habsent : ∀ x ∈ l1, x.markov_node ≠ some b) :
    word_found_in_counter_list_loop size b (l1 ++ e :: l2) n =
      .ok (some (l1 ++ ⟨some b, e.frequency + 1⟩ :: l2)) := by
  induction l1 generalizing n with
  | nil =>
    obtain ⟨m, rfl⟩ : ∃ m, n = m + 1 := ⟨n - 1, by simp at hn; omega⟩
    simp [word_found_in_counter_list_loop, he, hb]
  | cons hd tl ih =>
    obtain ⟨m, rfl⟩ : ∃ m, n = m + 1 := ⟨n - 1, by simp at hn; omega⟩
    obtain ⟨t, ht, hlt⟩ := htargets hd (by simp)
    have hne : b ≠ t := by
      intro h
      exact habsent hd (by simp) (by rw [ht, h])
    have htl := ih m (by simpa using hn) (fun x hx => htargets x (by simp [hx]))
      (fun x hx => habsent x (by simp [hx]))
    simp [word_found_in_counter_list_loop, ht, hlt, hne, htl]

/-- A call for a transition that the source has no edge for appends one entry, whose
target is what the lookup of the payload of the target state returns. -/
theorem add_node_to_counter_list_absent (mc : MarkovChain T) (a b : Nat)
    (first second : MarkovNode T)
    (hfirst : mc.database[a]? = some first) (hsecond : mc.database[b]? = some second)
    (hlen : first.counter_list_length = first.counter_list.length)
    (htargets : ∀ e ∈ first.counter_list, ∃ t, e.markov_node = some t ∧
      t < mc.database.length)
    (habsent : ∀ e ∈ first.counter_list, e.markov_node ≠ some b) :
    add_node_to_counter_list true a b mc =
      .ok (true, ⟨mc.database.set a ⟨first.data,
        first.counter_list ++ [⟨get_node_from_database mc second.data, 1⟩],
        first.counter_list.length + 1⟩, mc.comp_func, mc.copy_func, mc.is_last⟩) := by
  unfold add_node_to_counter_list
  simp only [hfirst]
  by_cases h0 : first.counter_list_length = 0
  · have hnil : first.counter_list = [] := by
      rw [h0] at hlen
      exact List.length_eq_zero.1 hlen.symm
    simp [h0, create_new_counter_list, hfirst, hsecond, hnil]
  · simp only [h0, ↓reduceIte]
    have hloop := word_found_in_counter_list_loop_absent mc.database.length b
      first.counter_list htargets habsent
    simp [word_found_in_counter_list, hfirst, hlen, hloop, add_new_node_to_counter_list,
      hsecond]

/-- A call for a transition that the source has an edge for increments the first such
edge and changes nothing else, whatever the allocator would do. -/
theorem add_node_to_counter_list_present (mc : MarkovChain T) (mem : Bool) (a b : Nat)
    (first : MarkovNode T) (l1 l2 : List NextNodeCounter) (e : NextNodeCounter)
    (hfirst : mc.database[a]? = some first) (hb : b < mc.database.length)
    (hsplit : first.counter_list = l1 ++ e :: l2)
    (hlen : first.counter_list_length = first.counter_list.length)
    (he : e.markov_node = some b)
    (htargets : ∀ x ∈ l1, ∃ t, x.markov_node = some t ∧ t < mc.database.length)
    (habsent : ∀ x ∈ l1, x.markov_node ≠ some b) :
    add_node_to_counter_list mem a b mc =
      .ok (true, ⟨mc.database.set a ⟨first.data,
        l1 ++ ⟨some b, e.frequency + 1⟩ :: l2, first.counter_list_length⟩,
        mc.comp_func, mc.copy_func, mc.is_last⟩) := by
  unfold add_node_to_counter_list
  have hpos : first.counter_list_length ≠ 0 := by
    rw [hlen, hsplit]
    simp
  have hloop := word_found_in_counter_list_loop_found mc.database.length b l1 l2 e
    first.counter_list_length he hb (by rw [hlen, hsplit]; simp) htargets habsent
  simp [hfirst, hpos, word_found_in_counter_list, hsplit ▸ hloop]

theorem counter_list_split_at (l : List NextNodeCounter) (i : Nat) (e : NextNodeCounter)
    (h : l[i]? = some e) :
    l = l.take i ++ e :: l.drop (i + 1) ∧ (l.take i).length = i ∧
      ∀ x ∈ l.take i, ∃ j, j < i ∧ l[j]? = some x := by
  obtain ⟨hi, he⟩ := List.getElem?_eq_some.1 h
  refine ⟨?_, by simp; omega, ?_⟩
  · rw [← he, ← List.drop_eq_getElem_cons hi, List.take_append_drop]
  · intro x hx
    obtain ⟨j, hj⟩ := List.mem_iff_getElem?.1 hx
    have hjlt : j < i := by
      have := (List.getElem?_eq_some.1 hj).1
      simp at this
      omega
    refine ⟨j, hjlt, ?_⟩
    rw [List.getElem?_take] at hj
    simpa [hjlt] using hj

/-- The effect of a recorded transition when the allocation succeeds.  Let `a` and `b` be
states of the registry, the edge list of `a` well formed (its recorded length is its number of entries and every entry points to a registry state)
and the payload of `b` resolve to `b`.  If `a` has no edge to `b` (its list may be
empty), `add_node_to_counter_list (a, b)` appends exactly one edge `(b, 1)` at the end of
the list.  If `a` has an edge to `b`, the call adds exactly 1 to the frequency of that
edge (the first one, if there were several) and the list keeps its length, whatever the
allocator would do.  In both cases every other edge of `a` keeps its target, frequency
and position, and the payload of `a` is untouched. -/
theorem add_node_to_counter_list_effect (mc : MarkovChain T) (a b : Nat)
    (first second : MarkovNode T)
    (hfirst : mc.database[a]? = some first) (hsecond : mc.database[b]? = some second)
    (hlen : first.counter_list_length = first.counter_list.length)
    (htargets : ∀ e ∈ first.counter_list, ∃ t, e.markov_node = some t ∧
      t < mc.database.length)
    (hlook : get_node_from_database mc second.data = some b) :
    ((∀ e ∈ first.counter_list, e.markov_node ≠ some b) →
      ∃ first1, add_node_to_counter_list true a b mc =
          .ok (true, ⟨mc.database.set a first1, mc.comp_func, mc.copy_func, mc.is_last⟩) ∧
        first1.data = first.data ∧
        first1.counter_list = first.counter_list ++ [⟨some b, 1⟩] ∧
        first1.counter_list_length = first.counter_list_length + 1 ∧
        ∀ (j : Nat) (x : NextNodeCounter), first.counter_list[j]? = some x →
          first1.counter_list[j]? = some x) ∧
    (∀ (i : Nat) (e : NextNodeCounter), first.counter_list[i]? = some e →
      e.markov_node = some b →
      (∀ (j : Nat) (x : NextNodeCounter), j < i → first.counter_list[j]? = some x → x.markov_node ≠ some b) →
      ∀ mem, ∃ first1, add_node_to_counter_list mem a b mc =
          .ok (true, ⟨mc.database.set a first1, mc.comp_func, mc.copy_func, mc.is_last⟩) ∧
        first1.data = first.data ∧
        first1.counter_list = first.counter_list.set i ⟨some b, e.frequency + 1⟩ ∧
        first1.counter_list.length = first.counter_list.length ∧
        first1.counter_list_length = first.counter_list_length ∧
        ∀ (j : Nat) (x : NextNodeCounter), j ≠ i → first.counter_list[j]? = some x →
          first1.counter_list[j]? = some x) := by
  constructor
  · intro habsent
    refine ⟨_, add_node_to_counter_list_absent mc a b first second hfirst hsecond hlen
      htargets habsent, rfl, by rw [hlook], by simp [hlen], ?_⟩
    intro j x hj
    have hjlt := (List.getElem?_eq_some.1 hj).1
    simp only [List.getElem?_append_left hjlt]
    exact hj
  · intro i e hi he hbefore mem
    obtain ⟨hsplit, hlen1, hmem1⟩ := counter_list_split_at first.counter_list i e hi
    have hb : b < mc.database.length := (List.getElem?_eq_some.1 hsecond).1
    have hcall := add_node_to_counter_list_present mc mem a b first _ _ e hfirst hb hsplit
      hlen he
      (fun x hx => htargets x (List.mem_of_mem_take hx))
      (fun x hx => by
        obtain ⟨j, hj, hget⟩ := hmem1 x hx
        exact hbefore j x hj hget)
    have hset : first.counter_list.set i ⟨some b, e.frequency + 1⟩ =
        first.counter_list.take i ++ ⟨some b, e.frequency + 1⟩ ::
          first.counter_list.drop (i + 1) :=
      List.set_eq_take_append_cons_drop.trans (by simp [(List.getElem?_eq_some.1 hi).1])
    refine ⟨_, hcall, rfl, hset.symm, ?_, rfl, ?_⟩
    · simp only
      rw [← hset, List.length_set]
    · intro j x hji hj
      simp only
      rw [← hset, List.getElem?_set_ne (Ne.symm hji)]
      exact hj

/-! ## What a recorded transition leaves alone -/

theorem list_set_same {α : Type} (l : List α) (i : Nat) (x : α) (h : l[i]? = some x) :
    l.set i x = l := by
  induction l generalizing i with
  | nil => rfl
  | cons hd tl ih =>
    cases i with
    | zero =>
      simp only [List.getElem?_cons_zero, Option.some.injEq] at h
      simp [h]
    | succ i =>
      simp only [List.getElem?_cons_succ] at h
      simp [ih i h]

/-- Whatever the state of the chain and of the allocator, a call of
`add_node_to_counter_list` that returns leaves the capabilities alone and replaces at
most the state `first_node`, by a state with the same payload. -/
theorem add_node_to_counter_list_frame (mc mc1 : MarkovChain T) (mem result : Bool)
    (a b : Nat) (h : add_node_to_counter_list mem a b mc = .ok (result, mc1)) :
    mc1.comp_func = mc.comp_func ∧ mc1.copy_func = mc.copy_func ∧
    mc1.is_last = mc.is_last ∧
    ∃ first first1, mc.database[a]? = some first ∧
      mc1.database = mc.database.set a first1 ∧ first1.data = first.data := by
  unfold add_node_to_counter_list at h
  cases hfirst : mc.database[a]? with
  | none => simp [hfirst] at h
  | some first =>
    have hself : mc.database = mc.database.set a first :=
      (list_set_same mc.database a first hfirst).symm
    simp only [hfirst] at h
    by_cases h0 : first.counter_list_length = 0
    · simp only [h0, ↓reduceIte, create_new_counter_list] at h
      cases mem with
      | false =>
        simp only [Bool.false_eq_true, ↓reduceIte, Res.ok.injEq, Prod.mk.injEq] at h
        obtain ⟨-, rfl⟩ := h
        exact ⟨rfl, rfl, rfl, first, first, rfl, hself, rfl⟩
      | true =>
        cases hsecond : mc.database[b]? with
        | none => simp [hsecond] at h
        | some second =>
          simp only [hsecond, hfirst, ↓reduceIte, Res.ok.injEq, Prod.mk.injEq] at h
          obtain ⟨-, rfl⟩ := h
          exact ⟨rfl, rfl, rfl, first, _, rfl, rfl, rfl⟩
    · simp only [h0, ↓reduceIte, word_found_in_counter_list, hfirst] at h
      cases hloop : word_found_in_counter_list_loop mc.database.length b first.counter_list
          first.counter_list_length with
      | fault f => simp [hloop] at h
      | ok found =>
        cases found with
        | some counter_list =>
          simp only [hloop, Res.ok.injEq, Prod.mk.injEq] at h
          obtain ⟨-, rfl⟩ := h
          exact ⟨rfl, rfl, rfl, first, _, rfl, rfl, rfl⟩
        | none =>
          simp only [hloop, add_new_node_to_counter_list, hfirst] at h
          cases mem with
          | false =>
            simp only [Bool.false_eq_true, ↓reduceIte, Res.ok.injEq, Prod.mk.injEq] at h
            obtain ⟨-, rfl⟩ := h
            exact ⟨rfl, rfl, rfl, first, _, rfl, rfl, rfl⟩
          | true =>
            cases hsecond : mc.database[b]? with
            | none => simp [hsecond] at h
            | some second =>
              simp only [hsecond, ↓reduceIte, Res.ok.injEq, Prod.mk.injEq] at h
              obtain ⟨-, rfl⟩ := h
              exact ⟨rfl, rfl, rfl, first, _, rfl, rfl, rfl⟩

/-! ## The edge invariant -/

theorem edge_invariant_set (mc : MarkovChain T) (a : Nat) (first1 : MarkovNode T)
    (hinv : EdgeInvariant mc)
    (hlen : first1.counter_list_length = first1.counter_list.length)
    (hedges : ∀ e ∈ first1.counter_list,
      (∃ t, e.markov_node = some t ∧ t < mc.database.length) ∧ 1 ≤ e.frequency) :
    EdgeInvariant ⟨mc.database.set a first1, mc.comp_func, mc.copy_func, mc.is_last⟩ := by
  intro state hstate
  simp only [List.length_set]
  rcases List.mem_or_eq_of_mem_set hstate with h | h
  · exact hinv state h
  · subst h
    exact ⟨hlen, hedges⟩

theorem edge_invariant_append (mc : MarkovChain T) (data : Option T)
    (hinv : EdgeInvariant mc) :
    EdgeInvariant ⟨mc.database ++ [⟨data, [], 0⟩], mc.comp_func, mc.copy_func,
      mc.is_last⟩ := by
  intro state hstate
  simp only [List.mem_append, List.mem_singleton] at hstate
  rcases hstate with h | h
  · obtain ⟨hlen, hedges⟩ := hinv state h
    refine ⟨hlen, fun e he => ?_⟩
    obtain ⟨⟨t, ht, hlt⟩, hfreq⟩ := hedges e he
    exact ⟨⟨t, ht, by simp; omega⟩, hfreq⟩
  · subst h
    simp

/-- Under a reflexive `comp_func`, the lookup of the payload of a registry state finds a
state of the registry. -/
theorem get_node_from_database_of_mem (mc : MarkovChain T) (b : Nat) (second : MarkovNode T)
    (d : T) (hrefl : ∀ x : T, mc.comp_func (some x) (some x) = 0)
    (hsecond : mc.database[b]? = some second) (hdata : second.data = some d) :
    ∃ t, get_node_from_database mc second.data = some t ∧ t < mc.database.length := by
  rw [hdata]
  cases hl : get_node_from_database mc (some d) with
  | none =>
    have := (get_node_from_database_eq_none mc d).1 hl second (List.getElem?_mem hsecond)
    rw [hdata] at this
    exact absurd (hrefl d) this
  | some t => exact ⟨t, rfl, get_node_from_database_lt mc d t hl⟩

/-- The chains built by the two operations satisfy the edge invariant and hold no state
without a payload, if `comp_func` is reflexive and `copy_func` succeeds. -/
theorem built_invariants (mc : MarkovChain T) (hbuilt : Built mc)
    (hrefl : ∀ x : T, mc.comp_func (some x) (some x) = 0)
    (hcopy : ∀ v : T, mc.copy_func (some v) ≠ none) :
    EdgeInvariant mc ∧ ∀ state ∈ mc.database, state.data ≠ none := by
  induction hbuilt with
  | empty mc h =>
    constructor
    · intro state hstate
      simp [h] at hstate
    · intro state hstate
      simp [h] at hstate
  | add_to_database mc mc1 m1 m2 v node _ hcall ih =>
    rcases add_to_database_database mc mc1 v m1 m2 node hcall with ⟨-, -, h⟩ | ⟨-, h⟩
    · subst h
      exact ih hrefl hcopy
    · subst h
      obtain ⟨hinv, hdata⟩ := ih hrefl hcopy
      refine ⟨edge_invariant_append mc _ hinv, ?_⟩
      intro state hstate
      simp only [List.mem_append, List.mem_singleton] at hstate
      rcases hstate with h | h
      · exact hdata state h
      · subst h
        exact hcopy v
  | add_node_to_counter_list mc mc1 a b result _ ha hb hcall ih =>
    obtain ⟨hcomp, hcopyf, -, -⟩ := add_node_to_counter_list_frame mc mc1 true result a b hcall
    rw [hcomp] at hrefl
    rw [hcopyf] at hcopy
    obtain ⟨hinv, hdata⟩ := ih hrefl hcopy
    have hfirst : mc.database[a]? = some (mc.database[a]) := List.getElem?_eq_getElem ha
    have hsecond : mc.database[b]? = some (mc.database[b]) := List.getElem?_eq_getElem hb
    have hmema : mc.database[a] ∈ mc.database := List.getElem?_mem hfirst
    obtain ⟨hlen, hedges⟩ := hinv _ hmema
    have hdata2 : ∀ first1 : MarkovNode T, first1.data = (mc.database[a]).data →
        ∀ state ∈ mc.database.set a first1, state.data ≠ none := by
      intro first1 hd state hstate
      rcases List.mem_or_eq_of_mem_set hstate with h | h
      · exact hdata state h
      · subst h
        rw [hd]
        exact hdata _ hmema
    rcases counter_list_split b (mc.database[a]).counter_list with habsent |
        ⟨l1, e, l2, hsplit, he, habsent⟩
    · rw [add_node_to_counter_list_absent mc a b _ _ hfirst hsecond hlen
        (fun x hx => (hedges x hx).1) habsent] at hcall
      simp only [Res.ok.injEq, Prod.mk.injEq] at hcall
      obtain ⟨-, rfl⟩ := hcall
      obtain ⟨d, hd⟩ := Option.ne_none_iff_exists'.1 (hdata _ (List.getElem?_mem hsecond))
      obtain ⟨t, ht, hlt⟩ := get_node_from_database_of_mem mc b _ d hrefl hsecond hd
      refine ⟨edge_invariant_set mc a _ hinv (by simp) ?_, hdata2 _ rfl⟩
      intro x hx
      simp only [List.mem_append, List.mem_singleton] at hx
      rcases hx with hx | hx
      · exact hedges x hx
      · subst hx
        exact ⟨⟨t, ht, hlt⟩, Nat.le_refl 1⟩
    · rw [add_node_to_counter_list_present mc true a b _ l1 l2 e hfirst hb hsplit hlen he
        (fun x hx => (hedges x (by rw [hsplit]; simp [hx])).1) habsent] at hcall
      simp only [Res.ok.injEq, Prod.mk.injEq] at hcall
      obtain ⟨-, rfl⟩ := hcall
      refine ⟨edge_invariant_set mc a _ hinv (by simp [hlen, hsplit]) ?_, hdata2 _ rfl⟩
      intro x hx
      simp only [List.mem_append, List.mem_cons] at hx
      rcases hx with hx | hx | hx
      · exact hedges x (by rw [hsplit]; simp [hx])
      · subst hx
        exact ⟨⟨b, rfl, hb⟩, by simp⟩
      · exact hedges x (by rw [hsplit]; simp [hx])

/-- The edge invariant when the allocations succeed.  Let `comp_func` be reflexive and
`copy_func` succeed.  In every chain built from an empty database by `add_to_database`
calls and by `add_node_to_counter_list` calls on two states of the registry (the allocations of the latter succeeding), every edge of
every state points to a state of the registry and has a frequency of at least 1, and
the `counter_list_length` of every state is the number of its edges. -/
theorem built_edge_invariant (mc : MarkovChain T) (hbuilt : Built mc)
    (hrefl : ∀ x : T, mc.comp_func (some x) (some x) = 0)
    (hcopy : ∀ v : T, mc.copy_func (some v) ≠ none) :
    ∀ state ∈ mc.database,
      state.counter_list_length = state.counter_list.length ∧
      ∀ e ∈ state.counter_list,
        (∃ t, e.markov_node = some t ∧ t < mc.database.length) ∧ 1 ≤ e.frequency :=
  (built_invariants mc hbuilt hrefl hcopy).1

/-! ## Lookup by value and identity of states -/

theorem getElem?_set_data (l : List (MarkovNode T)) (a i : Nat) (first first1 n : MarkovNode T)
    (hfirst : l[a]? = some first) (hdata : first1.data = first.data)
    (h : (l.set a first1)[i]? = some n) :
    ∃ n0, l[i]? = some n0 ∧ n0.data = n.data := by
  by_cases hai : a = i
  · subst hai
    have ha : a < l.length := (List.getElem?_eq_some.1 hfirst).1
    rw [List.getElem?_set_self ha] at h
    simp only [Option.some.injEq] at h
    subst h
    exact ⟨first, hfirst, hdata.symm⟩
  · rw [List.getElem?_set_ne hai] at h
    exact ⟨n, h, rfl⟩

/-- In a chain built by the two operations, `comp_func` does not report the payload of a
state equal to the payload of a state inserted after it, if copies compare like their
originals. -/
theorem built_payloads_distinct (mc : MarkovChain T) (hbuilt : Built mc)
    (hcmp : ∀ (v : T) (w : Option T),
      mc.comp_func w (mc.copy_func (some v)) = mc.comp_func w (some v)) :
    ∀ (i j : Nat) (ni nj : MarkovNode T), i < j → mc.database[i]? = some ni →
      mc.database[j]? = some nj → mc.comp_func ni.data nj.data ≠ 0 := by
  induction hbuilt with
  | empty mc h => intro i j ni nj _ hi; simp [h] at hi
  | add_to_database mc mc1 m1 m2 v node _ hcall ih =>
    rcases add_to_database_database mc mc1 v m1 m2 node hcall with ⟨-, -, h⟩ | ⟨hl, h⟩
    · subst h; exact ih hcmp
    · subst h
      intro i j ni nj hij hi hj
      have hjlt : j < mc.database.length + 1 := by
        have := (List.getElem?_eq_some.1 hj).1
        simpa using this
      have hilt : i < mc.database.length := by omega
      simp only [List.getElem?_append_left hilt] at hi
      by_cases hjl : j < mc.database.length
      · simp only [List.getElem?_append_left hjl] at hj
        exact ih hcmp i j ni nj hij hi hj
      · have hje : j = mc.database.length := by omega
        subst hje
        simp only [List.getElem?_concat_length, Option.some.injEq] at hj
        subst hj
        simp only
        rw [hcmp]
        exact (get_node_from_database_eq_none mc v).1 hl ni (List.getElem?_mem hi)
  | add_node_to_counter_list mc mc1 a b result _ ha hb hcall ih =>
    obtain ⟨hcomp, hcopyf, -, first, first1, hfirst, hdb, hdata⟩ :=
      add_node_to_counter_list_frame mc mc1 true result a b hcall
    rw [hcomp, hcopyf] at hcmp
    intro i j ni nj hij hi hj
    rw [hdb] at hi hj
    obtain ⟨ni0, hi0, hdi⟩ := getElem?_set_data _ a i first first1 ni hfirst hdata hi
    obtain ⟨nj0, hj0, hdj⟩ := getElem?_set_data _ a j first first1 nj hfirst hdata hj
    rw [hcomp, ← hdi, ← hdj]
    exact ih hcmp i j ni0 nj0 hij hi0 hj0

/-- In a chain built by the two operations, the payload of every state resolves to that
state. -/
theorem built_lookup_self (mc : MarkovChain T) (hbuilt : Built mc)
    (hrefl : ∀ x : T, mc.comp_func (some x) (some x) = 0)
    (hcopy : ∀ v : T, mc.copy_func (some v) ≠ none)
    (hcmp : ∀ (v : T) (w : Option T),
      mc.comp_func w (mc.copy_func (some v)) = mc.comp_func w (some v))
    (s : Nat) (state : MarkovNode T) (hstate : mc.database[s]? = some state) :
    get_node_from_database mc state.data = some s := by
  obtain ⟨d, hd⟩ := Option.ne_none_iff_exists'.1
    ((built_invariants mc hbuilt hrefl hcopy).2 state (List.getElem?_mem hstate))
  rw [hd, get_node_from_database_eq_some]
  refine ⟨state, hstate, by rw [hd]; exact hrefl d, ?_⟩
  intro j nj hj hget
  rw [← hd]
  exact built_payloads_distinct mc hbuilt hcmp j s nj state hj hget hstate

/-- C17: let `comp_func` be reflexive and `copy_func` return a payload that compares like
its argument.  In every chain built from an empty database by `add_to_database` calls
(with or without `add_node_to_counter_list` calls on registry states in between),
`get_node_from_database` applied to the payload of a registry state `s` returns `s`
itself.  Hence the entry that `create_new_counter_list` and
`add_new_node_to_counter_list` store for a target state `b`, found by value, points to
`b`: the very pointer that `word_found_in_counter_list` compares by reference. -/
theorem built_lookup_own_payload (mc : MarkovChain T) (hbuilt : Built mc)
    (hrefl : ∀ x : T, mc.comp_func (some x) (some x) = 0)
    (hcopy : ∀ v : T, mc.copy_func (some v) ≠ none)
    (hcmp : ∀ (v : T) (w : Option T),
      mc.comp_func w (mc.copy_func (some v)) = mc.comp_func w (some v)) :
    (∀ (s : Nat) (state : MarkovNode T), mc.database[s]? = some state →
      get_node_from_database mc state.data = some s) ∧
    (∀ (a b : Nat) (first second : MarkovNode T), mc.database[a]? = some first →
      mc.database[b]? = some second →
      create_new_counter_list true a b mc =
        .ok (true, ⟨mc.database.set a ⟨first.data, [⟨some b, 1⟩],
          first.counter_list_length + 1⟩, mc.comp_func, mc.copy_func, mc.is_last⟩) ∧
      add_new_node_to_counter_list true a b mc =
        .ok (true, ⟨mc.database.set a ⟨first.data,
          first.counter_list.take first.counter_list_length ++ [⟨some b, 1⟩],
          first.counter_list_length + 1⟩, mc.comp_func, mc.copy_func, mc.is_last⟩)) := by
  refine ⟨built_lookup_self mc hbuilt hrefl hcopy hcmp, ?_⟩
  intro a b first second hfirst hsecond
  have hlook := built_lookup_self mc hbuilt hrefl hcopy hcmp b second hsecond
  constructor
  · simp [create_new_counter_list, hfirst, hsecond, hlook]
  · simp [add_new_node_to_counter_list, hfirst, hsecond, hlook]

/-! ## Start selection -/

/-- One round of `get_first_random_node` on a registry that is not empty. -/
theorem get_first_random_node_round (mc : MarkovChain T) (rands : Nat → Nat)
    (fuel pos : Nat) (hne : mc.database ≠ []) :
    get_first_random_node mc rands (fuel + 1) pos =
      if is_last_node mc (rands pos % mc.database.length) = true then
        get_first_random_node mc rands fuel (pos + 1)
      else some (.ok (rands pos % mc.database.length, pos + 1)) := by
  have hpos : 0 < mc.database.length := List.length_pos.2 hne
  have hlt : rands pos % mc.database.length < mc.database.length := Nat.mod_lt _ hpos
  have hget : mc.database[rands pos % mc.database.length]? =
      some (mc.database[rands pos % mc.database.length]) := List.getElem?_eq_getElem hlt
  simp only [get_first_random_node, get_random_number, Nat.ne_of_gt hpos, ↓reduceIte,
    List.drop_eq_getElem_cons hlt, is_last_node, hget]

theorem get_first_random_node_returns (mc : MarkovChain T) (rands : Nat → Nat)
    (fuel pos : Nat) (r : Res (Nat × Nat)) (hne : mc.database ≠ [])
    (h : get_first_random_node mc rands fuel pos = some r) :
    ∃ k, k < fuel ∧ r = .ok (rands (pos + k) % mc.database.length, pos + k + 1) ∧
      is_last_node mc (rands (pos + k) % mc.database.length) = false ∧
      ∀ j, j < k → is_last_node mc (rands (pos + j) % mc.database.length) = true := by
  induction fuel generalizing pos with
  | zero => simp [get_first_random_node] at h
  | succ fuel ih =>
    rw [get_first_random_node_round mc rands fuel pos hne] at h
    by_cases hlast : is_last_node mc (rands pos % mc.database.length) = true
    · rw [if_pos hlast] at h
      obtain ⟨k, hk, hr, hnot, hbefore⟩ := ih (pos + 1) h
      refine ⟨k + 1, by omega, ?_, ?_, ?_⟩
      · rw [hr]
        have : pos + 1 + k = pos + (k + 1) := by omega
        rw [this]
      · have : pos + 1 + k = pos + (k + 1) := by omega
        rw [← this]
        exact hnot
      · intro j hj
        cases j with
        | zero => simpa using hlast
        | succ j =>
          have : pos + 1 + j = pos + (j + 1) := by omega
          rw [← this]
          exact hbefore j (by omega)
    · rw [if_neg hlast] at h
      simp only [Option.some.injEq] at h
      refine ⟨0, by omega, by simpa using h.symm, by simpa using hlast, ?_⟩
      intro j hj
      omega

theorem get_first_random_node_finds (mc : MarkovChain T) (rands : Nat → Nat)
    (fuel pos k : Nat) (hne : mc.database ≠ []) (hfuel : k < fuel)
    (hnot : is_last_node mc (rands (pos + k) % mc.database.length) = false)
    (hbefore : ∀ j, j < k →
      is_last_node mc (rands (pos + j) % mc.database.length) = true) :
    get_first_random_node mc rands fuel pos =
      some (.ok (rands (pos + k) % mc.database.length, pos + k + 1)) := by
  induction k generalizing fuel pos with
  | zero =>
    obtain ⟨f, rfl⟩ : ∃ f, fuel = f + 1 := ⟨fuel - 1, by omega⟩
    rw [get_first_random_node_round mc rands f pos hne]
    simp only [Nat.add_zero] at hnot ⊢
    simp [hnot]
  | succ k ih =>
    obtain ⟨f, rfl⟩ : ∃ f, fuel = f + 1 := ⟨fuel - 1, by omega⟩
    rw [get_first_random_node_round mc rands f pos hne]
    have h0 := hbefore 0 (by omega)
    simp only [Nat.add_zero] at h0
    rw [if_pos h0]
    have := ih f (pos + 1) (by omega)
      (by
        have e : pos + 1 + k = pos + (k + 1) := by omega
        rw [e]
        exact hnot)
      (by
        intro j hj
        have e : pos + 1 + j = pos + (j + 1) := by omega
        rw [e]
        exact hbefore (j + 1) (by omega))
    rw [this]
    have e : pos + 1 + k = pos + (k + 1) := by omega
    rw [e]

/-- C14: on a chain whose registry holds `n > 0` states, with the draws `d_0, d_1, ...`:
whenever `get_first_random_node` returns, it returns the registry state at index
`d_k mod n` for the first `k` at which that state is not terminal, having consumed the
draws up to `d_k`; the state returned is a member of the registry and not terminal.
And the function does return as soon as such a `k` exists: every bound on the number of
rounds above `k` gives that result. -/
theorem get_first_random_node_first_non_terminal (mc : MarkovChain T) (rands : Nat → Nat)
    (hne : mc.database ≠ []) :
    (∀ (fuel : Nat) (r : Res (Nat × Nat)), get_first_random_node mc rands fuel 0 = some r →
      ∃ k state, k < fuel ∧ r = .ok (rands k % mc.database.length, k + 1) ∧
        mc.database[rands k % mc.database.length]? = some state ∧
        mc.is_last state.data = false ∧
        ∀ j, j < k → is_last_node mc (rands j % mc.database.length) = true) ∧
    (∀ k, is_last_node mc (rands k % mc.database.length) = false →
      (∀ j, j < k → is_last_node mc (rands j % mc.database.length) = true) →
      ∀ fuel, k < fuel →
        get_first_random_node mc rands fuel 0 =
          some (.ok (rands k % mc.database.length, k + 1))) := by
  constructor
  · intro fuel r h
    obtain ⟨k, hk, hr, hnot, hbefore⟩ := get_first_random_node_returns mc rands fuel 0 r hne h
    simp only [Nat.zero_add] at hr hnot hbefore
    have hlt : rands k % mc.database.length < mc.database.length :=
      Nat.mod_lt _ (List.length_pos.2 hne)
    have hget : mc.database[rands k % mc.database.length]? =
        some (mc.database[rands k % mc.database.length]) := List.getElem?_eq_getElem hlt
    refine ⟨k, _, hk, hr, hget, ?_, hbefore⟩
    simpa [is_last_node, hget] using hnot
  · intro k hnot hbefore fuel hfuel
    have := get_first_random_node_finds mc rands fuel 0 k hne hfuel
      (by simpa using hnot) (by simpa using hbefore)
    simpa using this

/-! ## Where a walk stops -/

/-- One iteration of the loop of `generate_random_sequence`, once the step has succeeded. -/
theorem generate_random_sequence_loop_step (mc : MarkovChain T) (rands : Nat → Nat)
    (budget pos next next1 : Nat) (max_length : Int)
    (hnext : get_next_random_node mc next (rands pos) = .ok next1)
    (hlt : next1 < mc.database.length) :
    generate_random_sequence_loop mc rands (budget + 1) pos next max_length =
      if max_length - 1 > 0 ∧ is_last_node mc next1 = false then
        ⟨next1 :: (generate_random_sequence_loop mc rands budget (pos + 1) next1
            (max_length - 1)).emitted,
          (generate_random_sequence_loop mc rands budget (pos + 1) next1
            (max_length - 1)).ending⟩
      else ⟨[next1], .finished⟩ := by
  have hget : mc.database[next1]? = some (mc.database[next1]) := List.getElem?_eq_getElem hlt
  simp only [generate_random_sequence_loop, hnext, hget, is_last_node]

theorem get_next_random_node_lt (mc : MarkovChain T) (p rand next : Nat)
    (h : get_next_random_node mc p rand = .ok next) : next < mc.database.length := by
  unfold get_next_random_node at h
  cases hstate : mc.database[p]? with
  | none => simp [hstate] at h
  | some state =>
    simp only [hstate] at h
    cases hiter : get_next_random_node_iter state rand with
    | fault f => simp [hiter] at h
    | ok i =>
      simp only [hiter] at h
      cases hget : state.counter_list[i]? with
      | none => simp [hget] at h
      | some iter =>
        simp only [hget, next_node_data] at h
        cases hnode : iter.markov_node with
        | none => simp [hnode] at h
        | some node =>
          simp only [hnode] at h
          by_cases hlt : node < mc.database.length
          · simp only [hlt, ↓reduceIte, Res.ok.injEq] at h
            rw [← h]
            exact hlt
          · simp [hlt] at h

theorem generate_random_sequence_loop_stops (mc : MarkovChain T) (rands : Nat → Nat)
    (budget pos next : Nat) (max_length : Int)
    (hfin : (generate_random_sequence_loop mc rands budget pos next max_length).ending =
      .finished) :
    (generate_random_sequence_loop mc rands budget pos next max_length).emitted ≠ [] ∧
    (∀ (i node : Nat),
      i + 1 < (generate_random_sequence_loop mc rands budget pos next
        max_length).emitted.length →
      (generate_random_sequence_loop mc rands budget pos next max_length).emitted[i]? =
        some node →
      is_last_node mc node = false) ∧
    (((generate_random_sequence_loop mc rands budget pos next max_length).emitted.length :
        Int) < max_length →
      ∃ node, (generate_random_sequence_loop mc rands budget pos next
          max_length).emitted.getLast? = some node ∧
        is_last_node mc node = true) := by
  induction budget generalizing pos next max_length with
  | zero => simp [generate_random_sequence_loop] at hfin
  | succ budget ih =>
    cases hnext : get_next_random_node mc next (rands pos) with
    | fault f => simp [generate_random_sequence_loop, hnext] at hfin
    | ok next1 =>
      have hlt := get_next_random_node_lt mc next (rands pos) next1 hnext
      have hstep := generate_random_sequence_loop_step mc rands budget pos next next1
        max_length hnext hlt
      rw [hstep] at hfin ⊢
      by_cases hcont : max_length - 1 > 0 ∧ is_last_node mc next1 = false
      · rw [if_pos hcont] at hfin ⊢
        obtain ⟨hne, hmid, hlast⟩ := ih (pos + 1) next1 (max_length - 1) hfin
        refine ⟨by simp, ?_, ?_⟩
        · intro i node hi hget
          cases i with
          | zero =>
            simp only [List.getElem?_cons_zero, Option.some.injEq] at hget
            rw [← hget]
            exact hcont.2
          | succ i =>
            simp only [List.getElem?_cons_succ] at hget
            exact hmid i node (by simpa using hi) hget
        · intro hlen
          simp only [List.length_cons, Nat.cast_add, Nat.cast_one] at hlen
          obtain ⟨node, hnode, hterm⟩ := hlast (by omega)
          refine ⟨node, ?_, hterm⟩
          obtain ⟨x, xs, hxs⟩ := List.exists_cons_of_ne_nil hne
          rw [hxs] at hnode ⊢
          simpa using hnode
      · rw [if_neg hcont]
        refine ⟨by simp, ?_, ?_⟩
        · intro i node hi
          simp at hi
        · intro hlen
          simp only [List.length_singleton, Nat.cast_one] at hlen
          refine ⟨next1, by simp, ?_⟩
          by_contra hterm
          exact hcont ⟨by omega, by simpa using hterm⟩

/-- C13: for every walk of `generate_random_sequence` that returns (no dead end, no other
fault): no state emitted strictly between the first and the last is terminal, and if
fewer than `max_length` states were emitted, the last state emitted is terminal.  So the
walk stops at the first terminal state emitted after the start, or at the length cap if
there is none before. -/
theorem generate_random_sequence_stops (fuel : Nat) (rands : Nat → Nat) (mc : MarkovChain T)
    (first_node : Option Nat) (max_length : Int)
    (hfin : (generate_random_sequence fuel rands mc first_node max_length).ending =
      .finished) :
    (∀ (i node : Nat), 0 < i →
      i + 1 < (generate_random_sequence fuel rands mc first_node max_length).emitted.length →
      (generate_random_sequence fuel rands mc first_node max_length).emitted[i]? = some node →
      is_last_node mc node = false) ∧
    (((generate_random_sequence fuel rands mc first_node max_length).emitted.length : Int) <
        max_length →
      ∃ node, (generate_random_sequence fuel rands mc first_node
          max_length).emitted.getLast? = some node ∧
        is_last_node mc node = true) := by
  unfold generate_random_sequence at hfin ⊢
  generalize (match first_node with
    | none => get_first_random_node mc rands fuel 0
    | some node => some (.ok (node, 0))) = start at hfin ⊢
  match start with
  | none => simp at hfin
  | some (.fault f) => simp at hfin
  | some (.ok (next, pos)) =>
    cases hstate : mc.database[next]? with
    | none => simp [hstate] at hfin
    | some state =>
      simp only [hstate] at hfin ⊢
      obtain ⟨hne, hmid, hlast⟩ := generate_random_sequence_loop_stops mc rands _ pos next
        (max_length - 1) hfin
      constructor
      · intro i node hpos hi hget
        obtain ⟨k, rfl⟩ : ∃ k, i = k + 1 := ⟨i - 1, by omega⟩
        simp only [List.getElem?_cons_succ] at hget
        exact hmid k node (by simpa using hi) hget
      · intro hlen
        simp only [List.length_cons, Nat.cast_add, Nat.cast_one] at hlen
        obtain ⟨node, hnode, hterm⟩ := hlast (by omega)
        refine ⟨node, ?_, hterm⟩
        obtain ⟨x, xs, hxs⟩ := List.exists_cons_of_ne_nil hne
        rw [hxs] at hnode ⊢
        simpa using hnode

/-! ## Walks that cannot go wrong -/

theorem generate_random_sequence_loop_safe (mc : MarkovChain T) (rands : Nat → Nat)
    (hinv : EdgeInvariant mc)
    (hweights : ∀ state ∈ mc.database, mc.is_last state.data = false →
      0 < total_weight state.counter_list)
    (budget pos next : Nat) (max_length : Int) (state : MarkovNode T)
    (hstate : mc.database[next]? = some state)
    (hpos : 0 < total_weight state.counter_list) (hbudget : max_length.toNat < budget) :
    (generate_random_sequence_loop mc rands budget pos next max_length).ending =
      .finished := by
  induction budget generalizing pos next max_length state with
  | zero => omega
  | succ budget ih =>
    obtain ⟨hlen, hedges⟩ := hinv state (List.getElem?_mem hstate)
    obtain ⟨next1, -, hnext, hlt, -, -⟩ := get_next_random_node_ok mc next state (rands pos)
      hstate hlen hpos (fun e he => (hedges e he).1)
    rw [generate_random_sequence_loop_step mc rands budget pos next next1 max_length hnext
      hlt]
    by_cases hcont : max_length - 1 > 0 ∧ is_last_node mc next1 = false
    · rw [if_pos hcont]
      have hget : mc.database[next1]? = some (mc.database[next1]) :=
        List.getElem?_eq_getElem hlt
      have hnot : mc.is_last (mc.database[next1]).data = false := by
        have := hcont.2
        simpa [is_last_node, hget] using this
      exact ih (pos + 1) next1 (max_length - 1) _ hget
        (hweights _ (List.getElem?_mem hget) hnot) (by omega)
    · rw [if_neg hcont]

/-- C18: let the chain satisfy the edge invariant and let every non-terminal state of the
registry have a total weight above 0.  Then a call of `generate_random_sequence`, for
every `max_length` and all draws, runs into no fault: `get_random_number` is never
called with 0, `get_next_random_node` never reads past the end of an edge list, and no
`NULL` pointer is followed.  This holds for a start state of the registry with a total
weight above 0, and for the `NULL` start on a registry that is not empty, where the
call returns unless the start selection goes on for ever. -/
theorem generate_random_sequence_safe (fuel : Nat) (rands : Nat → Nat) (mc : MarkovChain T)
    (first_node : Option Nat) (max_length : Int) (hinv : EdgeInvariant mc)
    (hweights : ∀ state ∈ mc.database, mc.is_last state.data = false →
      0 < total_weight state.counter_list)
    (hstart : ∀ start, first_node = some start →
      ∃ state, mc.database[start]? = some state ∧ 0 < total_weight state.counter_list)
    (hnull : first_node = none → mc.database ≠ []) :
    (∀ f, (generate_random_sequence fuel rands mc first_node max_length).ending ≠
      .faulted f) ∧
    ((generate_random_sequence fuel rands mc first_node max_length).ending = .finished ∨
      (first_node = none ∧
        (generate_random_sequence fuel rands mc first_node max_length).ending =
          .no_start)) := by
  have key : (generate_random_sequence fuel rands mc first_node max_length).ending =
        .finished ∨
      (first_node = none ∧
        (generate_random_sequence fuel rands mc first_node max_length).ending =
          .no_start) := by
    cases first_node with
    | some start =>
      left
      obtain ⟨state, hstate, hpos⟩ := hstart start rfl
      simp only [generate_random_sequence, hstate]
      exact generate_random_sequence_loop_safe mc rands hinv hweights _ 0 start _ state
        hstate hpos (by omega)
    | none =>
      have hne := hnull rfl
      cases hsel : get_first_random_node mc rands fuel 0 with
      | none =>
        right
        exact ⟨rfl, by simp [generate_random_sequence, hsel]⟩
      | some r =>
        left
        obtain ⟨k, -, hr, hnot, -⟩ := get_first_random_node_returns mc rands fuel 0 r hne hsel
        simp only [Nat.zero_add] at hr hnot
        have hlt : rands k % mc.database.length < mc.database.length :=
          Nat.mod_lt _ (List.length_pos.2 hne)
        have hget : mc.database[rands k % mc.database.length]? =
            some (mc.database[rands k % mc.database.length]) :=
          List.getElem?_eq_getElem hlt
        have hnot2 : mc.is_last (mc.database[rands k % mc.database.length]).data =
            false := by
          simpa [is_last_node, hget] using hnot
        subst hr
        simp only [generate_random_sequence, hsel, hget]
        exact generate_random_sequence_loop_safe mc rands hinv hweights _ _ _ _ _ hget
          (hweights _ (List.getElem?_mem hget) hnot2) (by omega)
  refine ⟨?_, key⟩
  intro f hf
  rcases key with h | ⟨-, h⟩
  · rw [h] at hf
    exact WalkEnd.noConfusion hf
  · rw [h] at hf
    exact WalkEnd.noConfusion hf

/-! ## Allocation failures -/

/-- When `copy_func` fails on a payload that matches no state, and the two allocations of
`add_to_database` succeed, the chain is kept and a state without a payload is appended
to it; the node returned is whatever the second lookup finds. -/
theorem add_to_database_copy_fails (mc : MarkovChain T) (v : T)
    (hfresh : get_node_from_database mc (some v) = none)
    (hcopy : mc.copy_func (some v) = none) :
    add_to_database true true mc (some v) =
      .ok (some ⟨mc.database ++ [⟨none, [], 0⟩], mc.comp_func, mc.copy_func, mc.is_last⟩,
        get_node_from_database ⟨mc.database ++ [⟨none, [], 0⟩], mc.comp_func,
          mc.copy_func, mc.is_last⟩ (some v)) := by
  rw [add_to_database_fresh mc v hfresh, hcopy]

/-- C15 does not hold of the code: with a tweet chain whose `copy_word` cannot allocate,
`add_to_database` on the word `a` (which matches no state) keeps the chain and appends
a state whose payload is `NULL`, instead of tearing the chain down; `create_markov_node`
stores the result of `copy_func` unchecked. -/
theorem add_to_database_copy_failure_appends :
    get_node_from_database (Tweets.get_markov_chain false) (some "a") = none ∧
    (Tweets.get_markov_chain false).copy_func (some "a") = none ∧
    ∃ mc1 node, add_to_database true true (Tweets.get_markov_chain false) (some "a") =
        .ok (some mc1, node) ∧
      mc1.database = [⟨none, [], 0⟩] :=
  ⟨rfl, rfl, _, _, rfl, rfl⟩

/-- When `realloc` fails in `add_new_node_to_counter_list`, that function reports `false`
and leaves the source state with a `NULL` edge list and its old recorded length, while
`add_node_to_counter_list` reports `true` for the same call. -/
theorem add_node_to_counter_list_realloc_fails (mc : MarkovChain T) (a b : Nat)
    (first : MarkovNode T) (hfirst : mc.database[a]? = some first)
    (hedges : first.counter_list_length ≠ 0)
    (hlen : first.counter_list_length = first.counter_list.length)
    (htargets : ∀ e ∈ first.counter_list, ∃ t, e.markov_node = some t ∧
      t < mc.database.length)
    (habsent : ∀ e ∈ first.counter_list, e.markov_node ≠ some b) :
    add_new_node_to_counter_list false a b mc =
      .ok (false, ⟨mc.database.set a ⟨first.data, [], first.counter_list_length⟩,
        mc.comp_func, mc.copy_func, mc.is_last⟩) ∧
    add_node_to_counter_list false a b mc =
      .ok (true, ⟨mc.database.set a ⟨first.data, [], first.counter_list_length⟩,
        mc.comp_func, mc.copy_func, mc.is_last⟩) := by
  have hloop := word_found_in_counter_list_loop_absent mc.database.length b
    first.counter_list htargets habsent
  constructor
  · simp [add_new_node_to_counter_list, hfirst]
  · rw [← hlen] at hloop
    simp only [add_node_to_counter_list, hfirst, if_neg hedges, word_found_in_counter_list,
      hloop, add_new_node_to_counter_list]
    simp

/-- C16 does not hold of the code: in the three-word chain, `a` has an edge to `b` and
none to `c.`; when `realloc` fails, `add_new_node_to_counter_list (a, c.)` returns
`false`, yet `add_node_to_counter_list (a, c.)` returns `true`, and `a` is left with a
`NULL` edge list of recorded length 1. -/
theorem add_node_to_counter_list_realloc_failure_unreported :
    scenario_abc_chain.database[0]? = some ⟨some "a", [⟨some 1, 1⟩], 1⟩ ∧
    (∃ mc1, add_new_node_to_counter_list false 0 2 scenario_abc_chain = .ok (false, mc1)) ∧
    ∃ mc1, add_node_to_counter_list false 0 2 scenario_abc_chain = .ok (true, mc1) ∧
      mc1.database[0]? = some ⟨some "a", [], 1⟩ :=
  ⟨rfl, ⟨_, rfl⟩, _, rfl, rfl⟩

/-! ## Examples for the built chains and the walks -/

theorem strcmp_self (s : List Char) : Tweets.strcmp s s = 0 := by
  induction s with
  | nil => rfl
  | cons c s ih => simp [Tweets.strcmp, ih]

theorem compare_words_self (x : String) : Tweets.compare_words (some x) (some x) = 0 :=
  strcmp_self x.toList

theorem scenario_abc_built : Built scenario_abc_chain :=
  Built.add_node_to_counter_list
    ⟨[⟨some "a", [⟨some 1, 1⟩], 1⟩, ⟨some "b", [], 0⟩, ⟨some "c.", [], 0⟩],
      Tweets.compare_words, Tweets.copy_word true, Tweets.is_last_word⟩ _ 1 2 true
    (Built.add_node_to_counter_list
      ⟨[⟨some "a", [], 0⟩, ⟨some "b", [], 0⟩, ⟨some "c.", [], 0⟩],
        Tweets.compare_words, Tweets.copy_word true, Tweets.is_last_word⟩ _ 0 1 true
      (Built.add_to_database
        ⟨[⟨some "a", [], 0⟩, ⟨some "b", [], 0⟩], Tweets.compare_words,
          Tweets.copy_word true, Tweets.is_last_word⟩ _ true true "c." (some 2)
        (Built.add_to_database
          ⟨[⟨some "a", [], 0⟩], Tweets.compare_words, Tweets.copy_word true,
            Tweets.is_last_word⟩ _ true true "b" (some 1)
          (Built.add_to_database (Tweets.get_markov_chain true) _ true true "a" (some 0)
            (Built.empty _ rfl) rfl)
          rfl)
        rfl)
      (by decide) (by decide) rfl)
    (by decide) (by decide) rfl

/-- Example of the edge invariant of a built chain: the three-word chain. -/
theorem built_edge_invariant_witness :
    Built scenario_abc_chain ∧
    ∀ state ∈ scenario_abc_chain.database,
      state.counter_list_length = state.counter_list.length ∧
      ∀ e ∈ state.counter_list,
        (∃ t, e.markov_node = some t ∧ t < scenario_abc_chain.database.length) ∧
          1 ≤ e.frequency :=
  ⟨scenario_abc_built,
    built_edge_invariant scenario_abc_chain scenario_abc_built compare_words_self
      (fun _ => by simp [scenario_abc_chain, Tweets.copy_word])⟩

/-- Example for C17: the three-word chain. -/
theorem built_lookup_own_payload_witness :
    (∀ (s : Nat) (state : MarkovNode String), scenario_abc_chain.database[s]? = some state →
      get_node_from_database scenario_abc_chain state.data = some s) ∧
    (∀ (a b : Nat) (first second : MarkovNode String),
      scenario_abc_chain.database[a]? = some first →
      scenario_abc_chain.database[b]? = some second →
      create_new_counter_list true a b scenario_abc_chain =
        .ok (true, ⟨scenario_abc_chain.database.set a ⟨first.data, [⟨some b, 1⟩],
          first.counter_list_length + 1⟩, scenario_abc_chain.comp_func,
          scenario_abc_chain.copy_func, scenario_abc_chain.is_last⟩) ∧
      add_new_node_to_counter_list true a b scenario_abc_chain =
        .ok (true, ⟨scenario_abc_chain.database.set a ⟨first.data,
          first.counter_list.take first.counter_list_length ++ [⟨some b, 1⟩],
          first.counter_list_length + 1⟩, scenario_abc_chain.comp_func,
          scenario_abc_chain.copy_func, scenario_abc_chain.is_last⟩)) :=
  built_lookup_own_payload scenario_abc_chain scenario_abc_built compare_words_self
    (fun _ => by simp [scenario_abc_chain, Tweets.copy_word]) (fun _ _ => rfl)

/-- Example of the effect of a recorded transition: in `scenario_weighted_chain` the state
`a` has an edge to `b` and one to itself; the transition from `a` to `b` is recorded again. -/
theorem add_node_to_counter_list_effect_witness :
    ((∀ e ∈ ([⟨some 1, 2⟩, ⟨some 0, 3⟩] : List NextNodeCounter), e.markov_node ≠ some 1) →
      ∃ first1, add_node_to_counter_list true 0 1 scenario_weighted_chain =
          .ok (true, ⟨scenario_weighted_chain.database.set 0 first1,
            scenario_weighted_chain.comp_func, scenario_weighted_chain.copy_func,
            scenario_weighted_chain.is_last⟩) ∧
        first1.data = some "a" ∧
        first1.counter_list = [⟨some 1, 2⟩, ⟨some 0, 3⟩] ++ [⟨some 1, 1⟩] ∧
        first1.counter_list_length = 2 + 1 ∧
        ∀ (j : Nat) (x : NextNodeCounter),
          ([⟨some 1, 2⟩, ⟨some 0, 3⟩] : List NextNodeCounter)[j]? = some x →
          first1.counter_list[j]? = some x) ∧
    (∀ (i : Nat) (e : NextNodeCounter),
      ([⟨some 1, 2⟩, ⟨some 0, 3⟩] : List NextNodeCounter)[i]? = some e →
      e.markov_node = some 1 →
      (∀ (j : Nat) (x : NextNodeCounter), j < i →
        ([⟨some 1, 2⟩, ⟨some 0, 3⟩] : List NextNodeCounter)[j]? = some x →
        x.markov_node ≠ some 1) →
      ∀ mem, ∃ first1, add_node_to_counter_list mem 0 1 scenario_weighted_chain =
          .ok (true, ⟨scenario_weighted_chain.database.set 0 first1,
            scenario_weighted_chain.comp_func, scenario_weighted_chain.copy_func,
            scenario_weighted_chain.is_last⟩) ∧
        first1.data = some "a" ∧
        first1.counter_list =
          ([⟨some 1, 2⟩, ⟨some 0, 3⟩] : List NextNodeCounter).set i
            ⟨some 1, e.frequency + 1⟩ ∧
        first1.counter_list.length =
          ([⟨some 1, 2⟩, ⟨some 0, 3⟩] : List NextNodeCounter).length ∧
        first1.counter_list_length = 2 ∧
        ∀ (j : Nat) (x : NextNodeCounter), j ≠ i →
          ([⟨some 1, 2⟩, ⟨some 0, 3⟩] : List NextNodeCounter)[j]? = some x →
          first1.counter_list[j]? = some x) :=
  add_node_to_counter_list_effect scenario_weighted_chain 0 1
    ⟨some "a", [⟨some 1, 2⟩, ⟨some 0, 3⟩], 2⟩ ⟨some "b", [], 0⟩ rfl rfl rfl
    (by decide) (by decide)

/-- Example for C13: the walk from `a` in the three-word chain. -/
theorem generate_random_sequence_stops_witness :
    (∀ (i node : Nat), 0 < i →
      i + 1 < (generate_random_sequence 0 (fun _ => 0) scenario_abc_chain (some 0)
        5).emitted.length →
      (generate_random_sequence 0 (fun _ => 0) scenario_abc_chain (some 0) 5).emitted[i]? =
        some node →
      is_last_node scenario_abc_chain node = false) ∧
    (((generate_random_sequence 0 (fun _ => 0) scenario_abc_chain (some 0)
        5).emitted.length : Int) < 5 →
      ∃ node, (generate_random_sequence 0 (fun _ => 0) scenario_abc_chain (some 0)
          5).emitted.getLast? = some node ∧
        is_last_node scenario_abc_chain node = true) :=
  generate_random_sequence_stops 0 (fun _ => 0) scenario_abc_chain (some 0) 5 (by decide)

/-- Example for C14: with the draws 2, 5, 7 on the three-word chain (indices 2, 2, 1), the
terminal word `c.` is refused twice before `b` is accepted: within three rounds the
function returns `b`, at index 1, having consumed three draws. -/
theorem get_first_random_node_first_non_terminal_witness :
    scenario_abc_chain.database ≠ [] ∧
    (∃ k state, k < 3 ∧
      (Res.ok (1, 3) : Res (Nat × Nat)) = .ok ([2, 5, 7].getD k 7 % 3, k + 1) ∧
      scenario_abc_chain.database[[2, 5, 7].getD k 7 % 3]? = some state ∧
      scenario_abc_chain.is_last state.data = false ∧
      ∀ j, j < k → is_last_node scenario_abc_chain ([2, 5, 7].getD j 7 % 3) = true) ∧
    get_first_random_node scenario_abc_chain (fun k => [2, 5, 7].getD k 7) 3 0 =
      some (.ok (1, 3)) :=
  ⟨by decide,
    (get_first_random_node_first_non_terminal scenario_abc_chain
      (fun k => [2, 5, 7].getD k 7) (by decide)).1 3 (.ok (1, 3)) (by decide),
    (get_first_random_node_first_non_terminal scenario_abc_chain
      (fun k => [2, 5, 7].getD k 7) (by decide)).2 2 (by decide) (by decide) 3 (by decide)⟩

theorem scenario_cycle_edge_invariant : EdgeInvariant scenario_cycle_chain := by
  intro state hstate
  simp only [scenario_cycle_chain, List.mem_cons, List.mem_singleton, List.not_mem_nil,
    or_false] at hstate
  rcases hstate with rfl | rfl
  · exact ⟨rfl, fun e he => by
      simp only [List.mem_singleton] at he
      subst he
      exact ⟨⟨1, rfl, by decide⟩, by decide⟩⟩
  · exact ⟨rfl, fun e he => by
      simp only [List.mem_singleton] at he
      subst he
      exact ⟨⟨0, rfl, by decide⟩, by decide⟩⟩

/-- Example for C18: the walks from `a` in `scenario_cycle_chain`. -/
theorem generate_random_sequence_safe_witness :
    (∀ f, (generate_random_sequence 0 (fun _ => 0) scenario_cycle_chain (some 1) 5).ending ≠
      .faulted f) ∧
    ((generate_random_sequence 0 (fun _ => 0) scenario_cycle_chain (some 1) 5).ending =
        .finished ∨
      ((some 1 : Option Nat) = none ∧
        (generate_random_sequence 0 (fun _ => 0) scenario_cycle_chain (some 1) 5).ending =
          .no_start)) :=
  generate_random_sequence_safe 0 (fun _ => 0) scenario_cycle_chain (some 1) 5
    scenario_cycle_edge_invariant (by decide)
    (fun start h => ⟨⟨some "a", [⟨some 0, 1⟩], 1⟩, by
      simp only [Option.some.injEq] at h
      subst h
      exact ⟨rfl, by decide⟩⟩)
    (fun h => by simp at h)

/-! ## The board of the game -/

namespace SnakesAndLadders

theorem board_cell_number (n : Nat) : (board_cell n).number = n := by
  unfold board_cell
  cases jump n with
  | none => rfl
  | some y =>
    simp only
    split <;> rfl

/-- `create_board` builds the cells of the specification. -/
theorem create_board_eq : create_board true = .ok (some board_cells) := by
  decide

/-- Every target of the table is a cell of the board. -/
theorem jump_range : ∀ n, n < 101 → ∀ y ∈ jump n, 1 ≤ y ∧ y ≤ 100 := by
  decide

theorem board_cells_getElem? (k : Nat) (hk : k < 100) :
    board_cells[k]? = some (board_cell (k + 1)) := by
  simp [board_cells, List.getElem?_range hk]

/-- In a registry that holds the cells of the board in order, whatever their edges, the
lookup of the cell `n` finds position `n - 1`. -/
theorem get_node_from_database_board (database : List (MarkovNode Cell)) (k : Nat)
    (hk : k < 100)
    (hdata : ∀ j, j < 100 → ∃ state, database[j]? = some state ∧
      state.data = some (board_cell (j + 1))) :
    get_node_from_database (board_chain database) (some (board_cell (k + 1))) = some k := by
  rw [get_node_from_database_eq_some]
  obtain ⟨state, hstate, hd⟩ := hdata k hk
  refine ⟨state, hstate, ?_, ?_⟩
  · simp [board_chain, hd, compare_cells]
  · intro j nj hj hget
    obtain ⟨sj, hsj, hdj⟩ := hdata j (by omega)
    have : nj = sj := by
      rw [show (board_chain database).database = database from rfl, hsj] at hget
      exact (Option.some.inj hget).symm
    subst this
    simp only [board_chain, hdj, compare_cells, board_cell_number]
    omega

end SnakesAndLadders

namespace SnakesAndLadders

/-- The first loop of `fill_database` appends one state without edges per cell, as long as
the numbers of the cells differ from each other. -/
theorem fill_database_cells_fresh (done todo : List Cell)
    (hdistinct : (done ++ todo).Pairwise fun c d => c.number ≠ d.number) :
    fill_database_cells true todo (some (board_chain (done.map fun c => ⟨some c, [], 0⟩))) =
      .ok (some (board_chain ((done ++ todo).map fun c => ⟨some c, [], 0⟩))) := by
  induction todo generalizing done with
  | nil => simp [fill_database_cells]
  | cons c rest ih =>
    have hnone : get_node_from_database
        (board_chain (done.map fun c => ⟨some c, [], 0⟩)) (some c) = none := by
      rw [get_node_from_database_eq_none]
      intro node hnode
      simp only [board_chain, List.mem_map] at hnode
      obtain ⟨d, hd, rfl⟩ := hnode
      have hne : d.number ≠ c.number :=
        (List.pairwise_append.1 hdistinct).2.2 d hd c (by simp)
      simp only [board_chain, compare_cells]
      omega
    have hstep := add_to_database_fresh _ c hnone
    simp only [fill_database_cells, hstep]
    have := ih (done ++ [c]) (by simpa using hdistinct)
    simp only [List.map_append, List.map_cons, List.map_nil, List.append_assoc,
      List.singleton_append] at this ⊢
    exact this

theorem board_cells_distinct : board_cells.Pairwise fun c d => c.number ≠ d.number := by
  unfold board_cells
  rw [List.pairwise_map]
  refine (List.pairwise_lt_range 100).imp ?_
  intro a b hab
  simp only [board_cell_number]
  omega

theorem board_upto_zero : board_upto 0 = board_cells.map fun c => ⟨some c, [], 0⟩ := by
  simp [board_upto, board_cells]

theorem fill_database_cells_board :
    fill_database_cells true board_cells (some (get_markov_chain true)) =
      .ok (some (board_chain (board_upto 0))) := by
  have := fill_database_cells_fresh [] board_cells (by simpa using board_cells_distinct)
  rw [board_upto_zero]
  exact this

end SnakesAndLadders

namespace SnakesAndLadders

theorem board_upto_getElem? (i j : Nat) (hj : j < 100) :
    (board_upto i)[j]? =
      some (if j < i then board_state (j + 1) else ⟨some (board_cell (j + 1)), [], 0⟩) := by
  simp [board_upto, List.getElem?_range hj]

theorem board_upto_length (i : Nat) : (board_upto i).length = 100 := by
  simp [board_upto]

theorem board_within_length (i k : Nat) : (board_within i k).length = 100 := by
  simp [board_within, board_upto_length]

theorem board_within_getElem?_self (i k : Nat) (hi : i < 100) :
    (board_within i k)[i]? =
      some ⟨some (board_cell (i + 1)), (List.range k).map fun t => ⟨some (i + 1 + t), 1⟩,
        k⟩ := by
  unfold board_within
  rw [List.getElem?_set_self (by rw [board_upto_length]; exact hi)]

theorem board_upto_data (i j : Nat) (hj : j < 100) :
    ∃ state, (board_upto i)[j]? = some state ∧ state.data = some (board_cell (j + 1)) := by
  refine ⟨_, board_upto_getElem? i j hj, ?_⟩
  split <;> rfl

theorem board_within_data (i k j : Nat) (hi : i < 100) (hj : j < 100) :
    ∃ state, (board_within i k)[j]? = some state ∧
      state.data = some (board_cell (j + 1)) := by
  by_cases hij : i = j
  · subst hij
    exact ⟨_, board_within_getElem?_self i k hi, rfl⟩
  · unfold board_within
    rw [List.getElem?_set_ne hij]
    exact board_upto_data i j hj

theorem board_within_zero (i : Nat) (hi : i < 100) : board_within i 0 = board_upto i := by
  unfold board_within
  apply list_set_same
  rw [board_upto_getElem? i i hi]
  simp

theorem board_upto_set (i : Nat) (hi : i < 100) :
    (board_upto i).set i (board_state (i + 1)) = board_upto (i + 1) := by
  apply List.ext_getElem?
  intro j
  by_cases hj : j < 100
  · by_cases hij : i = j
    · subst hij
      rw [List.getElem?_set_self (by rw [board_upto_length]; exact hi),
        board_upto_getElem? _ _ hj]
      simp
    · rw [List.getElem?_set_ne hij, board_upto_getElem? _ _ hj, board_upto_getElem? _ _ hj]
      have h1 : (j < i) = (j < i + 1) := by
        apply propext
        constructor <;> intro h <;> omega
      simp only [h1]
  · rw [List.getElem?_eq_none (by simp [board_upto_length]; omega),
      List.getElem?_eq_none (by rw [board_upto_length]; omega)]

theorem board_within_set (i k : Nat) (x : MarkovNode Cell) :
    (board_within i k).set i x = (board_upto i).set i x := by
  unfold board_within
  rw [List.set_set]

end SnakesAndLadders

namespace SnakesAndLadders

/-- Recording the transition from the cell `i + 1`, which so far has edges to the `k` cells
after it, to a cell that is not among them appends the edge to that cell. -/
theorem board_add_edge (i k t : Nat) (hi : i < 100) (ht : t < 100)
    (hk : ∀ s, s < k → i + 1 + s < 100 ∧ i + 1 + s ≠ t) :
    add_node_to_counter_list true i t (board_chain (board_within i k)) =
      .ok (true, board_chain ((board_upto i).set i
        ⟨some (board_cell (i + 1)),
          ((List.range k).map fun s => ⟨some (i + 1 + s), 1⟩) ++ [⟨some t, 1⟩], k + 1⟩)) := by
  obtain ⟨second, hsecond, hdata⟩ := board_within_data i k t hi ht
  have hlook : get_node_from_database (board_chain (board_within i k)) second.data =
      some t := by
    rw [hdata]
    exact get_node_from_database_board _ t ht (fun j hj => board_within_data i k j hi hj)
  have hcall := add_node_to_counter_list_absent (board_chain (board_within i k)) i t
    ⟨some (board_cell (i + 1)), (List.range k).map fun s => ⟨some (i + 1 + s), 1⟩, k⟩
    second (board_within_getElem?_self i k hi) hsecond (by simp)
    (by
      intro e he
      simp only [List.mem_map, List.mem_range] at he
      obtain ⟨s, hs, rfl⟩ := he
      exact ⟨i + 1 + s, rfl, by
        show i + 1 + s < (board_within i k).length
        rw [board_within_length]
        exact (hk s hs).1⟩)
    (by
      intro e he
      simp only [List.mem_map, List.mem_range] at he
      obtain ⟨s, hs, rfl⟩ := he
      simp only [ne_eq, Option.some.injEq]
      exact (hk s hs).2)
  rw [hcall, hlook]
  simp only [board_chain, List.length_map, List.length_range, board_within_set]

theorem board_within_succ (i k : Nat) :
    (board_upto i).set i
      ⟨some (board_cell (i + 1)),
        ((List.range k).map fun s => ⟨some (i + 1 + s), 1⟩) ++ [⟨some (i + 1 + k), 1⟩],
        k + 1⟩ = board_within i (k + 1) := by
  simp [board_within, List.range_succ]

/-- The dice loop of `fill_database` on a plain cell: it records the edges to the cells that
follow, six of them unless the board ends before. -/
theorem fill_database_dice_board (i r k : Nat) (hi : i < 100) (hr : k + r = 6)
    (hk : k ≤ 99 - i) :
    fill_database_dice true board_cells i r ((k : Int) + 1) (board_chain (board_within i k)) =
      .ok (board_chain (board_within i (min 6 (99 - i)))) := by
  induction r generalizing k with
  | zero =>
    have : min 6 (99 - i) = k := by omega
    simp [fill_database_dice, this]
  | succ r ih =>
    have hself := board_within_getElem?_self i k hi
    by_cases hend : i + 1 + k < 100
    · have hcell := board_cells_getElem? (i + 1 + k) hend
      have hlook : get_node_from_database (board_chain (board_within i k))
          (some (board_cell (i + 1 + k + 1))) = some (i + 1 + k) :=
        get_node_from_database_board _ (i + 1 + k) hend
          (fun j hj => board_within_data i k j hi hj)
      have hadd := board_add_edge i k (i + 1 + k) hi hend (fun s hs => by omega)
      rw [board_within_succ] at hadd
      have hidx : ((board_cell (i + 1)).number + ((k : Int) + 1) - 1).toNat = i + 1 + k := by
        rw [board_cell_number]
        omega
      have hnot : ¬ ((board_cell (i + 1)).number + ((k : Int) + 1) - 1 < 0 ∨
          (board_cell (i + 1)).number + ((k : Int) + 1) - 1 ≥ BOARD_SIZE) := by
        rw [board_cell_number]
        simp only [BOARD_SIZE]
        omega
      have hnext := ih (k + 1) (by omega) (by omega)
      simp only [fill_database_dice, show (board_chain (board_within i k)).database =
        board_within i k from rfl, hself, if_neg hnot, hidx, hcell, hlook, hadd]
      rw [← hnext]
      simp
    · have hbreak : (board_cell (i + 1)).number + ((k : Int) + 1) - 1 < 0 ∨
          (board_cell (i + 1)).number + ((k : Int) + 1) - 1 ≥ BOARD_SIZE := by
        rw [board_cell_number]
        simp only [BOARD_SIZE]
        omega
      have : min 6 (99 - i) = k := by omega
      simp only [fill_database_dice, show (board_chain (board_within i k)).database =
        board_within i k from rfl, hself, if_pos hbreak, this]

end SnakesAndLadders

namespace SnakesAndLadders

/-- One round of the second loop of `fill_database`: the cell `i + 1` gets the edges that
the specification gives it. -/
theorem fill_database_edges_step (i : Nat) (hi : i < 100) (rest : List Cell) :
    fill_database_edges true board_cells (board_cell (i + 1) :: rest)
        (board_chain (board_upto i)) =
      fill_database_edges true board_cells rest (board_chain (board_upto (i + 1))) := by
  have hfrom : get_node_from_database (board_chain (board_upto i))
      (some (board_cell (i + 1))) = some i :=
    get_node_from_database_board _ i hi (fun j hj => board_upto_data i j hj)
  cases hj : jump (i + 1) with
  | none =>
    have hcell : board_cell (i + 1) = ⟨((i + 1 : Nat) : Int), -1, -1⟩ := by
      simp only [board_cell, hj]
    have hplain : ¬ ((board_cell (i + 1)).snake_to ≠ EMPTY ∨
        (board_cell (i + 1)).ladder_to ≠ EMPTY) := by
      rw [hcell]
      simp [EMPTY]
    have hdice := fill_database_dice_board i 6 0 hi (by omega) (by omega)
    rw [board_within_zero i hi] at hdice
    have hend : board_within i (min 6 (99 - i)) = board_upto (i + 1) := by
      rw [← board_upto_set i hi]
      unfold board_within board_state board_edges
      simp only [hj, List.length_map, List.length_range]
      have : 100 - (i + 1) = 99 - i := by omega
      rw [this]
    rw [hend] at hdice
    simp only [fill_database_edges, hfrom, if_neg hplain, DICE_MAX]
    have h1 : (1 : Int) = ((0 : Nat) : Int) + 1 := by simp
    rw [h1, hdice]
  | some y =>
    obtain ⟨hy1, hy100⟩ := jump_range (i + 1) (by omega) y (by rw [hj]; rfl)
    have hjump : (board_cell (i + 1)).snake_to ≠ EMPTY ∨
        (board_cell (i + 1)).ladder_to ≠ EMPTY := by
      simp only [board_cell, hj, EMPTY]
      split
      · right
        simp only [ne_eq]
        omega
      · left
        simp only [ne_eq]
        omega
    have hmax : MAX (board_cell (i + 1)).snake_to (board_cell (i + 1)).ladder_to = y := by
      simp only [board_cell, hj, MAX]
      split
      · simp only
        rw [if_pos (by omega)]
      · simp only
        rw [if_neg (by omega)]
    have ht : (y - 1).toNat < 100 := by omega
    have hnot : ¬ (y - 1 < 0) := by omega
    have hcell := board_cells_getElem? (y - 1).toNat ht
    have hlook : get_node_from_database (board_chain (board_upto i))
        (some (board_cell ((y - 1).toNat + 1))) = some (y - 1).toNat :=
      get_node_from_database_board _ _ ht (fun j hj => board_upto_data i j hj)
    have hadd := board_add_edge i 0 (y - 1).toNat hi ht (fun s hs => by omega)
    rw [board_within_zero i hi] at hadd
    have hend : (board_upto i).set i
        ⟨some (board_cell (i + 1)),
          ((List.range 0).map fun s => (⟨some (i + 1 + s), 1⟩ : NextNodeCounter)) ++
            [⟨some (y - 1).toNat, 1⟩], 0 + 1⟩ = board_upto (i + 1) := by
      rw [← board_upto_set i hi]
      unfold board_state board_edges
      simp only [hj, List.range_zero, List.map_nil, List.nil_append, List.length_singleton]
      have : (y - 1).toNat = y.toNat - 1 := by omega
      rw [this]
    rw [hend] at hadd
    simp only [fill_database_edges, hfrom, if_pos hjump, hmax, if_neg hnot, hcell, hlook,
      hadd]

end SnakesAndLadders

namespace SnakesAndLadders

/-- The second loop of `fill_database`, from the cell `i + 1` on. -/
theorem fill_database_edges_board (d i : Nat) (hd : i + d = 100) :
    fill_database_edges true board_cells (board_cells.drop i) (board_chain (board_upto i)) =
      .ok (board_chain (board_upto 100)) := by
  induction d generalizing i with
  | zero =>
    have : i = 100 := by omega
    subst this
    have : board_cells.drop 100 = [] := by
      apply List.drop_of_length_le
      simp [board_cells]
    rw [this]
    rfl
  | succ d ih =>
    have hi : i < 100 := by omega
    have hlen : i < board_cells.length := by simp [board_cells]; exact hi
    have hget : board_cells[i] = board_cell (i + 1) := by
      have := board_cells_getElem? i hi
      rw [List.getElem?_eq_getElem hlen] at this
      exact Option.some.inj this
    rw [List.drop_eq_getElem_cons hlen, hget, fill_database_edges_step i hi]
    exact ih (i + 1) (by omega)

end SnakesAndLadders

namespace SnakesAndLadders

/-- `fill_database` in terms of its three stages. -/
theorem fill_database_stages (mem : Bool) (mc mc1 mc2 : MarkovChain Cell) (cells : List Cell)
    (hboard : create_board mem = .ok (some cells))
    (hcells : fill_database_cells mem cells (some mc) = .ok (some mc1))
    (hedges : fill_database_edges mem cells cells mc1 = .ok mc2) :
    fill_database mem mc = .ok (0, mc2) := by
  unfold fill_database
  rw [hboard]
  simp only
  rw [hcells]
  simp only
  rw [hedges]

/-- The run of `fill_database` on a fresh chain. -/
theorem fill_database_eq :
    fill_database true (get_markov_chain true) = .ok (0, board_chain (board_upto 100)) :=
  fill_database_stages true _ _ _ board_cells create_board_eq fill_database_cells_board
    (fill_database_edges_board 100 0 (by omega))

end SnakesAndLadders

namespace SnakesAndLadders

theorem jump_eq_none (n : Nat) (h : ∀ t ∈ transitions, t.1 ≠ (n : Int)) : jump n = none := by
  unfold jump
  rw [Option.map_eq_none', List.find?_eq_none]
  intro t ht
  simpa using h t ht

/-- C19: `fill_database` of the board game, run on a fresh chain, returns `EXIT_SUCCESS` and
leaves a registry that holds exactly the cells `1 .. 100` in increasing order (cell `n`
at position `n - 1`), where the cell `n` has the edges `board_edges n` and its recorded
length is their number.  These edges are: none for the cell 100; for the source `x` of
an entry `(x, y)` of the table, the single edge to the cell `y`, of frequency 1; for
every other cell `n < 100`, the edges to the cells `n + 1, ..., min (n + 6, 100)`, each
of frequency 1.  Hence an edge of a plain cell leads 1 to 6 cells forward, and every
cell but the last has a total weight of at least 1. -/
theorem fill_database_board :
    ∃ mc, fill_database true (get_markov_chain true) = .ok (0, mc) ∧
      mc.database.length = 100 ∧
      (∀ n : Nat, 1 ≤ n → n ≤ 100 →
        mc.database[n - 1]? =
          some ⟨some (board_cell n), board_edges n, (board_edges n).length⟩ ∧
        (board_cell n).number = n) ∧
      board_edges 100 = [] ∧
      (∀ t ∈ transitions, board_edges t.1.toNat = [⟨some (t.2.toNat - 1), 1⟩]) ∧
      (∀ n : Nat, 1 ≤ n → n < 100 → (∀ t ∈ transitions, t.1 ≠ (n : Int)) →
        board_edges n = (List.range (min 6 (100 - n))).map fun j => ⟨some (n + j), 1⟩) ∧
      (∀ n : Nat, 1 ≤ n → n < 100 → (∀ t ∈ transitions, t.1 ≠ (n : Int)) →
        ∀ e ∈ board_edges n, ∃ m, e = ⟨some (m - 1), 1⟩ ∧ n + 1 ≤ m ∧ m ≤ n + 6 ∧ m ≤ 100) ∧
      (∀ n : Nat, 1 ≤ n → n < 100 → 1 ≤ total_weight (board_edges n)) := by
  have hplain : ∀ n : Nat, (∀ t ∈ transitions, t.1 ≠ (n : Int)) →
      board_edges n = (List.range (min 6 (100 - n))).map fun j => ⟨some (n + j), 1⟩ := by
    intro n h
    simp only [board_edges, jump_eq_none n h]
  refine ⟨board_chain (board_upto 100), fill_database_eq, board_upto_length 100, ?_, ?_, ?_,
    ?_, ?_, ?_⟩
  · intro n h1 h100
    refine ⟨?_, board_cell_number n⟩
    show (board_upto 100)[n - 1]? = _
    rw [board_upto_getElem? 100 (n - 1) (by omega), if_pos (by omega)]
    have : n - 1 + 1 = n := by omega
    rw [this]
    rfl
  · decide
  · decide
  · intro n _ _ h
    exact hplain n h
  · intro n _ h100 h e he
    rw [hplain n h] at he
    simp only [List.mem_map, List.mem_range] at he
    obtain ⟨j, hj, rfl⟩ := he
    exact ⟨n + j + 1, by simp, by omega, by omega, by omega⟩
  · have : ∀ n : Nat, n < 100 → 1 ≤ n → 1 ≤ total_weight (board_edges n) := by decide
    intro n h1 h100
    exact this n h100 h1

end SnakesAndLadders

/-! ## Reading a line of the corpus -/

/-- On a line without a word, `handle_line` leaves the chain alone and still counts one
word as read, whatever the chain, the budget and the allocator. -/
theorem handle_line_no_words (mem : Bool) (mc : MarkovChain String) (line : String)
    (words_left : Int) (h : Tweets.strtok line.toList [] = []) :
    Tweets.handle_line mem mc line words_left = .ok (words_left - 1, some mc) := by
  unfold Tweets.handle_line
  rw [h]
  rfl

/-- On the line `a b c.`, read into an empty chain, `handle_line` processes the first two
words when two words are left to read and returns 0, and processes all three when five
are left and returns 2. -/
theorem handle_line_three_words :
    Tweets.strtok "a b c.\n".toList [] = ["a", "b", "c."] ∧
    (∃ chain, Tweets.handle_line true (Tweets.get_markov_chain true) "a b c.\n" 2 =
        .ok (0, some chain) ∧
      chain.database = [⟨some "a", [⟨some 1, 1⟩], 1⟩, ⟨some "b", [], 0⟩]) ∧
    ∃ chain, Tweets.handle_line true (Tweets.get_markov_chain true) "a b c.\n" 5 =
        .ok (2, some chain) ∧
      chain.database = scenario_abc_chain.database :=
  ⟨by decide, ⟨_, rfl, rfl⟩, _, rfl, rfl⟩

/-- C20 does not hold of the code for a line without words: the blank line holds `k = 0`
words, and with 5 words left to read `handle_line` processes none of them (the chain is
unchanged) but returns 4 instead of 5; the decrement after `add_first_word_to_chain`
is not guarded by the test that found no first word. -/
theorem handle_line_blank_line_counts :
    Tweets.strtok "\n".toList [] = [] ∧
    ∃ chain, Tweets.handle_line true scenario_abc_chain "\n" 5 = .ok (4, some chain) ∧
      chain.database = scenario_abc_chain.database :=
  ⟨by decide, _, rfl, rfl⟩

/-! ## The frame of a recorded transition -/

/-- On two states of the registry, the source with a well-formed edge list, a call of
`add_node_to_counter_list` returns, whatever the allocator does. -/
theorem add_node_to_counter_list_returns (mc : MarkovChain T) (mem : Bool) (a b : Nat)
    (first second : MarkovNode T)
    (hfirst : mc.database[a]? = some first) (hsecond : mc.database[b]? = some second)
    (hlen : first.counter_list_length = first.counter_list.length)
    (htargets : ∀ e ∈ first.counter_list, ∃ t, e.markov_node = some t ∧
      t < mc.database.length) :
    ∃ result mc1, add_node_to_counter_list mem a b mc = .ok (result, mc1) := by
  have hb : b < mc.database.length := (List.getElem?_eq_some.1 hsecond).1
  rcases counter_list_split b first.counter_list with habsent |
      ⟨l1, e, l2, hsplit, he, habsent⟩
  · cases mem with
    | true =>
      exact ⟨_, _, add_node_to_counter_list_absent mc a b first second hfirst hsecond hlen
        htargets habsent⟩
    | false =>
      by_cases h0 : first.counter_list_length = 0
      · exact ⟨false, mc, by
          simp only [add_node_to_counter_list, hfirst, if_pos h0, create_new_counter_list]
          simp⟩
      · exact ⟨_, _, (add_node_to_counter_list_realloc_fails mc a b first hfirst h0 hlen
          htargets habsent).2⟩
  · exact ⟨_, _, add_node_to_counter_list_present mc mem a b first l1 l2 e hfirst hb hsplit
      hlen he (fun x hx => htargets x (by rw [hsplit]; simp [hx])) habsent⟩

/-- C22: let `a` and `b` be states of the registry.  Whatever the allocator does, a call
`add_node_to_counter_list (a, b)` that returns changes only the edge list of `a`: the
capabilities, the number of states and the payload of every state are as before, and
every state other than `a` is unchanged, edge list included (targets, frequencies,
length).  And the call does return when the edge list of `a` is well formed. -/
theorem add_node_to_counter_list_changes_source_only (mc : MarkovChain T) (a b : Nat)
    (first second : MarkovNode T)
    (hfirst : mc.database[a]? = some first) (hsecond : mc.database[b]? = some second) :
    (∀ (mem result : Bool) (mc1 : MarkovChain T),
      add_node_to_counter_list mem a b mc = .ok (result, mc1) →
      mc1.comp_func = mc.comp_func ∧ mc1.copy_func = mc.copy_func ∧
      mc1.is_last = mc.is_last ∧
      mc1.database.length = mc.database.length ∧
      (∀ j : Nat, (mc1.database[j]?).map (fun state => state.data) =
        (mc.database[j]?).map (fun state => state.data)) ∧
      (∀ j : Nat, j ≠ a → mc1.database[j]? = mc.database[j]?)) ∧
    (first.counter_list_length = first.counter_list.length →
      (∀ e ∈ first.counter_list, ∃ t, e.markov_node = some t ∧ t < mc.database.length) →
      ∀ mem : Bool, ∃ result mc1, add_node_to_counter_list mem a b mc = .ok (result, mc1)) := by
  constructor
  · intro mem result mc1 hcall
    obtain ⟨hcomp, hcopy, hlast, first0, first1, hfirst0, hdb, hdata⟩ :=
      add_node_to_counter_list_frame mc mc1 mem result a b hcall
    have ha : a < mc.database.length := (List.getElem?_eq_some.1 hfirst).1
    refine ⟨hcomp, hcopy, hlast, by rw [hdb, List.length_set], ?_, ?_⟩
    · intro j
      rw [hdb]
      by_cases hj : a = j
      · subst hj
        rw [List.getElem?_set_self ha, hfirst0]
        simp [hdata]
      · rw [List.getElem?_set_ne hj]
    · intro j hj
      rw [hdb, List.getElem?_set_ne (Ne.symm hj)]
  · intro hlen htargets mem
    exact add_node_to_counter_list_returns mc mem a b first second hfirst hsecond hlen
      htargets

/-- Example for C22: the transition from `a` to `b` in `scenario_weighted_chain`. -/
theorem add_node_to_counter_list_changes_source_only_witness :
    (∀ (mem result : Bool) (mc1 : MarkovChain String),
      add_node_to_counter_list mem 0 1 scenario_weighted_chain = .ok (result, mc1) →
      mc1.comp_func = scenario_weighted_chain.comp_func ∧
      mc1.copy_func = scenario_weighted_chain.copy_func ∧
      mc1.is_last = scenario_weighted_chain.is_last ∧
      mc1.database.length = scenario_weighted_chain.database.length ∧
      (∀ j : Nat, (mc1.database[j]?).map (fun state => state.data) =
        (scenario_weighted_chain.database[j]?).map (fun state => state.data)) ∧
      (∀ j : Nat, j ≠ 0 → mc1.database[j]? = scenario_weighted_chain.database[j]?)) ∧
    ((2 : Nat) = ([⟨some 1, 2⟩, ⟨some 0, 3⟩] : List NextNodeCounter).length →
      (∀ e ∈ ([⟨some 1, 2⟩, ⟨some 0, 3⟩] : List NextNodeCounter),
        ∃ t, e.markov_node = some t ∧ t < scenario_weighted_chain.database.length) →
      ∀ mem : Bool, ∃ result mc1,
        add_node_to_counter_list mem 0 1 scenario_weighted_chain = .ok (result, mc1)) :=
  add_node_to_counter_list_changes_source_only scenario_weighted_chain 0 1
    ⟨some "a", [⟨some 1, 2⟩, ⟨some 0, 3⟩], 2⟩ ⟨some "b", [], 0⟩ rfl rfl

/-! ## The steps of a walk follow edges -/

theorem get_next_random_node_scan_edge (l : List NextNodeCounter) (r k i : Nat)
    (h : get_next_random_node_scan l r k = .ok i) :
    ∃ j e, i = k + j ∧ l[j]? = some e ∧ 1 ≤ e.frequency := by
  induction l generalizing r k with
  | nil => simp [get_next_random_node_scan] at h
  | cons hd tl ih =>
    unfold get_next_random_node_scan at h
    by_cases hge : r ≥ hd.frequency
    · rw [if_pos hge] at h
      obtain ⟨j, e, hi, hget, hfreq⟩ := ih (r - hd.frequency) (k + 1) h
      exact ⟨j + 1, e, by omega, by simpa using hget, hfreq⟩
    · rw [if_neg hge] at h
      simp only [Res.ok.injEq] at h
      exact ⟨0, hd, by omega, by simp, by omega⟩

/-- Whatever the chain, a state that `get_next_random_node` returns is a successor of the
state it was called on. -/
theorem get_next_random_node_edge (mc : MarkovChain T) (p rand next : Nat)
    (h : get_next_random_node mc p rand = .ok next) : EdgeTo mc p next := by
  unfold get_next_random_node at h
  cases hstate : mc.database[p]? with
  | none => simp [hstate] at h
  | some state =>
    simp only [hstate] at h
    cases hiter : get_next_random_node_iter state rand with
    | fault f => simp [hiter] at h
    | ok i =>
      simp only [hiter] at h
      have hscan : ∃ e, state.counter_list[i]? = some e ∧ 1 ≤ e.frequency := by
        unfold get_next_random_node_iter at hiter
        cases hsum : get_counter_list_sum state with
        | fault f => simp [hsum] at hiter
        | ok sum =>
          simp only [hsum] at hiter
          cases hr : get_random_number rand sum with
          | fault f => simp [hr] at hiter
          | ok r =>
            simp only [hr] at hiter
            obtain ⟨j, e, hi, hget, hfreq⟩ :=
              get_next_random_node_scan_edge state.counter_list r 0 i hiter
            have : i = j := by omega
            subst this
            exact ⟨e, hget, hfreq⟩
      obtain ⟨e, hget, hfreq⟩ := hscan
      simp only [hget, next_node_data] at h
      cases hnode : e.markov_node with
      | none => simp [hnode] at h
      | some node =>
        simp only [hnode] at h
        by_cases hlt : node < mc.database.length
        · simp only [hlt, ↓reduceIte, Res.ok.injEq] at h
          subst h
          exact ⟨state, e, hstate, List.getElem?_mem hget, hnode, hfreq, hlt⟩
        · simp [hlt] at h

theorem generate_random_sequence_loop_edges (mc : MarkovChain T) (rands : Nat → Nat)
    (budget pos next : Nat) (max_length : Int) :
    (∀ first : Nat,
      (generate_random_sequence_loop mc rands budget pos next max_length).emitted[0]? =
        some first → EdgeTo mc next first) ∧
    (∀ i p n : Nat,
      (generate_random_sequence_loop mc rands budget pos next max_length).emitted[i]? =
        some p →
      (generate_random_sequence_loop mc rands budget pos next max_length).emitted[i + 1]? =
        some n → EdgeTo mc p n) := by
  induction budget generalizing pos next max_length with
  | zero => simp [generate_random_sequence_loop]
  | succ budget ih =>
    cases hnext : get_next_random_node mc next (rands pos) with
    | fault f => simp [generate_random_sequence_loop, hnext]
    | ok next1 =>
      have hlt := get_next_random_node_lt mc next (rands pos) next1 hnext
      have hedge := get_next_random_node_edge mc next (rands pos) next1 hnext
      rw [generate_random_sequence_loop_step mc rands budget pos next next1 max_length hnext
        hlt]
      by_cases hcont : max_length - 1 > 0 ∧ is_last_node mc next1 = false
      · rw [if_pos hcont]
        obtain ⟨hfirst, hrest⟩ := ih (pos + 1) next1 (max_length - 1)
        constructor
        · intro first h
          simp only [List.getElem?_cons_zero, Option.some.injEq] at h
          subst h
          exact hedge
        · intro i p n hp hn
          cases i with
          | zero =>
            simp only [List.getElem?_cons_zero, Option.some.injEq] at hp
            subst hp
            simp only [List.getElem?_cons_succ] at hn
            exact hfirst n hn
          | succ i =>
            simp only [List.getElem?_cons_succ] at hp hn
            exact hrest i p n hp hn
      · rw [if_neg hcont]
        constructor
        · intro first h
          simp only [List.getElem?_cons_zero, Option.some.injEq] at h
          subst h
          exact hedge
        · intro i p n hp hn
          simp at hn

/-- C23: in every walk that `generate_random_sequence` emits, each state emitted after the
first is the target of an edge of frequency at least 1 in the edge list of the state
emitted just before it, and is a state of the registry.  This holds of every chain and
of every walk, also of the part emitted before a fault; the edge invariant is not
needed for it. -/
theorem generate_random_sequence_follows_edges (fuel : Nat) (rands : Nat → Nat)
    (mc : MarkovChain T) (first_node : Option Nat) (max_length : Int) (i prev next : Nat)
    (hprev : (generate_random_sequence fuel rands mc first_node max_length).emitted[i]? =
      some prev)
    (hnext : (generate_random_sequence fuel rands mc first_node max_length).emitted[i + 1]? =
      some next) :
    ∃ state e, mc.database[prev]? = some state ∧ e ∈ state.counter_list ∧
      e.markov_node = some next ∧ 1 ≤ e.frequency ∧ next < mc.database.length := by
  unfold generate_random_sequence at hprev hnext
  generalize (match first_node with
    | none => get_first_random_node mc rands fuel 0
    | some node => some (.ok (node, 0))) = start at hprev hnext
  match start with
  | none => simp at hprev
  | some (.fault f) => simp at hprev
  | some (.ok (start, pos)) =>
    cases hstate : mc.database[start]? with
    | none => simp [hstate] at hprev
    | some state =>
      simp only [hstate] at hprev hnext
      obtain ⟨hfirst, hrest⟩ := generate_random_sequence_loop_edges mc rands
        ((max_length - 1).toNat + 1) pos start (max_length - 1)
      cases i with
      | zero =>
        simp only [List.getElem?_cons_zero, Option.some.injEq] at hprev
        subst hprev
        simp only [List.getElem?_cons_succ] at hnext
        exact hfirst next hnext
      | succ i =>
        simp only [List.getElem?_cons_succ] at hprev hnext
        exact hrest i prev next hprev hnext

/-- Example for C23: the second step of the walk from `a` in the three-word chain, from
`b` to `c.`. -/
theorem generate_random_sequence_follows_edges_witness :
    (generate_random_sequence 0 (fun _ => 0) scenario_abc_chain (some 0) 5).emitted[1]? =
      some 1 ∧
    (generate_random_sequence 0 (fun _ => 0) scenario_abc_chain (some 0) 5).emitted[1 + 1]? =
      some 2 ∧
    ∃ state e, scenario_abc_chain.database[1]? = some state ∧ e ∈ state.counter_list ∧
      e.markov_node = some 2 ∧ 1 ≤ e.frequency ∧ 2 < scenario_abc_chain.database.length :=
  ⟨by decide, by decide,
    generate_random_sequence_follows_edges 0 (fun _ => 0) scenario_abc_chain (some 0) 5 1 1 2
      (by decide) (by decide)⟩

/-! ## Counting the recorded transitions -/

theorem total_weight_append (l1 l2 : List NextNodeCounter) :
    total_weight (l1 ++ l2) = total_weight l1 + total_weight l2 := by
  simp [total_weight]

theorem node_counts_append (size n b s : Nat) (d : Option T) (l : List NextNodeCounter)
    (c : Nat → Nat) (h : NodeCounts size ⟨d, l, n⟩ s c) (hb : b < size)
    (habsent : ∀ e ∈ l, e.markov_node ≠ some b) :
    NodeCounts size ⟨d, l ++ [⟨some b, 1⟩], l.length + 1⟩ (s + 1)
      (fun t => c t + if t = b then 1 else 0) := by
  obtain ⟨-, htargets, hweight, hfilter⟩ := h
  simp only at htargets hweight hfilter
  have hnone : l.filter (fun e => e.markov_node = some b) = [] := by
    rw [List.filter_eq_nil_iff]
    intro e he
    simpa using habsent e he
  have hc : c b = 0 := by
    by_contra hne
    have := hfilter b
    rw [hnone, if_neg hne] at this
    exact List.noConfusion this
  refine ⟨by simp, ?_, ?_, ?_⟩
  · intro e he
    simp only [List.mem_append, List.mem_singleton] at he
    rcases he with he | he
    · exact htargets e he
    · subst he
      exact ⟨b, rfl, hb⟩
  · simp only
    rw [total_weight_append, hweight]
    simp [total_weight]
  · intro t
    simp only [List.filter_append]
    by_cases htb : t = b
    · subst htb
      rw [hnone, hc]
      simp
    · have hbt : ¬ (b = t) := fun h => htb h.symm
      rw [hfilter t]
      simp [htb, hbt]

theorem node_counts_increment (size n b s : Nat) (d : Option T)
    (l1 l2 : List NextNodeCounter) (e : NextNodeCounter) (c : Nat → Nat)
    (h : NodeCounts size ⟨d, l1 ++ e :: l2, n⟩ s c) (he : e.markov_node = some b) :
    NodeCounts size ⟨d, l1 ++ ⟨some b, e.frequency + 1⟩ :: l2, n⟩ (s + 1)
      (fun t => c t + if t = b then 1 else 0) := by
  obtain ⟨hlen, htargets, hweight, hfilter⟩ := h
  simp only at hlen htargets hweight hfilter
  refine ⟨by simpa using hlen, ?_, ?_, ?_⟩
  · intro x hx
    simp only [List.mem_append, List.mem_cons] at hx
    rcases hx with hx | hx | hx
    · exact htargets x (by simp [hx])
    · subst hx
      exact ⟨b, rfl, by
        obtain ⟨t, ht, hlt⟩ := htargets e (by simp)
        rw [he] at ht
        simp only [Option.some.injEq] at ht
        omega⟩
    · exact htargets x (by simp [hx])
  · simp only [total_weight, List.map_append, List.map_cons, List.sum_append,
      List.sum_cons] at hweight ⊢
    omega
  · intro t
    have hft := hfilter t
    simp only [List.filter_append, List.filter_cons, he] at hft ⊢
    by_cases htb : b = t
    · subst htb
      simp only [decide_True, ↓reduceIte] at hft ⊢
      by_cases hc : c b = 0
      · rw [if_pos hc] at hft
        simp at hft
      · rw [if_neg hc] at hft
        have hl1 : l1.filter (fun x => x.markov_node = some b) = [] := by
          cases hl : l1.filter (fun x => x.markov_node = some b) with
          | nil => rfl
          | cons x xs =>
            rw [hl] at hft
            simp at hft
        rw [hl1] at hft ⊢
        simp only [List.nil_append, List.cons.injEq] at hft ⊢
        obtain ⟨hee, hl2⟩ := hft
        rw [hl2, hee]
        simp
    · have htb' : ¬ (t = b) := fun h => htb h.symm
      simp only [Option.some.injEq, htb, decide_False, Bool.false_eq_true, ↓reduceIte]
        at hft ⊢
      rw [hft]
      simp [htb']

theorem get_node_from_database_loop_congr (comp_func : Option T → Option T → Int)
    (data_ptr : Option T) (l l1 : List (MarkovNode T)) (i : Nat)
    (h : l.map (fun n => n.data) = l1.map (fun n => n.data)) :
    get_node_from_database_loop comp_func data_ptr l i =
      get_node_from_database_loop comp_func data_ptr l1 i := by
  induction l generalizing l1 i with
  | nil =>
    cases l1 with
    | nil => rfl
    | cons hd1 tl1 => simp at h
  | cons hd tl ih =>
    cases l1 with
    | nil => simp at h
    | cons hd1 tl1 =>
      simp only [List.map_cons, List.cons.injEq] at h
      simp only [get_node_from_database_loop, h.1]
      rw [ih tl1 (i + 1) h.2]

/-- Replacing a state by one with the same payload does not change any lookup. -/
theorem get_node_from_database_set (mc : MarkovChain T) (a : Nat)
    (first first1 : MarkovNode T) (hfirst : mc.database[a]? = some first)
    (hdata : first1.data = first.data) (d : Option T) :
    get_node_from_database
        ⟨mc.database.set a first1, mc.comp_func, mc.copy_func, mc.is_last⟩ d =
      get_node_from_database mc d := by
  have hmap : (mc.database.set a first1).map (fun n => n.data) =
      mc.database.map (fun n => n.data) := by
    rw [List.map_set, hdata]
    exact list_set_same _ a _ (by simp [hfirst])
  have hempty : (mc.database.set a first1).isEmpty = mc.database.isEmpty := by
    cases h : mc.database with
    | nil => rfl
    | cons hd tl => cases a <;> rfl
  unfold get_node_from_database
  simp only
  rw [hempty, get_node_from_database_loop_congr _ _ _ _ 0 hmap]

/-- Replacing the state `a` by a state with the same payload whose bookkeeping counts one
more transition to `b` keeps the bookkeeping of the whole chain, with that transition
counted, and keeps the lookups. -/
theorem node_counts_set (mc : MarkovChain T) (a b : Nat) (s : Nat → Nat)
    (c : Nat → Nat → Nat) (first first1 : MarkovNode T)
    (hfirst : mc.database[a]? = some first) (hdata : first1.data = first.data)
    (hnodes : ∀ (i : Nat) (state : MarkovNode T), mc.database[i]? = some state →
      NodeCounts mc.database.length state (s i) (c i))
    (hlook : ∀ (i : Nat) (state : MarkovNode T), mc.database[i]? = some state →
      get_node_from_database mc state.data = some i)
    (hnew : NodeCounts mc.database.length first1 (s a + 1)
      (fun t => c a t + if t = b then 1 else 0)) :
    (∀ (i : Nat) (state : MarkovNode T), (mc.database.set a first1)[i]? = some state →
      NodeCounts (mc.database.set a first1).length state
        (s i + if i = a then 1 else 0)
        (fun t => c i t + if i = a ∧ t = b then 1 else 0)) ∧
    (∀ (i : Nat) (state : MarkovNode T), (mc.database.set a first1)[i]? = some state →
      get_node_from_database
        ⟨mc.database.set a first1, mc.comp_func, mc.copy_func, mc.is_last⟩ state.data =
        some i) := by
  have ha : a < mc.database.length := (List.getElem?_eq_some.1 hfirst).1
  constructor
  · intro i state hi
    rw [List.length_set]
    by_cases hia : i = a
    · subst hia
      rw [List.getElem?_set_self ha] at hi
      simp only [Option.some.injEq] at hi
      subst hi
      simpa using hnew
    · rw [List.getElem?_set_ne (fun h => hia h.symm)] at hi
      simpa [hia] using hnodes i state hi
  · intro i state hi
    obtain ⟨n0, hn0, hdata0⟩ :=
      getElem?_set_data mc.database a i first first1 state hfirst hdata hi
    rw [get_node_from_database_set mc a first first1 hfirst hdata, ← hdata0]
    exact hlook i n0 hn0

/-- One recorded transition from `a` to `b`, on a chain whose bookkeeping matches the
counts `s` and `c` and whose payloads resolve to their own states: the call returns true
and the bookkeeping matches the counts with that transition added. -/
theorem add_node_to_counter_list_counts (mc : MarkovChain T) (a b : Nat) (s : Nat → Nat)
    (c : Nat → Nat → Nat) (ha : a < mc.database.length) (hb : b < mc.database.length)
    (hnodes : ∀ (i : Nat) (state : MarkovNode T), mc.database[i]? = some state →
      NodeCounts mc.database.length state (s i) (c i))
    (hlook : ∀ (i : Nat) (state : MarkovNode T), mc.database[i]? = some state →
      get_node_from_database mc state.data = some i) :
    ∃ mc1, add_node_to_counter_list true a b mc = .ok (true, mc1) ∧
      mc1.database.length = mc.database.length ∧
      (∀ (i : Nat) (state : MarkovNode T), mc1.database[i]? = some state →
        NodeCounts mc1.database.length state (s i + if i = a then 1 else 0)
          (fun t => c i t + if i = a ∧ t = b then 1 else 0)) ∧
      (∀ (i : Nat) (state : MarkovNode T), mc1.database[i]? = some state →
        get_node_from_database mc1 state.data = some i) := by
  obtain ⟨first, hfirst⟩ : ∃ first, mc.database[a]? = some first :=
    ⟨mc.database[a], List.getElem?_eq_getElem ha⟩
  obtain ⟨second, hsecond⟩ : ∃ second, mc.database[b]? = some second :=
    ⟨mc.database[b], List.getElem?_eq_getElem hb⟩
  have hN := hnodes a first hfirst
  obtain ⟨d, l, n⟩ := first
  have hlen : n = l.length := hN.1
  have htargets : ∀ e ∈ l, ∃ t, e.markov_node = some t ∧ t < mc.database.length := hN.2.1
  rcases counter_list_split b l with habsent | ⟨l1, e, l2, hl, he, h1⟩
  · have hcall := add_node_to_counter_list_absent mc a b ⟨d, l, n⟩ second hfirst hsecond
      hlen htargets habsent
    rw [hlook b second hsecond] at hcall
    simp only at hcall
    have hnew := node_counts_append mc.database.length n b (s a) d l (c a) hN hb habsent
    obtain ⟨h1, h2⟩ := node_counts_set mc a b s c ⟨d, l, n⟩
      ⟨d, l ++ [⟨some b, 1⟩], l.length + 1⟩ hfirst rfl hnodes hlook hnew
    exact ⟨_, hcall, by simp, h1, h2⟩
  · subst hl
    have hcall := add_node_to_counter_list_present mc true a b ⟨d, l1 ++ e :: l2, n⟩ l1 l2 e
      hfirst hb rfl hlen he (fun x hx => htargets x (by simp [hx])) h1
    simp only at hcall
    have hnew := node_counts_increment mc.database.length n b (s a) d l1 l2 e (c a) hN he
    obtain ⟨h1, h2⟩ := node_counts_set mc a b s c ⟨d, l1 ++ e :: l2, n⟩
      ⟨d, l1 ++ ⟨some b, e.frequency + 1⟩ :: l2, n⟩ hfirst rfl hnodes hlook hnew
    exact ⟨_, hcall, by simp, h1, h2⟩

/-- A run of recorded transitions on registry states, on a chain whose bookkeeping matches
the counts `s` and `c`: the run returns and the bookkeeping matches the counts with every
call of the run added. -/
theorem add_node_to_counter_list_all_from (calls : List (Nat × Nat)) :
    ∀ (mc : MarkovChain T) (s : Nat → Nat) (c : Nat → Nat → Nat),
    (∀ p ∈ calls, p.1 < mc.database.length ∧ p.2 < mc.database.length) →
    (∀ (i : Nat) (state : MarkovNode T), mc.database[i]? = some state →
      NodeCounts mc.database.length state (s i) (c i)) →
    (∀ (i : Nat) (state : MarkovNode T), mc.database[i]? = some state →
      get_node_from_database mc state.data = some i) →
    ∃ mc1, add_node_to_counter_list_all calls mc = .ok mc1 ∧
      mc1.database.length = mc.database.length ∧
      ∀ (i : Nat) (state : MarkovNode T), mc1.database[i]? = some state →
        NodeCounts mc1.database.length state
          (s i + calls.countP (fun p => p.1 = i)) (fun t => c i t + calls.count (i, t)) := by
  induction calls with
  | nil =>
    intro mc s c _ hnodes _
    exact ⟨mc, rfl, rfl, by simpa using hnodes⟩
  | cons p rest ih =>
    intro mc s c hcalls hnodes hlook
    obtain ⟨a, b⟩ := p
    obtain ⟨ha, hb⟩ := hcalls (a, b) (by simp)
    obtain ⟨mc1, hcall, hlen1, hnodes1, hlook1⟩ :=
      add_node_to_counter_list_counts mc a b s c ha hb hnodes hlook
    obtain ⟨mc2, hrun, hlen2, hnodes2⟩ := ih mc1 _ _
      (fun q hq => by rw [hlen1]; exact hcalls q (by simp [hq])) hnodes1 hlook1
    refine ⟨mc2, ?_, by rw [hlen2, hlen1], ?_⟩
    · simp only [add_node_to_counter_list_all, hcall]
      exact hrun
    · intro i state hi
      have h := hnodes2 i state hi
      have hs : s i + (if i = a then 1 else 0) + rest.countP (fun p => p.1 = i) =
          s i + ((a, b) :: rest).countP (fun p => p.1 = i) := by
        rw [List.countP_cons]
        by_cases hia : i = a
        · subst hia
          simp
          omega
        · have hai : ¬ (a = i) := fun h => hia h.symm
          simp [hia, hai]
      have hc : (fun t => c i t + (if i = a ∧ t = b then 1 else 0) + rest.count (i, t)) =
          (fun t => c i t + ((a, b) :: rest).count (i, t)) := by
        funext t
        rw [List.count_cons]
        by_cases hit : i = a ∧ t = b
        · obtain ⟨rfl, rfl⟩ := hit
          simp
          omega
        · have hne : ¬ ((a, b) = (i, t)) := by
            intro h
            simp only [Prod.mk.injEq] at h
            exact hit ⟨h.1.symm, h.2.symm⟩
          simp [hit, hne]
      rw [← hs, ← hc]
      exact h

/-- C21: from a chain whose states have no edges and whose payloads resolve to their own
states (as in every registry built by `add_to_database`), any sequence of
`add_node_to_counter_list` calls on registry states returns; the registry keeps its size;
and afterwards, for every state `a`, `get_counter_list_sum` of `a` is the number of calls
whose source was `a`, and for every target `b` the edge list of `a` holds no edge to `b`
if no call had source `a` and target `b`, and otherwise exactly one edge to `b`, whose
frequency is the number of those calls. -/
theorem add_node_to_counter_list_all_counts (mc : MarkovChain T)
    (calls : List (Nat × Nat))
    (hempty : ∀ state ∈ mc.database,
      state.counter_list = [] ∧ state.counter_list_length = 0)
    (hlook : ∀ (i : Nat) (state : MarkovNode T), mc.database[i]? = some state →
      get_node_from_database mc state.data = some i)
    (hcalls : ∀ p ∈ calls, p.1 < mc.database.length ∧ p.2 < mc.database.length) :
    ∃ mc1, add_node_to_counter_list_all calls mc = .ok mc1 ∧
      mc1.database.length = mc.database.length ∧
      ∀ (a : Nat) (state : MarkovNode T), mc1.database[a]? = some state →
        get_counter_list_sum state = .ok (calls.countP (fun p => p.1 = a)) ∧
        ∀ b : Nat, state.counter_list.filter (fun e => e.markov_node = some b) =
          if calls.count (a, b) = 0 then [] else [⟨some b, calls.count (a, b)⟩] := by
  have hnodes : ∀ (i : Nat) (state : MarkovNode T), mc.database[i]? = some state →
      NodeCounts mc.database.length state ((fun _ => 0) i) ((fun _ _ => 0) i) := by
    intro i state hi
    obtain ⟨hl, hn⟩ := hempty state (List.getElem?_mem hi)
    refine ⟨by rw [hl, hn]; rfl, ?_, ?_, ?_⟩
    · intro e he
      rw [hl] at he
      simp at he
    · rw [hl]
      rfl
    · intro b
      rw [hl]
      rfl
  obtain ⟨mc1, hrun, hlen, hcounts⟩ :=
    add_node_to_counter_list_all_from calls mc (fun _ => 0) (fun _ _ => 0) hcalls hnodes hlook
  refine ⟨mc1, hrun, hlen, ?_⟩
  intro a state ha
  obtain ⟨hl, -, hweight, hfilter⟩ := hcounts a state ha
  constructor
  · rw [get_counter_list_sum_eq state hl, hweight]
    simp
  · intro b
    simpa using hfilter b

/-- Example for C21: four transitions recorded on the registry of `a` and `b`, with
sources and targets interleaved. -/
theorem add_node_to_counter_list_all_counts_witness :
    (∀ state ∈ scenario_registry_chain.database,
      state.counter_list = [] ∧ state.counter_list_length = 0) ∧
    ∃ mc1, add_node_to_counter_list_all [(0, 1), (1, 0), (0, 1), (0, 0)]
        scenario_registry_chain = .ok mc1 ∧
      mc1.database.length = scenario_registry_chain.database.length ∧
      ∀ (a : Nat) (state : MarkovNode String), mc1.database[a]? = some state →
        get_counter_list_sum state =
          .ok (([(0, 1), (1, 0), (0, 1), (0, 0)] : List (Nat × Nat)).countP
            (fun p => p.1 = a)) ∧
        ∀ b : Nat, state.counter_list.filter (fun e => e.markov_node = some b) =
          if ([(0, 1), (1, 0), (0, 1), (0, 0)] : List (Nat × Nat)).count (a, b) = 0 then []
          else [⟨some b, ([(0, 1), (1, 0), (0, 1), (0, 0)] : List (Nat × Nat)).count (a, b)⟩] :=
  ⟨by decide,
    add_node_to_counter_list_all_counts scenario_registry_chain
      [(0, 1), (1, 0), (0, 1), (0, 0)] (by decide)
      (by
        intro i state hi
        match i with
        | 0 =>
          simp only [scenario_registry_chain, List.getElem?_cons_zero,
            Option.some.injEq] at hi
          subst hi
          decide
        | 1 =>
          simp only [scenario_registry_chain, List.getElem?_cons_succ,
            List.getElem?_cons_zero, Option.some.injEq] at hi
          subst hi
          decide
        | n + 2 => simp [scenario_registry_chain] at hi)
      (by decide)⟩

/-! ## A failed `realloc` in a chain that is kept -/

theorem scenario_abc_edge_invariant : EdgeInvariant scenario_abc_chain := by
  intro state hstate
  simp only [scenario_abc_chain, List.mem_cons, List.mem_singleton, List.not_mem_nil,
    or_false] at hstate
  rcases hstate with rfl | rfl | rfl
  · exact ⟨rfl, fun e he => by
      simp only [List.mem_singleton] at he
      subst he
      exact ⟨⟨1, rfl, by decide⟩, by decide⟩⟩
  · exact ⟨rfl, fun e he => by
      simp only [List.mem_singleton] at he
      subst he
      exact ⟨⟨2, rfl, by decide⟩, by decide⟩⟩
  · exact ⟨rfl, fun e he => by simp at he⟩

/-- C11 does not hold of the code: the three-word chain is built by the two operations and
satisfies the edge invariant; in it `b` has one edge, to `c.`, and none to `a`.  When
`realloc` fails, `add_node_to_counter_list (b, a)` returns `true`, so the chain is kept,
and it leaves `b` with a `NULL` edge list of recorded length 1: in the chain reached, the
`counter_list_length` of `b` is not the number of its edges and the edge invariant is
broken. -/
theorem add_node_to_counter_list_realloc_failure_breaks_edge_invariant :
    Built scenario_abc_chain ∧ EdgeInvariant scenario_abc_chain ∧
    scenario_abc_chain.database[1]? = some ⟨some "b", [⟨some 2, 1⟩], 1⟩ ∧
    ∃ mc1 state, add_node_to_counter_list false 1 0 scenario_abc_chain = .ok (true, mc1) ∧
      mc1.database[1]? = some state ∧
      state.counter_list = [] ∧ state.counter_list_length = 1 ∧
      state.counter_list_length ≠ state.counter_list.length ∧
      ¬ EdgeInvariant mc1 :=
  ⟨scenario_abc_built, scenario_abc_edge_invariant, rfl,
    ⟨[⟨some "a", [⟨some 1, 1⟩], 1⟩, ⟨some "b", [], 1⟩, ⟨some "c.", [], 0⟩],
      Tweets.compare_words, Tweets.copy_word true, Tweets.is_last_word⟩,
    ⟨some "b", [], 1⟩, rfl, rfl, rfl, rfl, by decide,
    fun h => absurd (h ⟨some "b", [], 1⟩ (by simp)).1 (by decide)⟩

/-- C12 does not hold of the code: in the chain of the line `c. a c.` the state `a` has one
edge, to `c.`, and none to itself.  When `realloc` succeeds,
`add_node_to_counter_list (a, a)` appends the edge `(a, 1)` and the edge to `c.` keeps
its place.  When `realloc` fails, the same call returns `true` as well, appends nothing
and removes the edge to `c.`: the edge list of `a` is left empty, with a recorded length
of 1. -/
theorem add_node_to_counter_list_realloc_failure_removes_edges :
    scenario_cycle_chain.database[1]? = some ⟨some "a", [⟨some 0, 1⟩], 1⟩ ∧
    (∃ mc1, add_node_to_counter_list true 1 1 scenario_cycle_chain = .ok (true, mc1) ∧
      mc1.database[1]? = some ⟨some "a", [⟨some 0, 1⟩, ⟨some 1, 1⟩], 2⟩) ∧
    ∃ mc1 state, add_node_to_counter_list false 1 1 scenario_cycle_chain = .ok (true, mc1) ∧
      mc1.database[1]? = some state ∧
      state.counter_list = [] ∧ state.counter_list[0]? = none ∧
      state.counter_list_length = 1 ∧
      ∀ j : Nat, j ≠ 1 → mc1.database[j]? = scenario_cycle_chain.database[j]? :=
  ⟨rfl,
    ⟨⟨[⟨some "c.", [⟨some 1, 1⟩], 1⟩, ⟨some "a", [⟨some 0, 1⟩, ⟨some 1, 1⟩], 2⟩],
      Tweets.compare_words, Tweets.copy_word true, Tweets.is_last_word⟩, rfl, rfl⟩,
    ⟨[⟨some "c.", [⟨some 1, 1⟩], 1⟩, ⟨some "a", [], 1⟩],
      Tweets.compare_words, Tweets.copy_word true, Tweets.is_last_word⟩,
    ⟨some "a", [], 1⟩, rfl, rfl, rfl, rfl, rfl, fun j hj => by
      match j with
      | 0 => rfl
      | 1 => exact absurd rfl hj
      | n + 2 => rfl⟩

end GenericMarkovChain
